import Mathlib

/-!
# cppwin32 code writers

A shallow embedding of `cppwin32/code_writers.h`: the struct dependency sorter, the ABI
parameter writers, the linkage size accounting, the flag-enum operator template, the GUID
decoder and the COM interface writers, with the properties proved about them.

Metadata rows are addressed by index: a `TypeDef n` is a row of a TypeDef table with `n` rows,
and a `Database n` gives the content of every row.
-/

namespace cppwin32

set_option maxRecDepth 100000

/-! ## Metadata model -/

/-- Primitive element types of a metadata signature. -/
inductive ElementType where
  | End | Void | Boolean | Char | I1 | U1 | I2 | U2 | I4 | U4 | I8 | U8 | R4 | R8 | String
  | Ptr | ByRef | ValueType | Class | Var | Array | GenericInst | TypedByRef | I | U | FnPtr
  | Object | SZArray | MVar | CModReqd | CModOpt | Internal | Modifier | Sentinel | Pinned
  | Type | TaggedObject | Field | Property | Enum
deriving DecidableEq, Repr

/-- Native types of a field-marshal descriptor. -/
inductive NativeType where
  | Boolean | I1 | U1 | I2 | U2 | I4 | U4 | I8 | U8 | R4 | R8 | Lpstr | Lpwstr | Int | UInt
  | Func | Array | Max
deriving DecidableEq, Repr

/-- Result of the type classifier. -/
inductive category where
  | interface_type | class_type | enum_type | struct_type | delegate_type
deriving DecidableEq, Repr

/-- Layout bits of the type flags. -/
inductive TypeLayout where
  | AutoLayout | SequentialLayout | ExplicitLayout
deriving DecidableEq, Repr

/-- Access bits of the method flags. -/
inductive MemberAccess where
  | CompilerControlled | Private | FamAndAssem | Assembly | Family | FamOrAssem | Public
deriving DecidableEq, Repr

/-- A row of the TypeDef table of a database with `n` TypeDef rows. -/
abbrev TypeDef (n : Nat) := Fin n

/-- The coded index `TypeDefOrRef`: a TypeDef row, a TypeRef row or a TypeSpec row. -/
inductive TypeDefOrRef (n : Nat) where
  | TypeDef (row : TypeDef n)
  | TypeRef (row : Nat)
  | TypeSpec (row : Nat)
deriving DecidableEq, Repr

/-- The variant held by a `TypeSig`. -/
inductive TypeSigType (n : Nat) where
  | element (e : ElementType)
  | coded_index (i : TypeDefOrRef n)
  | GenericTypeIndex (i : Nat)
  | GenericTypeInstSig
  | GenericMethodTypeIndex (i : Nat)
deriving DecidableEq, Repr

/-- A type signature: the variant and the pointer depth. -/
structure TypeSig (n : Nat) where
  Type_ : TypeSigType n
  ptr_count : Nat := 0
deriving DecidableEq, Repr

/-- A fixed argument of a custom attribute. -/
inductive ElemSig where
  | int32 (v : Int)
  | string (v : String)
  | other
deriving DecidableEq, Repr

/-- A custom attribute: its type's namespace and name and its fixed arguments. -/
structure CustomAttribute where
  TypeNamespace : String
  TypeName : String
  FixedArgs : List ElemSig := []
deriving DecidableEq, Repr

/-- A row of the Field table. -/
structure Field (n : Nat) where
  Name : String
  Signature : TypeSig n
  Constant : Option String := none
  attributes : List CustomAttribute := []
deriving DecidableEq, Repr

/-- Flags of a Param row. -/
structure ParamAttributes where
  In : Bool := false
  Out : Bool := false
  HasFieldMarshal : Bool := false
deriving DecidableEq, Repr

/-- A row of the Param table, with the native type of its FieldMarshal row. -/
structure Param where
  Name : String
  Flags : ParamAttributes := {}
  FieldMarshal : NativeType := NativeType.Max
deriving DecidableEq, Repr

/-- Flags of a MethodDef row. -/
structure MethodAttributes where
  Access : MemberAccess := MemberAccess.Public
  Static : Bool := false
deriving DecidableEq, Repr

/-- A row of the MethodDef table with its decoded signature: `params` pairs every Param row
with its parameter signature, as `method_signature::params()` does. -/
structure MethodDef (n : Nat) where
  Name : String
  Flags : MethodAttributes := {}
  params : List (Param × TypeSig n) := []
  return_signature : Option (TypeSig n) := none
deriving DecidableEq, Repr

/-- The content of one TypeDef row.
Modelled from the spec: `category` is the result of the Type Classifier (`get_category` of
`helpers.h`, which is not part of the sources at hand) for the row. -/
structure TypeDefRow (n : Nat) where
  TypeNamespace : String
  TypeName : String
  Layout : TypeLayout := TypeLayout.SequentialLayout
  FieldList : List (Field n) := []
  MethodList : List (MethodDef n) := []
  EnclosingType : Option (TypeDef n) := none
  attributes : List CustomAttribute := []
  category : category := category.struct_type
deriving Repr

/-- A metadata database with `n` TypeDef rows. -/
structure Database (n : Nat) where
  row : TypeDef n → TypeDefRow n

/-- Errors raised by the writers. `out_of_fuel` is raised by no source line: it marks a
recursion of the embedding that was cut short, and the theorems show it is never returned. -/
inductive error where
  | invalid_argument (what : String)
  | assertion_failed (what : String)
  | bad_variant_access
  | out_of_fuel
deriving DecidableEq, Repr

/-- A `for (auto&& x : xs)` loop over a state, stopped by the first exception. -/
def for_each {α σ : Type} (f : σ → α → Except error σ) : List α → σ → Except error σ
  | [], s => Except.ok s
  | x :: xs, s =>
    match f s x with
    | Except.error e => Except.error e
    | Except.ok s1 => for_each f xs s1

/-! ## Struct dependency sorter -/

/-- A node of the dependency graph (`dependency_sorter::node`). -/
structure node (n : Nat) where
  edges : List (TypeDef n) := []
  temporary : Bool := false
  permanent : Bool := false
deriving DecidableEq, Repr

/-- Appends the edge unless the node already has it (linear search). -/
def node.add_edge {n : Nat} (nd : node n) (edge : TypeDef n) : node n :=
  if edge ∈ nd.edges then nd else { nd with edges := nd.edges ++ [edge] }

/-- The `std::map<TypeDef, node>`: its entries in increasing key order. -/
abbrev dependency_map (n : Nat) := List (TypeDef n × node n)

/-- Lookup of a key (`std::map::find`). -/
def map_find {n : Nat} : dependency_map n → TypeDef n → Option (node n)
  | [], _ => none
  | (k, v) :: rest, key => if k = key then some v else map_find rest key

/-- Insertion that keeps an existing entry (`std::map::insert`); the flag tells whether the
entry was inserted. -/
def map_insert {n : Nat} : dependency_map n → TypeDef n → node n → dependency_map n × Bool
  | [], key, v => ([(key, v)], true)
  | (k, x) :: rest, key, v =>
    if key < k then ((key, v) :: (k, x) :: rest, true)
    else if key = k then ((k, x) :: rest, false)
    else ((k, x) :: (map_insert rest key v).1, (map_insert rest key v).2)

/-- Update in place of the node stored under a key (a write through an iterator or a
reference to the entry). -/
def map_modify {n : Nat} (m : dependency_map n) (key : TypeDef n) (f : node n → node n) :
    dependency_map n :=
  m.map fun e => (e.1, if e.1 = key then f e.2 else e.2)

/-- One turn of the field loop of `add`: the target of a by-value field, if the field has
one (pointer depth 0, a TypeDef, not an enum). -/
def field_edge {n : Nat} (db : Database n) (field : Field n) : Option (TypeDef n) :=
  let signature := field.Signature
  if signature.ptr_count = 0 then
    match signature.Type_ with
    | TypeSigType.coded_index (TypeDefOrRef.TypeDef field_type_def) =>
      if (db.row field_type_def).category ≠ category.enum_type then some field_type_def
      else none
    | _ => none
  else none

/-- The function `dependency_sorter::add`; the fuel bounds the depth of the recursion. -/
def add {n : Nat} (db : Database n) :
    Nat → dependency_map n → TypeDef n → Except error (dependency_map n)
  | 0, _, _ => Except.error error.out_of_fuel
  | fuel + 1, m, type =>
    match map_insert m type {} with
    | (_, false) => Except.ok m
    | (m1, true) =>
      for_each (fun m2 field =>
        match field_edge db field with
        | some field_type_def =>
          add db fuel (map_modify m2 type fun nd => nd.add_edge field_type_def) field_type_def
        | none => Except.ok m2) (db.row type).FieldList m1

/-- The function `dependency_sorter::visit` on the entry of key `v`. The lookup of the entry
that the caller does (`dependency_map.find(edge)` with its assertion in `visit`, the iterator
in `sort`) is the first step here. The fuel bounds the depth of the recursion. -/
def visit {n : Nat} (db : Database n) :
    Nat → dependency_map n × List (TypeDef n) → TypeDef n →
      Except error (dependency_map n × List (TypeDef n))
  | 0, _, _ => Except.error error.out_of_fuel
  | fuel + 1, (m, sorted), v =>
    match map_find m v with
    | none => Except.error (error.assertion_failed "it != dependency_map.end()")
    | some nd =>
      if nd.permanent then Except.ok (m, sorted)
      else if nd.temporary then
        Except.error (error.invalid_argument "Cyclic dependency graph encountered")
      else
        match for_each (visit db fuel) nd.edges
            (map_modify m v fun x => { x with temporary := true }, sorted) with
        | Except.error e => Except.error e
        | Except.ok (m2, sorted2) =>
          Except.ok (map_modify m2 v fun x => { x with temporary := false, permanent := true },
            if (db.row v).EnclosingType.isNone then sorted2 ++ [v] else sorted2)

/-- The loop of `dependency_sorter::sort`: visit the first entry that is not permanent until
there is none; the fuel bounds the number of turns. -/
def sort_loop {n : Nat} (db : Database n) :
    Nat → dependency_map n → List (TypeDef n) → Except error (List (TypeDef n))
  | 0, _, _ => Except.error error.out_of_fuel
  | fuel + 1, m, result =>
    match m.find? (fun e => !e.2.permanent) with
    | none => Except.ok result
    | some e =>
      match visit db (m.length + 1) (m, result) e.1 with
      | Except.error err => Except.error err
      | Except.ok (m1, result1) => sort_loop db fuel m1 result1

/-- The function `dependency_sorter::sort`. -/
def sort {n : Nat} (db : Database n) (m : dependency_map n) : Except error (List (TypeDef n)) :=
  sort_loop db (m.length + 1) m []

/-- The `add` loop of `write_structs`, from an empty `dependency_sorter`. -/
def add_all {n : Nat} (db : Database n) (structs : List (TypeDef n)) :
    Except error (dependency_map n) :=
  for_each (fun m type => add db (n + 1) m type) structs []

/-- The order in which `write_structs` writes: `add` every struct, then `sort`. -/
def sorted_structs {n : Nat} (db : Database n) (structs : List (TypeDef n)) :
    Except error (List (TypeDef n)) :=
  match add_all db structs with
  | Except.error e => Except.error e
  | Except.ok m => sort db m

/-! ## Text sink -/

/-- The settings of the writer that the code writers read and set. -/
structure writer where
  type_namespace : String := ""
  abi_types : Bool := false
  full_namespace : Bool := false
deriving DecidableEq, Repr

/-- The writer inside the scope of the guard of `push_abi_types`. -/
def writer.push_abi_types (w : writer) (value : Bool) : writer :=
  { w with abi_types := value }

/-- The writer inside the scope of the guard of `push_full_namespace`. -/
def writer.push_full_namespace (w : writer) (value : Bool) : writer :=
  { w with full_namespace := value }

/-- Modelled from the spec: the writer overloads of `type_writers.h` and the name helper of
`helpers.h`, which are not part of the sources at hand: the Signature Translator's structural
rendering of a TypeDef, of a type signature and of a return signature under the current
settings of the writer, the code escaping used for `@`, and `get_impl_name`. -/
structure type_writers (n : Nat) where
  write_TypeDef : writer → TypeDef n → String
  write_TypeSig : writer → TypeSig n → String
  write_RetTypeSig : writer → Option (TypeSig n) → String
  write_code : String → String
  get_impl_name : String → String → String

/-- Modelled from the spec: the format expansion of `writer::write(format, args...)` of
`text_writer.h`, which is not part of the sources at hand. Text is copied; `^` copies the
character after it; `%` is replaced by the next argument and `@` by the code form of the next
argument; a `%` or `@` met when no argument is left is copied. -/
def write_segment (write_code : String → String) : List Char → List String → List Char
  | [], _ => []
  | c :: rest, args =>
    if c = '^' then
      match rest with
      | [] => []
      | next :: rest2 => next :: write_segment write_code rest2 args
    else if c = '%' then
      match args with
      | [] => c :: write_segment write_code rest []
      | first :: more => first.data ++ write_segment write_code rest more
    else if c = '@' then
      match args with
      | [] => c :: write_segment write_code rest []
      | first :: more => (write_code first).data ++ write_segment write_code rest more
    else c :: write_segment write_code rest args

/-- The text written by `w.write(format, args...)`. -/
def write {n : Nat} (tw : type_writers n) (format : String) (args : List String) : String :=
  String.mk (write_segment tw.write_code format.data args)

/-- The number of placeholders (`%` or `@` not escaped by `^`) of a format: the writer
asserts that a call passes no more arguments than that. -/
def placeholders : List Char → Nat
  | [] => 0
  | c :: rest =>
    if c = '^' then
      match rest with
      | [] => 0
      | _ :: rest2 => placeholders rest2
    else if c = '%' ∨ c = '@' then placeholders rest + 1
    else placeholders rest

/-- Modelled from the spec: `throw_invalid` of the metadata library, which raises
`std::invalid_argument` with the concatenation of its arguments. -/
def throw_invalid {α : Type} (message : List String) : Except error α :=
  Except.error (error.invalid_argument (String.join message))

/-- Modelled from the spec: `get_attribute` of `helpers.h`, which is not part of the sources at
hand: the attribute of the given namespace and name among the attributes of a row, if any. -/
def get_attribute (attributes : List CustomAttribute) (type_namespace type_name : String) :
    Option CustomAttribute :=
  attributes.find? fun a => a.TypeNamespace = type_namespace ∧ a.TypeName = type_name

/-! ## ABI parameters and linkage size -/

/-- The type string chosen by the body of the loop of `write_abi_params`. -/
def abi_param_type {n : Nat} (tw : type_writers n) (w : writer) (p : Param × TypeSig n) :
    String :=
  if p.1.Flags.HasFieldMarshal then
    match p.1.FieldMarshal with
    | NativeType.Lpstr => if p.1.Flags.In then "const char*" else "char*"
    | NativeType.Lpwstr => if p.1.Flags.In then "const wchar_t*" else "wchar_t*"
    | _ => write tw "%" [tw.write_TypeSig w p.2]
  else write tw "%" [tw.write_TypeSig w p.2]

/-- A loop that writes one item per element, with the `separator` of `helpers.h` called first
in every turn: it writes `, ` in every turn but the first. -/
def write_separated {α : Type} (item : α → String) (xs : List α) : String :=
  (xs.foldl (fun (st : String × Bool) x =>
    (st.1 ++ (if st.2 then "" else ", ") ++ item x, false)) ("", true)).1

/-- The function `write_abi_params`. -/
def write_abi_params {n : Nat} (tw : type_writers n) (w : writer) (method_signature : MethodDef n) :
    String :=
  write_separated (fun p => write tw "% %" [abi_param_type tw w p, p.1.Name])
    method_signature.params

/-- The function `write_abi_return`. -/
def write_abi_return {n : Nat} (tw : type_writers n) (w : writer) (sig : Option (TypeSig n)) :
    String :=
  match sig with
  | some t => tw.write_TypeSig w t
  | none => "void"

/-- The function `get_param_size`. -/
def get_param_size {n : Nat} (param : TypeSig n) : Nat :=
  match param.Type_ with
  | TypeSigType.element e =>
    if param.ptr_count = 0 then
      match e with
      | ElementType.U8 => 8
      | ElementType.I8 => 8
      | ElementType.R8 => 8
      | _ => 4
    else 4
  | _ => 4

/-- The function `write_abi_link`. -/
def write_abi_link {n : Nat} (tw : type_writers n) (method_signature : MethodDef n) : String :=
  let count := method_signature.params.foldl (fun count p => count + get_param_size p.2) 0
  write tw "%, %" [method_signature.Name, toString count]

/-- The type string chosen by the body of the loop of `write_method_params`. -/
def method_param_type {n : Nat} (tw : type_writers n) (w : writer) (p : Param × TypeSig n) :
    String :=
  if p.1.Flags.HasFieldMarshal then
    match p.1.FieldMarshal with
    | NativeType.Lpstr => if p.1.Flags.In then "const char*" else "char*"
    | NativeType.Lpwstr => if p.1.Flags.In then "const wchar_t*" else "wchar_t*"
    | _ => write tw "%" [tw.write_TypeSig w p.2]
  else write tw "%" [tw.write_TypeSig w p.2]

/-- The function `write_method_params`. -/
def write_method_params {n : Nat} (tw : type_writers n) (w : writer)
    (method_signature : MethodDef n) : String :=
  write_separated (fun p => write tw "% %" [method_param_type tw w p, p.1.Name])
    method_signature.params

/-- The type string chosen by the body of the loop of `write_delegate_params`. -/
def delegate_param_type {n : Nat} (tw : type_writers n) (w : writer) (p : Param × TypeSig n) :
    String :=
  if p.1.Flags.HasFieldMarshal then
    match p.1.FieldMarshal with
    | NativeType.Lpstr => if p.1.Flags.In then "const char*" else "char*"
    | NativeType.Lpwstr => if p.1.Flags.In then "const wchar_t*" else "wchar_t*"
    | _ => write tw "%" [tw.write_TypeSig w p.2]
  else write tw "%" [tw.write_TypeSig w p.2]

/-- The function `write_delegate_params`. -/
def write_delegate_params {n : Nat} (tw : type_writers n) (w : writer)
    (method_signature : MethodDef n) : String :=
  write_separated (fun p => write tw "%" [delegate_param_type tw w p]) method_signature.params

/-! ## Flag-enum operators -/

/-- The format of `write_enum_operators`. -/
def enum_operators_format : String :=
    "    constexpr auto operator|(% const left, % const right) noexcept\n" ++
    "    \x7b\n" ++
    "        return static_cast<%>(_impl_::to_underlying_type(left) | _impl_::to_underlying_type(right));\n" ++
    "    \x7d\n" ++
    "    constexpr auto operator|=(%& left, % const right) noexcept\n" ++
    "    \x7b\n" ++
    "        left = left | right;\n" ++
    "        return left;\n" ++
    "    \x7d\n" ++
    "    constexpr auto operator&(% const left, % const right) noexcept\n" ++
    "    \x7b\n" ++
    "        return static_cast<%>(_impl_::to_underlying_type(left) & _impl_::to_underlying_type(right));\n" ++
    "    \x7d\n" ++
    "    constexpr auto operator&=(%& left, % const right) noexcept\n" ++
    "    \x7b\n" ++
    "        left = left & right;\n" ++
    "        return left;\n" ++
    "    \x7d\n" ++
    "    constexpr auto operator~(% const value) noexcept\n" ++
    "    \x7b\n" ++
    "        return static_cast<%>(~_impl_::to_underlying_type(value));\n" ++
    "    \x7d\n" ++
    "    constexpr auto operator^^(% const left, % const right) noexcept\n" ++
    "    \x7b\n" ++
    "        return static_cast<%>(_impl_::to_underlying_type(left) ^^ _impl_::to_underlying_type(right));\n" ++
    "    \x7d\n" ++
    "    constexpr auto operator^^=(%& left, % const right) noexcept\n" ++
    "    \x7b\n" ++
    "        left = left ^^ right;\n" ++
    "        return left;\n" ++
    "    \x7d\n"

/-- The arguments that `write_enum_operators` passes after the format. -/
def enum_operators_args (name : String) : List String :=
  [name, name, name, name, name, name, name, name, name, name, name, name, name, name, name,
    name, name]

/-- The function `write_enum_operators`. -/
def write_enum_operators {n : Nat} (tw : type_writers n) (db : Database n) (type : TypeDef n) :
    String :=
  match get_attribute (db.row type).attributes "System" "FlagsAttribute" with
  | none => ""
  | some _ =>
    let name := (db.row type).TypeName
    write tw enum_operators_format (enum_operators_args name)

/-! ## GUID decoder -/

/-- The struct `guid`; `Data4` holds the 8 bytes. -/
structure guid where
  Data1 : Nat
  Data2 : Nat
  Data3 : Nat
  Data4 : List Nat
deriving DecidableEq, Repr

/-- The value of a character as a digit in base 16, as `std::from_chars` reads it. -/
def hex_digit_value (c : Char) : Option Nat :=
  if 48 ≤ c.toNat ∧ c.toNat ≤ 57 then some (c.toNat - 48)
  else if 97 ≤ c.toNat ∧ c.toNat ≤ 102 then some (c.toNat - 87)
  else if 65 ≤ c.toNat ∧ c.toNat ≤ 70 then some (c.toNat - 55)
  else none

/-- The call `std::from_chars(data + first, data + last, value, 16)` for an unsigned `value`
of `bits` bits, as the new content of `value`: the longest run of hexadecimal digits at the
start of the range is read; with no digit, or with a number that does not fit the type,
`value` is left as it was. -/
def from_chars (data : List Char) (first last : Nat) (value : Nat) (bits : Nat) : Nat :=
  let digits := ((data.drop first).take (last - first)).takeWhile
    fun c => (hex_digit_value c).isSome
  if digits = [] then value
  else
    let parsed := digits.foldl (fun acc c => 16 * acc + (hex_digit_value c).getD 0) 0
    if parsed < 2 ^ bits then parsed else value

/-- The function `to_guid`. A string is the list of its `char`s. `uninit` is the content of
the local `result` before the calls of `from_chars`, which the code does not initialise. -/
def to_guid (str : String) (uninit : guid) : Except error guid :=
  if str.length < 36 then throw_invalid ["Invalid GuidAttribute blob"]
  else
    let data := str.data
    Except.ok
      { Data1 := from_chars data 0 8 uninit.Data1 32
        Data2 := from_chars data 9 13 uninit.Data2 16
        Data3 := from_chars data 14 18 uninit.Data3 16
        Data4 :=
          [ from_chars data 19 21 (uninit.Data4.getD 0 0) 8,
            from_chars data 21 23 (uninit.Data4.getD 1 0) 8,
            from_chars data 24 26 (uninit.Data4.getD 2 0) 8,
            from_chars data 26 28 (uninit.Data4.getD 3 0) 8,
            from_chars data 28 30 (uninit.Data4.getD 4 0) 8,
            from_chars data 30 32 (uninit.Data4.getD 5 0) 8,
            from_chars data 32 34 (uninit.Data4.getD 6 0) 8,
            from_chars data 34 36 (uninit.Data4.getD 7 0) 8 ] }

/-- The upper-case hexadecimal digit of a value below 16. -/
def hex_digit_upper (d : Nat) : Char :=
  if d < 10 then Char.ofNat (48 + d) else Char.ofNat (55 + d)

/-- The hexadecimal digits of `value`, most significant first, in front of `acc`. -/
def to_hex_upper : Nat → Nat → List Char → List Char
  | 0, _, acc => acc
  | fuel + 1, value, acc =>
    if value / 16 = 0 then hex_digit_upper (value % 16) :: acc
    else to_hex_upper fuel (value / 16) (hex_digit_upper (value % 16) :: acc)

/-- The conversion `%0<width>X` of `printf`: upper-case hexadecimal digits, padded on the left
with zeros to the width. -/
def printf_X (width : Nat) (value : Nat) : String :=
  let digits := to_hex_upper (value + 1) value []
  String.mk (List.replicate (width - digits.length) '0' ++ digits)

/-- The function `write_guid_value`, with the format
`0x%08X,0x%04X,0x%04X,{ 0x%02X,0x%02X,0x%02X,0x%02X,0x%02X,0x%02X,0x%02X,0x%02X }`. -/
def write_guid_value (g : guid) : String :=
  "0x" ++ printf_X 8 g.Data1 ++ ",0x" ++ printf_X 4 g.Data2 ++ ",0x" ++ printf_X 4 g.Data3 ++
    ",\x7b 0x" ++ printf_X 2 (g.Data4.getD 0 0) ++ ",0x" ++ printf_X 2 (g.Data4.getD 1 0) ++
    ",0x" ++ printf_X 2 (g.Data4.getD 2 0) ++ ",0x" ++ printf_X 2 (g.Data4.getD 3 0) ++
    ",0x" ++ printf_X 2 (g.Data4.getD 4 0) ++ ",0x" ++ printf_X 2 (g.Data4.getD 5 0) ++
    ",0x" ++ printf_X 2 (g.Data4.getD 6 0) ++ ",0x" ++ printf_X 2 (g.Data4.getD 7 0) ++ " \x7d"

/-! ## COM interfaces -/

/-- The function `should_write_interface`. -/
def should_write_interface {n : Nat} (db : Database n) (type : TypeDef n) : Bool :=
  (db.row type).TypeName ≠ "IUnknown" ∧ (db.row type).MethodList.length ≥ 3

/-- The function `non_inherited_methods`: the method list from its fourth element on, after
the assertion that it has 3 elements at least. -/
def non_inherited_methods {n : Nat} (db : Database n) (type : TypeDef n) :
    Except error (List (MethodDef n)) :=
  let method_list := (db.row type).MethodList
  if method_list.length ≥ 3 then Except.ok (method_list.drop 3)
  else Except.error (error.assertion_failed "size(method_list) >= 3")

/-- The text written by one turn of the method loop of `write_interface_abi`. -/
def write_interface_abi_slot {n : Nat} (tw : type_writers n) (w : writer) (method : MethodDef n) :
    String :=
  write tw "            virtual % __stdcall %(%) noexcept = 0;\n"
    [write_abi_return tw w method.return_signature, method.Name, write_abi_params tw w method]

/-- The function `write_interface_abi`. -/
def write_interface_abi {n : Nat} (tw : type_writers n) (w : writer) (db : Database n)
    (type : TypeDef n) : Except error String :=
  if !should_write_interface db type then Except.ok ""
  else
    let head := write tw
      ("    template <> struct abi<%>\n" ++
       "    \x7b\n" ++
       "        struct __declspec(novtable) type : unknown_abi\n" ++
       "        \x7b\n") [tw.write_TypeDef w type]
    let abi_guard := w.push_abi_types true
    match non_inherited_methods db type with
    | Except.error e => Except.error e
    | Except.ok methods =>
      let slots := methods.foldl
        (fun out method => out ++ write_interface_abi_slot tw abi_guard method) ""
      Except.ok (head ++ slots ++ ("        \x7d;\n" ++ "    \x7d;\n"))

/-- The function `write_consume_params`. -/
def write_consume_params {n : Nat} (tw : type_writers n) (w : writer) (signature : MethodDef n) :
    String :=
  write_separated (fun p => write tw "% %" [tw.write_TypeSig w p.2, p.1.Name]) signature.params

/-- The function `write_consume_declaration`. -/
def write_consume_declaration {n : Nat} (tw : type_writers n) (w : writer)
    (method : MethodDef n) : String :=
  let name := method.Name
  write tw "        WIN32_IMPL_AUTO(%) %(%) const;\n"
    [tw.write_RetTypeSig w method.return_signature, name, write_consume_params tw w method]

/-- The function `write_consume`. -/
def write_consume {n : Nat} (tw : type_writers n) (w : writer) (db : Database n)
    (type : TypeDef n) : Except error String :=
  if !should_write_interface db type then Except.ok ""
  else
    let impl_name := tw.get_impl_name (db.row type).TypeNamespace (db.row type).TypeName
    match non_inherited_methods db type with
    | Except.error e => Except.error e
    | Except.ok methods =>
      let declarations := methods.foldl
        (fun out method => out ++ write_consume_declaration tw w method) ""
      Except.ok (write tw
        ("    struct consume_%\n" ++
         "    \x7b\n" ++
         "%    \x7d;\n") [impl_name, declarations])

/-- The function `write_interface`. -/
def write_interface {n : Nat} (tw : type_writers n) (db : Database n) (type : TypeDef n) :
    String :=
  if !should_write_interface db type then ""
  else
    let type_name := (db.row type).TypeName
    write tw
      ("    struct __declspec(empty_bases) % :\n" ++
       "        Microsoft::Windows::Sdk::IUnknown,\n" ++
       "        _impl_::consume_%\n" ++
       "    \x7b\n" ++
       "        %(std::nullptr_t = nullptr) noexcept \x7b\x7d\n" ++
       "        %(void* ptr, take_ownership_from_abi_t) noexcept : Microsoft::Windows::Sdk::IUnknown(ptr, take_ownership_from_abi) \x7b\x7d\n" ++
       "    \x7d;\n")
      [type_name, tw.get_impl_name (db.row type).TypeNamespace type_name, type_name, type_name]

/-! ## Structs -/

/-- The struct `struct_field`. -/
structure struct_field where
  name : String
  type : String
  array_count : Option Int
deriving DecidableEq, Repr

/-- The function `write_struct_field`. -/
def write_struct_field {n : Nat} (tw : type_writers n) (field : struct_field) : String :=
  match field.array_count with
  | some count => write tw "        @ %[%];\n" [field.type, field.name, toString count]
  | none => write tw "        @ %;\n" [field.type, field.name]

/-- The function `get_nested_type`: the TypeDef of the signature when it has an enclosing
type, whatever the pointer depth of the signature. -/
def get_nested_type {n : Nat} (db : Database n) (type : TypeSig n) : Option (TypeDef n) :=
  match type.Type_ with
  | TypeSigType.coded_index (TypeDefOrRef.TypeDef t) =>
    if (db.row t).EnclosingType.isSome then some t else none
  | _ => none

/-- Whether the text starts with the pattern. -/
def starts_with : List Char → List Char → Bool
  | _, [] => true
  | [], _ :: _ => false
  | c :: text, p :: pattern => c = p && starts_with text pattern

/-- The test `text.find(pattern) != npos`. -/
def find_substring : List Char → List Char → Bool
  | [], pattern => starts_with [] pattern
  | c :: text, pattern => starts_with (c :: text) pattern || find_substring text pattern

/-- One turn of the field loop of the constructor of `complex_struct`, on the fields pushed
so far. A field whose type is a nested type leaves the loop turn through `continue` in every
branch, after the assignments to the locals `array_count` and `field_type` in the branches of
a fixed buffer; `std::get<int32_t>` raises `std::bad_variant_access` on an argument of
another kind. -/
def complex_struct_field {n : Nat} (tw : type_writers n) (w : writer) (db : Database n)
    (fields : List struct_field) (field : Field n) : Except error (List struct_field) :=
  let name := field.Name
  let field_type := field.Signature
  match get_nested_type db field_type with
  | some nested_type =>
    match get_attribute field.attributes "System.Runtime.CompilerServices"
        "FixedBufferAttribute" with
    | some buffer_attribute =>
      if buffer_attribute.FixedArgs.length ≠ 2 then
        Except.error (error.invalid_argument "FixedBufferAttribute should have 2 args")
      else
        match buffer_attribute.FixedArgs.get? 1 with
        | some (ElemSig.int32 count) =>
          let _array_count : Option Int := some count
          let _field_type := (db.row nested_type).FieldList.head?.map fun f => f.Signature
          Except.ok fields
        | _ => Except.error error.bad_variant_access
    | none =>
      if find_substring (db.row nested_type).TypeName.data "__FixedBuffer".data then
        let _array_count : Option Int := some (db.row nested_type).FieldList.length
        let _field_type := (db.row nested_type).FieldList.head?.map fun f => f.Signature
        Except.ok fields
      else if (db.row nested_type).Layout = TypeLayout.ExplicitLayout ∧
          find_substring (db.row nested_type).TypeName.data "_e__Union".data then
        Except.ok fields
      else if find_substring (db.row nested_type).TypeName.data "_e__Struct".data then
        Except.ok fields
      else Except.ok fields
  | none =>
    Except.ok (fields ++
      [{ name := name, type := write tw "%" [tw.write_TypeSig w field_type],
         array_count := none }])

/-- The constructor of `complex_struct`: the fields that `write_struct` writes. -/
def complex_struct {n : Nat} (tw : type_writers n) (w : writer) (db : Database n)
    (type : TypeDef n) : Except error (List struct_field) :=
  for_each (complex_struct_field tw w db) (db.row type).FieldList []

/-- The function `write_struct`. -/
def write_struct {n : Nat} (tw : type_writers n) (w : writer) (db : Database n)
    (type : TypeDef n) : Except error String :=
  match complex_struct tw w db type with
  | Except.error e => Except.error e
  | Except.ok fields =>
    Except.ok (write tw
      ("    struct %\n" ++
       "    \x7b\n" ++
       "%    \x7d;\n")
      [(db.row type).TypeName,
        fields.foldl (fun out field => out ++ write_struct_field tw field) ""])

/-- The function `write_structs`. -/
def write_structs {n : Nat} (tw : type_writers n) (w : writer) (db : Database n)
    (structs : List (TypeDef n)) : Except error String :=
  match sorted_structs db structs with
  | Except.error e => Except.error e
  | Except.ok sorted =>
    for_each (fun out type =>
      match write_struct tw w db type with
      | Except.error e => Except.error e
      | Except.ok text => Except.ok (out ++ text)) sorted ""

/-! ## Classes -/

/-- The function `write_class_abi`. -/
def write_class_abi {n : Nat} (tw : type_writers n) (w : writer) (db : Database n)
    (type : TypeDef n) : String :=
  let guard := w.push_full_namespace true
  let declarations := (db.row type).MethodList.foldl (fun out method =>
    if method.Flags.Access = MemberAccess.Public then
      out ++ write tw "    % __stdcall WIN32_IMPL_%(%) noexcept;\n"
        [write_abi_return tw guard method.return_signature, method.Name,
          write_abi_params tw guard method]
    else out) ""
  let links := (db.row type).MethodList.foldl (fun out method =>
    if method.Flags.Access = MemberAccess.Public then
      out ++ write tw "WIN32_IMPL_LINK(%)\n" [write_abi_link tw method]
    else out) ""
  "extern \"C\"\n\x7b\n" ++ declarations ++ "\x7d\n" ++ links ++ "\n"

/-- The function `write_method_args`. -/
def write_method_args {n : Nat} (method_signature : MethodDef n) : String :=
  write_separated (fun p => p.1.Name) method_signature.params

/-- The function `write_method_return`. -/
def write_method_return {n : Nat} (tw : type_writers n) (w : writer)
    (method_signature : MethodDef n) : String :=
  match method_signature.return_signature with
  | some t => tw.write_TypeSig w t
  | none => "void"

/-- The function `write_class_method`. -/
def write_class_method {n : Nat} (tw : type_writers n) (w : writer)
    (method_signature : MethodDef n) : String :=
  let modifier := if method_signature.Flags.Static then "static " else ""
  write tw
    ("        %% %(%)\n" ++
     "        \x7b\n" ++
     "            return WIN32_IMPL_%(%);\n" ++
     "        \x7d\n")
    [modifier, write_method_return tw w method_signature, method_signature.Name,
      write_method_params tw w method_signature, method_signature.Name,
      write_method_args method_signature]

/-- The function `write_class`. -/
def write_class {n : Nat} (tw : type_writers n) (w : writer) (db : Database n)
    (type : TypeDef n) : String :=
  let head := write tw
    ("    struct %\n" ++
     "    \x7b\n") [(db.row type).TypeName]
  let methods := (db.row type).MethodList.foldl (fun out method =>
    if method.Flags.Access = MemberAccess.Public then out ++ write_class_method tw w method
    else out) ""
  head ++ methods ++ ("\n" ++ "    \x7d;\n")

/-! ## GUID of a type -/

/-- The function `write_guid`; `uninit` is the content of the uninitialised local of
`to_guid`. The first fixed argument of the attribute is read as a string: `std::get` raises
`std::bad_variant_access` on an argument of another kind, and an attribute without fixed
argument is taken the same way. -/
def write_guid {n : Nat} (tw : type_writers n) (w : writer) (db : Database n)
    (type : TypeDef n) (uninit : guid) : Except error String :=
  if (db.row type).TypeName = "IUnknown" then Except.ok ""
  else
    match get_attribute (db.row type).attributes "System.Runtime.InteropServices"
        "GuidAttribute" with
    | none =>
      throw_invalid ["'System.Runtime.InteropServices.GuidAttribute' attribute for type '",
        (db.row type).TypeNamespace, ".", (db.row type).TypeName, "' not found"]
    | some guid_attribute =>
      match guid_attribute.FixedArgs.head? with
      | some (ElemSig.string guid_str) =>
        match to_guid guid_str uninit with
        | Except.error e => Except.error e
        | Except.ok guid_value =>
          Except.ok (write tw
            "    template <> inline constexpr guid guid_v<%>\x7b % \x7d; // %\n"
            [tw.write_TypeDef w type, write_guid_value guid_value, guid_str])
      | _ => Except.error error.bad_variant_access

/-! ## Definitions used to state the properties -/

/-- The stack-slot size the specification gives a parameter: 8 for a 64-bit integer or 64-bit
float that is not a pointer, 4 for everything else. -/
def slot_size {n : Nat} (param : TypeSig n) : Nat :=
  if param.ptr_count = 0 ∧ (param.Type_ = TypeSigType.element ElementType.I8 ∨
      param.Type_ = TypeSigType.element ElementType.U8 ∨
      param.Type_ = TypeSigType.element ElementType.R8) then 8 else 4

/-- A signature of a primitive element type with a pointer depth, in a database of one row. -/
def sig_of (e : ElementType) (depth : Nat) : TypeSig 1 :=
  { Type_ := TypeSigType.element e, ptr_count := depth }

/-- Whether a row carries the attribute of the given namespace and name. -/
def has_attribute (attributes : List CustomAttribute) (ns name : String) : Bool :=
  attributes.any fun a => a.TypeNamespace = ns ∧ a.TypeName = name

/-- The opening of the dispatch table of a type rendered as `T`. -/
def abi_head (T : String) : String :=
  "    template <> struct abi<" ++ T ++ ">\n" ++
  "    \x7b\n" ++
  "        struct __declspec(novtable) type : unknown_abi\n" ++
  "        \x7b\n"

/-- The closing of the dispatch table. -/
def abi_tail : String :=
  "        \x7d;\n" ++
  "    \x7d;\n"

/-- The consumer struct of an implementation name around the text of its declarations. -/
def consume_struct (impl_name body : String) : String :=
  "    struct consume_" ++ impl_name ++ "\n" ++
  "    \x7b\n" ++
  body ++ "    \x7d;\n"

/-- The handle struct of a type name and its implementation name. -/
def handle_struct (type_name impl_name : String) : String :=
  "    struct __declspec(empty_bases) " ++ type_name ++ " :\n" ++
  "        Microsoft::Windows::Sdk::IUnknown,\n" ++
  "        _impl_::consume_" ++ impl_name ++ "\n" ++
  "    \x7b\n" ++
  "        " ++ type_name ++ "(std::nullptr_t = nullptr) noexcept \x7b\x7d\n" ++
  "        " ++ type_name ++ "(void* ptr, take_ownership_from_abi_t) noexcept : Microsoft::Windows::Sdk::IUnknown(ptr, take_ownership_from_abi) \x7b\x7d\n" ++
  "    \x7d;\n"

/-- Writers for the evaluation of examples: a TypeDef is rendered as `T` and its row number,
every signature as `int`, and an implementation name joins namespace and name with `_`. -/
def sample_writers (n : Nat) : type_writers n where
  write_TypeDef := fun _ t => "T" ++ toString t.val
  write_TypeSig := fun _ _ => "int"
  write_RetTypeSig := fun _ _ => "int"
  write_code := fun s => s
  get_impl_name := fun ns name => ns ++ "_" ++ name

/-- A database of one interface row with the given name and method names. -/
def interface_db (name : String) (methods : List String) : Database 1 where
  row := fun _ =>
    { TypeNamespace := "N", TypeName := name, category := category.interface_type,
      MethodList := methods.map fun m => { Name := m } }

/-- The type string the specification gives a parameter: the string type of an Lpstr or
Lpwstr field-marshal override, `const` when the parameter is an in parameter, and the
structural rendering of the signature otherwise. -/
def marshaled_type {n : Nat} (tw : type_writers n) (w : writer) (p : Param × TypeSig n) :
    String :=
  if p.1.Flags.HasFieldMarshal = true ∧ p.1.FieldMarshal = NativeType.Lpstr then
    (if p.1.Flags.In = true then "const char*" else "char*")
  else if p.1.Flags.HasFieldMarshal = true ∧ p.1.FieldMarshal = NativeType.Lpwstr then
    (if p.1.Flags.In = true then "const wchar_t*" else "wchar_t*")
  else tw.write_TypeSig w p.2

/-- The declaration of the binary operator `op` of the enum `E`. -/
def binary_operator (op E : String) : String :=
  "    constexpr auto operator" ++ op ++ "(" ++ E ++ " const left, " ++ E ++
    " const right) noexcept\n" ++
  "    \x7b\n" ++
  "        return static_cast<" ++ E ++ ">(_impl_::to_underlying_type(left) " ++ op ++
    " _impl_::to_underlying_type(right));\n" ++
  "    \x7d\n"

/-- The declaration of the compound assignment of the operator `op` of the enum `E`. -/
def assignment_operator (op E : String) : String :=
  "    constexpr auto operator" ++ op ++ "=(" ++ E ++ "& left, " ++ E ++
    " const right) noexcept\n" ++
  "    \x7b\n" ++
  "        left = left " ++ op ++ " right;\n" ++
  "        return left;\n" ++
  "    \x7d\n"

/-- The declaration of the operator `~` of the enum `E`. -/
def complement_operator (E : String) : String :=
  "    constexpr auto operator~(" ++ E ++ " const value) noexcept\n" ++
  "    \x7b\n" ++
  "        return static_cast<" ++ E ++ ">(~_impl_::to_underlying_type(value));\n" ++
  "    \x7d\n"

/-- The characters of a text from position `first` up to position `last`, excluded. -/
def chars_between (str : String) (first last : Nat) : List Char :=
  (str.data.drop first).take (last - first)

/-- The hexadecimal digits, in either case. -/
def hex_chars : List Char := "0123456789abcdefABCDEF".data

/-- The value of a hexadecimal digit, in either case. -/
def hex_digit (c : Char) : Nat := "0123456789abcdef".data.indexOf c.toLower

/-- The number that a list of hexadecimal digits denotes, most significant digit first. -/
def hex_value (cs : List Char) : Nat := cs.foldl (fun v c => v * 16 + hex_digit c) 0

/-- What the canonical form of a GUID text asks of the character at position `i`. -/
def canonical_char (i : Nat) (c : Char) : Bool :=
  if i = 8 ∨ i = 13 ∨ i = 18 ∨ i = 23 then c = '-' else c ∈ hex_chars

/-- The canonical form `xxxxxxxx-xxxx-xxxx-xxxx-xxxxxxxxxxxx` of a GUID text: 36 characters,
a hyphen at the positions 8, 13, 18 and 23 and a hexadecimal digit at every other one. -/
def canonical_guid_text (str : String) : Prop :=
  str.length = 36 ∧ ∀ p ∈ str.data.enum, canonical_char p.1 p.2 = true

instance (str : String) : Decidable (canonical_guid_text str) := by
  unfold canonical_guid_text; infer_instance

/-- The characters of a text from `first` up to `last`, in upper case, as a string. -/
def upper_hex (str : String) (first last : Nat) : String :=
  String.mk ((chars_between str first last).map Char.toUpper)

/-- Whether every `^` of a format has a character after it. -/
def closed_format : List Char → Bool
  | [] => true
  | c :: rest =>
    if c = '^' then
      match rest with
      | [] => false
      | _ :: rest2 => closed_format rest2
    else closed_format rest

/-! ### Struct dependency sorter -/

/-- The targets of the by-value fields of a type, in field order. -/
def deps {n : Nat} (db : Database n) (t : TypeDef n) : List (TypeDef n) :=
  (db.row t).FieldList.filterMap (field_edge db)

/-- The struct `S` contains the type `T` by value: it has a field of pointer depth 0 whose
type is the TypeDef `T`, and `T` is not an enum. -/
def contains_by_value {n : Nat} (db : Database n) (S T : TypeDef n) : Prop :=
  ∃ field ∈ (db.row S).FieldList, field.Signature.ptr_count = 0 ∧
    field.Signature.Type_ = TypeSigType.coded_index (TypeDefOrRef.TypeDef T) ∧
    (db.row T).category ≠ category.enum_type

instance {n : Nat} (db : Database n) (S T : TypeDef n) : Decidable (contains_by_value db S T) := by
  unfold contains_by_value; infer_instance

/-- The key is in the map. -/
def is_key {n : Nat} (m : dependency_map n) (k : TypeDef n) : Prop :=
  (map_find m k).isSome = true

/-- The node of `k` in the map has the edge `e`. -/
def has_edge {n : Nat} (m : dependency_map n) (k e : TypeDef n) : Prop :=
  ∃ nd, map_find m k = some nd ∧ e ∈ nd.edges

/-- The number of rows of the TypeDef table that are not keys of the map. -/
def free_keys {n : Nat} (m : dependency_map n) : Nat :=
  (Finset.univ.filter fun k : TypeDef n => map_find m k = none).card

/-- The state of the map while `add` runs, for the types `R` that may be added and the keys
`P` whose field loop has not ended: the keys are in increasing order, no node is marked, every
edge is the target of a by-value field of its node, the node of every key outside `P` has all
of them, and every key is in `R`. -/
structure add_inv {n : Nat} (db : Database n) (R P : TypeDef n → Prop) (m : dependency_map n) :
    Prop where
  sorted : (m.map Prod.fst).Pairwise (· < ·)
  flags : ∀ k nd, map_find m k = some nd → nd.temporary = false ∧ nd.permanent = false
  sound : ∀ k nd, map_find m k = some nd → ∀ e ∈ nd.edges, e ∈ deps db k
  complete : ∀ k nd, map_find m k = some nd → ¬ P k → ∀ e ∈ deps db k, e ∈ nd.edges
  reach : ∀ k nd, map_find m k = some nd → R k

/-- Every edge of the map is a key of the map, or is in `X`. -/
def closed_except {n : Nat} (m : dependency_map n) (X : TypeDef n → Prop) : Prop :=
  ∀ k nd, map_find m k = some nd → ∀ e ∈ nd.edges, X e ∨ is_key m e

/-- The map `m2` has the keys and the edges of `m1`, and maybe more. -/
def grows {n : Nat} (m1 m2 : dependency_map n) : Prop :=
  ∀ k nd, map_find m1 k = some nd →
    ∃ nd2, map_find m2 k = some nd2 ∧ ∀ e ∈ nd.edges, e ∈ nd2.edges

/-- A type is reached from a list of structs through a chain of by-value fields. -/
def reaches {n : Nat} (db : Database n) (structs : List (TypeDef n)) (t : TypeDef n) : Prop :=
  ∃ s ∈ structs, Relation.ReflTransGen (contains_by_value db) s t

/-- What the map is after `add_all`: all calls of `add` return, the keys are in increasing
order, no node is marked, every struct of the list is a key, every key is reached from the
list, the edges of a key are the types it contains by value, and every edge is a key. -/
structure added {n : Nat} (db : Database n) (structs : List (TypeDef n))
    (m : dependency_map n) : Prop where
  sorted : (m.map Prod.fst).Pairwise (· < ·)
  flags : ∀ k nd, map_find m k = some nd → nd.temporary = false ∧ nd.permanent = false
  edges : ∀ k nd, map_find m k = some nd → ∀ e, e ∈ nd.edges ↔ contains_by_value db k e
  closed : ∀ k e, has_edge m k e → is_key m e
  roots : ∀ s ∈ structs, is_key m s
  reach : ∀ k, is_key m k → reaches db structs k

/-- The node of the key is marked permanent. -/
def is_permanent {n : Nat} (m : dependency_map n) (k : TypeDef n) : Bool :=
  match map_find m k with
  | some nd => nd.permanent
  | none => false

/-- The node of the key is marked temporary. -/
def is_temporary {n : Nat} (m : dependency_map n) (k : TypeDef n) : Bool :=
  match map_find m k with
  | some nd => nd.temporary
  | none => false

/-- The node of the key has no mark. -/
def is_white {n : Nat} (m : dependency_map n) (k : TypeDef n) : Bool :=
  match map_find m k with
  | some nd => !nd.temporary && !nd.permanent
  | none => false

/-- The number of keys whose node has no mark. -/
def white_keys {n : Nat} (m : dependency_map n) : Nat :=
  (Finset.univ.filter fun k : TypeDef n => is_white m k = true).card

/-- The state of the map and of the output while `sort` runs, for the edge relation `E` of
the map: the keys are in increasing order, every edge leads to a key, the edges of a permanent
node lead to permanent nodes, no node has both marks, no permanent node is on a cycle, the
output holds the permanent nodes that have no enclosing type, once each, and every one of them
after the nodes without enclosing type that it has an edge to. -/
structure sort_inv {n : Nat} (db : Database n) (E : TypeDef n → TypeDef n → Prop)
    (m : dependency_map n) (sorted : List (TypeDef n)) : Prop where
  keys : (m.map Prod.fst).Pairwise (· < ·)
  graph : ∀ k e, has_edge m k e ↔ E k e
  closed : ∀ k e, E k e → is_key m e
  perm_closed : ∀ k e, is_permanent m k = true → E k e → is_permanent m e = true
  disjoint : ∀ k, is_permanent m k = true → is_temporary m k = false
  no_cycle : ∀ k, is_permanent m k = true → ¬ Relation.TransGen E k k
  sorted_perm : ∀ k, k ∈ sorted ↔ (is_permanent m k = true ∧ (db.row k).EnclosingType = none)
  nodup : sorted.Nodup
  order : ∀ S ∈ sorted, ∀ T, E S T → (db.row T).EnclosingType = none →
    sorted.indexOf T < sorted.indexOf S

/-- What a call of `visit` on the key `v` that returns leaves: the invariant of `sort`, the
same keys and temporary marks, the permanent marks it found, and a permanent mark on `v`. -/
structure visit_post {n : Nat} (db : Database n) (E : TypeDef n → TypeDef n → Prop)
    (m : dependency_map n) (v : TypeDef n) (m2 : dependency_map n)
    (sorted2 : List (TypeDef n)) : Prop where
  inv : sort_inv db E m2 sorted2
  same_keys : m2.map Prod.fst = m.map Prod.fst
  same_temp : ∀ k, is_temporary m2 k = is_temporary m k
  perm_mono : ∀ k, is_permanent m k = true → is_permanent m2 k = true
  visited : is_permanent m2 v = true

/-- No key is on a cycle of `E`, and every temporary node reaches `v` through edges. -/
def visit_safe {n : Nat} (E : TypeDef n → TypeDef n → Prop) (m : dependency_map n)
    (v : TypeDef n) : Prop :=
  (∀ k, is_key m k → ¬ Relation.TransGen E k k) ∧
    ∀ t, is_temporary m t = true → Relation.TransGen E t v

/-- The error of `visit` on a cycle. -/
def cyclic_error : error :=
  error.invalid_argument "Cyclic dependency graph encountered"

/-- The by-value field graph of the list has no cycle: no type reached from the list reaches
itself through one by-value field or more. -/
def acyclic {n : Nat} (db : Database n) (structs : List (TypeDef n)) : Prop :=
  ∀ t, reaches db structs t → ¬ Relation.TransGen (contains_by_value db) t t

/-- A field of the given name whose type is the TypeDef `t`, by value. -/
def value_field {n : Nat} (name : String) (t : TypeDef n) : Field n :=
  { Name := name, Signature := { Type_ := TypeSigType.coded_index (TypeDefOrRef.TypeDef t) } }

/-- The struct `A` contains the struct `B` by value, which contains the struct `C`. -/
def chain_db : Database 3 where
  row := fun i =>
    if i = 0 then { TypeNamespace := "N", TypeName := "A", FieldList := [value_field "b" 1] }
    else if i = 1 then { TypeNamespace := "N", TypeName := "B", FieldList := [value_field "c" 2] }
    else { TypeNamespace := "N", TypeName := "C" }

/-- The struct `A` contains the struct `B` by value and `B` contains `A` by value. -/
def cycle_db : Database 2 where
  row := fun i =>
    if i = 0 then { TypeNamespace := "N", TypeName := "A", FieldList := [value_field "b" 1] }
    else { TypeNamespace := "N", TypeName := "B", FieldList := [value_field "a" 0] }

/-- An in parameter `s` with an Lpstr field-marshal override, of the signature pointer to
I1. -/
def lpstr_param : Param × TypeSig 1 :=
  ({ Name := "s", Flags := { In := true, HasFieldMarshal := true },
     FieldMarshal := NativeType.Lpstr }, sig_of ElementType.I1 1)

/-- A method `Foo` with the parameter `lpstr_param`. -/
def lpstr_method : MethodDef 1 :=
  { Name := "Foo", params := [lpstr_param] }

/-- The interface `IFoo` with the three methods of the root interface and `lpstr_method`. -/
def marshal_db : Database 1 where
  row := fun _ =>
    { TypeNamespace := "N", TypeName := "IFoo", category := category.interface_type,
      MethodList := [{ Name := "QueryInterface" }, { Name := "AddRef" }, { Name := "Release" },
        lpstr_method] }

/-- A `FixedBufferAttribute` with the given fixed arguments. -/
def fixed_buffer_of (args : List ElemSig) : CustomAttribute :=
  { TypeNamespace := "System.Runtime.CompilerServices", TypeName := "FixedBufferAttribute",
    FixedArgs := args }

/-- The struct `S` with a field `Length` of type I4 and a field `Buffer` whose type is the
nested type of the given name, with one field of type U1, and that carries the given
attributes. -/
def buffer_db (nested_name : String) (attributes : List CustomAttribute) : Database 2 where
  row := fun i =>
    if i = 0 then
      { TypeNamespace := "N", TypeName := "S",
        FieldList :=
          [{ Name := "Length", Signature := { Type_ := TypeSigType.element ElementType.I4 } },
           { Name := "Buffer",
             Signature := { Type_ := TypeSigType.coded_index (TypeDefOrRef.TypeDef 1) },
             attributes := attributes }] }
    else
      { TypeNamespace := "N", TypeName := nested_name, EnclosingType := some 0,
        FieldList :=
          [{ Name := "FixedElementField",
             Signature := { Type_ := TypeSigType.element ElementType.U1 } }] }

/-- The type of the field is a nested type: its signature names a TypeDef that has an
enclosing type, at any pointer depth. -/
def is_nested_field {n : Nat} (db : Database n) (f : Field n) : Prop :=
  ∃ t, f.Signature.Type_ = TypeSigType.coded_index (TypeDefOrRef.TypeDef t) ∧
    (db.row t).EnclosingType ≠ none

instance {n : Nat} (db : Database n) (f : Field n) : Decidable (is_nested_field db f) := by
  unfold is_nested_field; infer_instance

/-- The declaration of a struct of the given name around the text of its field lines. -/
def struct_text (name body : String) : String :=
  "    struct " ++ name ++ "\n" ++
  "    \x7b\n" ++
  body ++ "    \x7d;\n"

/-- The line `type name;` of a field of a struct. -/
def field_line {n : Nat} (tw : type_writers n) (w : writer) (f : Field n) : String :=
  "        " ++ tw.write_code (tw.write_TypeSig w f.Signature) ++ " " ++ f.Name ++ ";\n"

/-- The field is of a nested type and carries a `FixedBufferAttribute` whose number of fixed
arguments is not 2. -/
def bad_fixed_buffer {n : Nat} (db : Database n) (f : Field n) : Prop :=
  is_nested_field db f ∧
    ∃ a, get_attribute f.attributes "System.Runtime.CompilerServices" "FixedBufferAttribute"
      = some a ∧ a.FixedArgs.length ≠ 2

/-- The second argument of a `FixedBufferAttribute` with 2 fixed arguments on the field, when
the field is of a nested type, is an int32. -/
def int32_count {n : Nat} (db : Database n) (f : Field n) : Prop :=
  is_nested_field db f → ∀ a,
    get_attribute f.attributes "System.Runtime.CompilerServices" "FixedBufferAttribute"
      = some a → a.FixedArgs.length = 2 → ∃ count, a.FixedArgs.get? 1 = some (ElemSig.int32 count)

/-- The struct `S` with a field `x` of type I4 that carries a `FixedBufferAttribute` with one
fixed argument. -/
def plain_buffer_db : Database 1 where
  row := fun _ =>
    { TypeNamespace := "N", TypeName := "S",
      FieldList :=
        [{ Name := "x", Signature := { Type_ := TypeSigType.element ElementType.I4 },
           attributes := [fixed_buffer_of [ElemSig.int32 4]] }] }

/-- A `GuidAttribute` with the given text as its only fixed argument. -/
def guid_attribute_of (text : String) : CustomAttribute :=
  { TypeNamespace := "System.Runtime.InteropServices", TypeName := "GuidAttribute",
    FixedArgs := [ElemSig.string text] }

/-- A database of one interface row `N.name` with the given attributes. -/
def guid_db (name : String) (attributes : List CustomAttribute) : Database 1 where
  row := fun _ =>
    { TypeNamespace := "N", TypeName := name, category := category.interface_type,
      attributes := attributes }

/-- The line of the `guid_v` specialization of the type rendered as `T`, with the literal of
the guid and the GUID text as a comment. -/
def guid_line (T literal text : String) : String :=
  "    template <> inline constexpr guid guid_v<" ++ T ++ ">\x7b " ++ literal ++ " \x7d; // " ++
    text ++ "\n"

/-- The message of the error of `write_guid` for a type without `GuidAttribute`. -/
def guid_not_found (type_namespace type_name : String) : String :=
  "'System.Runtime.InteropServices.GuidAttribute' attribute for type '" ++ type_namespace ++
    "." ++ type_name ++ "' not found"

/-- The public methods of a type, in the order of its method list. -/
def public_methods {n : Nat} (db : Database n) (type : TypeDef n) : List (MethodDef n) :=
  (db.row type).MethodList.filter fun m => m.Flags.Access = MemberAccess.Public

/-- The text of a return type: the rendering of the signature, or `void` without one. -/
def return_text {n : Nat} (tw : type_writers n) (w : writer) (sig : Option (TypeSig n)) :
    String :=
  match sig with
  | some t => tw.write_TypeSig w t
  | none => "void"

/-- The declared parameters of a method: `type name` for every parameter in order, separated
by `, `. -/
def declared_params {n : Nat} (tw : type_writers n) (w : writer) (m : MethodDef n) : String :=
  ", ".intercalate (m.params.map fun p => marshaled_type tw w p ++ " " ++ p.1.Name)

/-- The names of the parameters of a method in order, separated by `, `. -/
def param_names {n : Nat} (m : MethodDef n) : String :=
  ", ".intercalate (m.params.map fun p => p.1.Name)

/-- The forwarding method of a class for the method `m`: it declares the parameters of `m`
and its body calls `WIN32_IMPL_` followed by the name of `m` with the names of the
parameters. -/
def forwarding_method {n : Nat} (tw : type_writers n) (w : writer) (m : MethodDef n) : String :=
  "        " ++ (if m.Flags.Static = true then "static " else "") ++
    return_text tw w m.return_signature ++ " " ++ m.Name ++ "(" ++ declared_params tw w m ++
    ")\n" ++
  "        \x7b\n" ++
  "            return WIN32_IMPL_" ++ m.Name ++ "(" ++ param_names m ++ ");\n" ++
  "        \x7d\n"

/-- The extern declaration of the entry point `WIN32_IMPL_` followed by the name of `m`. -/
def impl_declaration {n : Nat} (tw : type_writers n) (w : writer) (m : MethodDef n) : String :=
  "    " ++ return_text tw w m.return_signature ++ " __stdcall WIN32_IMPL_" ++ m.Name ++ "(" ++
    declared_params tw w m ++ ") noexcept;\n"

/-- The linkage line of the method `m`: its name and the sum of the slot sizes of its
parameters. -/
def impl_link {n : Nat} (m : MethodDef n) : String :=
  "WIN32_IMPL_LINK(" ++ m.Name ++ ", " ++ toString (m.params.map fun p => slot_size p.2).sum ++
    ")\n"

/-- The class `C` with the public static method `Create` of one parameter `size` of type I8,
the private method `Hidden` and the public method `Close` without parameter. -/
def class_db : Database 1 where
  row := fun _ =>
    { TypeNamespace := "N", TypeName := "C", category := category.class_type,
      MethodList :=
        [{ Name := "Create", Flags := { Static := true },
           params := [({ Name := "size" }, sig_of ElementType.I8 0)],
           return_signature := some (sig_of ElementType.I4 0) },
         { Name := "Hidden", Flags := { Access := MemberAccess.Private } },
         { Name := "Close" }] }

/-- The struct `S` has a field, of pointer depth 0, whose type is the interface `I`. -/
def interface_field_db : Database 2 where
  row := fun i =>
    if i = 0 then { TypeNamespace := "N", TypeName := "S", FieldList := [value_field "p" 1] }
    else { TypeNamespace := "N", TypeName := "I", category := category.interface_type }

/-- One turn of the field loop of `add` on the node of the type itself: the edge of the field
is appended unless the node has it. -/
def edge_step {n : Nat} (db : Database n) (nd : node n) (field : Field n) : node n :=
  match field_edge db field with
  | some t => nd.add_edge t
  | none => nd

/-- The node of a type once its `add` has returned: no mark, and the targets of its by-value
fields in field order, each once. -/
def field_node {n : Nat} (db : Database n) (k : TypeDef n) : node n :=
  (db.row k).FieldList.foldl (edge_step db) {}

/-- The struct `S` has two fields of its own type, by value. -/
def self_db : Database 1 where
  row := fun _ =>
    { TypeNamespace := "N", TypeName := "S", FieldList := [value_field "a" 0, value_field "b" 0] }

/-- The pure-virtual slot of the dispatch table for the method `m`: its return type, its name
and its declared parameters. -/
def pure_virtual_slot {n : Nat} (tw : type_writers n) (w : writer) (m : MethodDef n) : String :=
  "            virtual " ++ return_text tw w m.return_signature ++ " __stdcall " ++ m.Name ++
    "(" ++ declared_params tw w m ++ ") noexcept = 0;\n"

/-- The declaration of the consumer struct for the method `m`: its return signature, its name
and, for every parameter in order, the rendering of its signature and its name. -/
def consumer_declaration {n : Nat} (tw : type_writers n) (w : writer) (m : MethodDef n) :
    String :=
  "        WIN32_IMPL_AUTO(" ++ tw.write_RetTypeSig w m.return_signature ++ ") " ++ m.Name ++
    "(" ++ ", ".intercalate (m.params.map fun p => tw.write_TypeSig w p.2 ++ " " ++ p.1.Name) ++
    ") const;\n"

/-! ## Text sink: expansion of the formats -/

theorem write_one {n : Nat} (tw : type_writers n) (a : String) : write tw "%" [a] = a := by
  apply String.ext
  simp [write, write_segment]

theorem write_two {n : Nat} (tw : type_writers n) (a b : String) :
    write tw "% %" [a, b] = a ++ " " ++ b := by
  apply String.ext
  simp [write, write_segment]

theorem write_link {n : Nat} (tw : type_writers n) (a b : String) :
    write tw "%, %" [a, b] = a ++ ", " ++ b := by
  apply String.ext
  simp [write, write_segment]

theorem foldl_separated {α : Type} (item : α → String) (xs : List α) (acc : String) :
    (xs.foldl (fun (st : String × Bool) x =>
      (st.1 ++ (if st.2 then "" else ", ") ++ item x, false)) (acc, false)).1
      = xs.foldl (fun out x => out ++ ", " ++ item x) acc := by
  induction xs generalizing acc with
  | nil => rfl
  | cons x xs ih => simp [List.foldl, ih]

theorem write_separated_eq {α : Type} (item : α → String) (xs : List α) :
    write_separated item xs = ", ".intercalate (xs.map item) := by
  cases xs with
  | nil => rfl
  | cons x xs =>
    simp only [write_separated, List.foldl, List.map, String.intercalate]
    rw [foldl_separated]
    simp only [if_true, String.append_empty]
    have h : ∀ (ys : List α) (acc : String),
        ys.foldl (fun out y => out ++ ", " ++ item y) acc
          = String.intercalate.go acc ", " (ys.map item) := by
      intro ys
      induction ys with
      | nil => intro acc; rfl
      | cons y ys ih => intro acc; simp [List.foldl, String.intercalate.go, ih]
    simpa using h xs ("" ++ item x)

/-! ## Linkage size -/

theorem get_param_size_eq {n : Nat} (param : TypeSig n) :
    get_param_size param = slot_size param := by
  obtain ⟨t, k⟩ := param
  cases t with
  | element e =>
    by_cases hk : k = 0
    · cases e <;> simp [get_param_size, slot_size, hk]
    · simp [get_param_size, slot_size, hk]
  | _ => simp [get_param_size, slot_size]

theorem foldl_count {n : Nat} (ps : List (Param × TypeSig n)) (c : Nat) :
    ps.foldl (fun count p => count + get_param_size p.2) c
      = c + (ps.map fun p => get_param_size p.2).sum := by
  induction ps generalizing c with
  | nil => simp
  | cons p ps ih => simp [List.foldl, ih, Nat.add_assoc]

/-- C6: `get_param_size` is 8 exactly for the element types I8, U8 and R8 at pointer depth 0 and
4 in every other case; `write_abi_link` writes the method name, `, ` and the sum of the sizes
of the parameters; a method with a 32-bit int, a pointer and a 64-bit float gives 16. -/
theorem abi_link_size :
    (∀ (n : Nat) (param : TypeSig n), get_param_size param =
      if param.ptr_count = 0 ∧ (param.Type_ = TypeSigType.element ElementType.I8 ∨
        param.Type_ = TypeSigType.element ElementType.U8 ∨
        param.Type_ = TypeSigType.element ElementType.R8) then 8 else 4) ∧
    (∀ (n : Nat) (tw : type_writers n) (m : MethodDef n),
      write_abi_link tw m
        = m.Name ++ ", " ++ toString (m.params.map fun p => get_param_size p.2).sum) ∧
    (∀ (tw : type_writers 1), write_abi_link tw
      { Name := "f", params := [({ Name := "a" }, sig_of ElementType.I4 0),
          ({ Name := "b" }, sig_of ElementType.Void 1),
          ({ Name := "c" }, sig_of ElementType.R8 0)] } = "f, 16") := by
  refine ⟨fun n param => get_param_size_eq param, ?_, ?_⟩
  · intro n tw m
    simp only [write_abi_link, write_link, foldl_count, Nat.zero_add]
  · intro tw
    simp only [write_abi_link, write_link]
    rfl

theorem get_attribute_isSome (attributes : List CustomAttribute) (ns name : String) :
    (get_attribute attributes ns name).isSome = has_attribute attributes ns name := by
  unfold get_attribute has_attribute
  rw [Bool.eq_iff_iff]
  simp [List.find?_isSome, List.any_eq_true]

theorem write_abi_head {n : Nat} (tw : type_writers n) (T : String) :
    write tw
      ("    template <> struct abi<%>\n" ++
       "    \x7b\n" ++
       "        struct __declspec(novtable) type : unknown_abi\n" ++
       "        \x7b\n") [T] = abi_head T := by
  simp only [abi_head, String.append_assoc]
  rfl

theorem write_consume_struct {n : Nat} (tw : type_writers n) (impl_name body : String) :
    write tw
        ("    struct consume_%\n" ++
         "    \x7b\n" ++
         "%    \x7d;\n") [impl_name, body] = consume_struct impl_name body := by
  simp only [consume_struct, String.append_assoc]
  rfl

theorem write_handle_struct {n : Nat} (tw : type_writers n) (type_name impl_name : String) :
    write tw
      ("    struct __declspec(empty_bases) % :\n" ++
       "        Microsoft::Windows::Sdk::IUnknown,\n" ++
       "        _impl_::consume_%\n" ++
       "    \x7b\n" ++
       "        %(std::nullptr_t = nullptr) noexcept \x7b\x7d\n" ++
       "        %(void* ptr, take_ownership_from_abi_t) noexcept : Microsoft::Windows::Sdk::IUnknown(ptr, take_ownership_from_abi) \x7b\x7d\n" ++
       "    \x7d;\n")
      [type_name, impl_name, type_name, type_name] = handle_struct type_name impl_name := by
  simp only [handle_struct, String.append_assoc]
  rfl

theorem foldl_append_join {α : Type} (f : α → String) (xs : List α) (acc : String) :
    xs.foldl (fun out x => out ++ f x) acc = acc ++ String.join (xs.map f) := by
  induction xs generalizing acc with
  | nil => simp [String.join]
  | cons x xs ih =>
    simp only [List.foldl, List.map, ih]
    have h : ∀ (l : List String) (a : String), String.join (a :: l) = a ++ String.join l := by
      intro l a
      simp only [String.join, List.foldl]
      have g : ∀ (l : List String) (b c : String),
          l.foldl (fun r s => r ++ s) (b ++ c) = b ++ l.foldl (fun r s => r ++ s) c := by
        intro l
        induction l with
        | nil => intro b c; rfl
        | cons y l ihl => intro b c; simp only [List.foldl, String.append_assoc, ihl]
      simpa using g l a ""
    rw [h, String.append_assoc]

theorem should_write_interface_iff {n : Nat} (db : Database n) (type : TypeDef n) :
    should_write_interface db type = true ↔
      (db.row type).TypeName ≠ "IUnknown" ∧ 3 ≤ (db.row type).MethodList.length := by
  simp [should_write_interface]

theorem write_interface_abi_eq {n : Nat} (tw : type_writers n) (w : writer) (db : Database n)
    (type : TypeDef n) (h : should_write_interface db type = true) :
    write_interface_abi tw w db type = Except.ok (abi_head (tw.write_TypeDef w type) ++
      String.join (((db.row type).MethodList.drop 3).map
        (write_interface_abi_slot tw (w.push_abi_types true))) ++ abi_tail) := by
  have h3 := ((should_write_interface_iff db type).1 h).2
  simp only [write_interface_abi, h, non_inherited_methods, ge_iff_le, h3, if_true,
    write_abi_head, foldl_append_join, Bool.not_true, Bool.false_eq_true, if_false]
  simp [abi_tail]

theorem write_consume_eq {n : Nat} (tw : type_writers n) (w : writer) (db : Database n)
    (type : TypeDef n) (h : should_write_interface db type = true) :
    write_consume tw w db type = Except.ok (consume_struct
      (tw.get_impl_name (db.row type).TypeNamespace (db.row type).TypeName)
      (String.join (((db.row type).MethodList.drop 3).map
        (write_consume_declaration tw w)))) := by
  have h3 := ((should_write_interface_iff db type).1 h).2
  simp only [write_consume, h, non_inherited_methods, ge_iff_le, h3, if_true,
    write_consume_struct, foldl_append_join, Bool.not_true, Bool.false_eq_true, if_false]
  simp

/-- C8, counterexample: the interface `IFoo` of exactly 3 methods is written by
`write_interface_abi`, by `write_consume` and by `write_interface`. -/
theorem three_method_interface_written :
    ((interface_db "IFoo" ["QueryInterface", "AddRef", "Release"]).row 0).MethodList.length = 3 ∧
    write_interface_abi (sample_writers 1) {}
      (interface_db "IFoo" ["QueryInterface", "AddRef", "Release"]) 0 ≠ Except.ok "" ∧
    write_consume (sample_writers 1) {}
      (interface_db "IFoo" ["QueryInterface", "AddRef", "Release"]) 0 ≠ Except.ok "" ∧
    write_interface (sample_writers 1)
      (interface_db "IFoo" ["QueryInterface", "AddRef", "Release"]) 0 ≠ "" := by
  refine ⟨by decide, ?_, ?_, ?_⟩
  · intro h
    have h2 : write_interface_abi (sample_writers 1) {}
      (interface_db "IFoo" ["QueryInterface", "AddRef", "Release"]) 0
        = Except.ok (abi_head "T0" ++ abi_tail) := by rfl
    rw [h2] at h
    exact absurd (Except.ok.inj h) (by decide)
  · intro h
    have h2 : write_consume (sample_writers 1) {}
      (interface_db "IFoo" ["QueryInterface", "AddRef", "Release"]) 0
        = Except.ok (consume_struct "N_IFoo" "") := by rfl
    rw [h2] at h
    exact absurd (Except.ok.inj h) (by decide)
  · decide

/-- C8, amended: for a type of exactly 3 methods the three writers write nothing when the type
is named `IUnknown`; under any other name they write the dispatch table without a slot, the
consumer struct without a declaration, and the handle struct. -/
theorem three_method_interface {n : Nat} (tw : type_writers n) (w : writer) (db : Database n)
    (type : TypeDef n) (h : (db.row type).MethodList.length = 3) :
    ((db.row type).TypeName = "IUnknown" →
      write_interface_abi tw w db type = Except.ok "" ∧
      write_consume tw w db type = Except.ok "" ∧
      write_interface tw db type = "") ∧
    ((db.row type).TypeName ≠ "IUnknown" →
      write_interface_abi tw w db type
        = Except.ok (abi_head (tw.write_TypeDef w type) ++ abi_tail) ∧
      write_consume tw w db type = Except.ok (consume_struct
        (tw.get_impl_name (db.row type).TypeNamespace (db.row type).TypeName) "") ∧
      write_interface tw db type = handle_struct (db.row type).TypeName
        (tw.get_impl_name (db.row type).TypeNamespace (db.row type).TypeName)) := by
  constructor
  · intro hn
    have hs : should_write_interface db type = false := by simp [should_write_interface, hn]
    simp [write_interface_abi, write_consume, write_interface, hs]
  · intro hn
    have hs : should_write_interface db type = true := by simp [should_write_interface, hn, h]
    have hd : (db.row type).MethodList.drop 3 = [] := by
      apply List.drop_eq_nil_of_le; omega
    refine ⟨?_, ?_, ?_⟩
    · rw [write_interface_abi_eq tw w db type hs, hd]; simp [String.join]
    · rw [write_consume_eq tw w db type hs, hd]; simp [String.join]
    · simp only [write_interface, hs, Bool.not_true, Bool.false_eq_true, if_false,
        write_handle_struct]

/-- The interface `IFoo` of 3 methods gets its handle struct. -/
theorem three_method_interface_witness :
    ((interface_db "IFoo" ["QueryInterface", "AddRef", "Release"]).row 0).MethodList.length = 3 ∧
    write_interface (sample_writers 1)
      (interface_db "IFoo" ["QueryInterface", "AddRef", "Release"]) 0
        = handle_struct "IFoo" "N_IFoo" :=
  ⟨by decide, ((three_method_interface (sample_writers 1) {}
    (interface_db "IFoo" ["QueryInterface", "AddRef", "Release"]) 0 (by decide)).2
      (by decide)).2.2⟩

/-! ## Marshaling override -/

theorem abi_param_type_eq {n : Nat} (tw : type_writers n) (w : writer) (p : Param × TypeSig n) :
    abi_param_type tw w p = marshaled_type tw w p := by
  unfold abi_param_type marshaled_type
  cases hm : p.1.Flags.HasFieldMarshal <;> cases hn : p.1.FieldMarshal <;> simp [write_one]

theorem method_param_type_eq {n : Nat} (tw : type_writers n) (w : writer)
    (p : Param × TypeSig n) : method_param_type tw w p = marshaled_type tw w p := by
  unfold method_param_type marshaled_type
  cases hm : p.1.Flags.HasFieldMarshal <;> cases hn : p.1.FieldMarshal <;> simp [write_one]

theorem delegate_param_type_eq {n : Nat} (tw : type_writers n) (w : writer)
    (p : Param × TypeSig n) : delegate_param_type tw w p = marshaled_type tw w p := by
  unfold delegate_param_type marshaled_type
  cases hm : p.1.Flags.HasFieldMarshal <;> cases hn : p.1.FieldMarshal <;> simp [write_one]

/-- C10: in `write_abi_params`, `write_method_params` and `write_delegate_params` the type of a
parameter is `const char*` or `char*` under an Lpstr override and `const wchar_t*` or `wchar_t*`
under an Lpwstr override, `const` with the In flag, whatever its signature, and the structural
rendering of its signature with no override or an override of another native type; the three
functions choose the same string, written before the parameter name (alone for a delegate) and
separated by `, `. -/
theorem marshaling_override {n : Nat} (tw : type_writers n) (w : writer) :
    (∀ p : Param × TypeSig n,
      abi_param_type tw w p = marshaled_type tw w p ∧
      method_param_type tw w p = marshaled_type tw w p ∧
      delegate_param_type tw w p = marshaled_type tw w p) ∧
    (∀ m : MethodDef n,
      write_abi_params tw w m
        = ", ".intercalate (m.params.map fun p => marshaled_type tw w p ++ " " ++ p.1.Name) ∧
      write_method_params tw w m
        = ", ".intercalate (m.params.map fun p => marshaled_type tw w p ++ " " ++ p.1.Name) ∧
      write_delegate_params tw w m
        = ", ".intercalate (m.params.map fun p => marshaled_type tw w p)) := by
  refine ⟨fun p => ⟨abi_param_type_eq tw w p, method_param_type_eq tw w p,
    delegate_param_type_eq tw w p⟩, fun m => ⟨?_, ?_, ?_⟩⟩
  · simp only [write_abi_params, write_separated_eq, write_two, abi_param_type_eq]
  · simp only [write_method_params, write_separated_eq, write_two, method_param_type_eq]
  · simp only [write_delegate_params, write_separated_eq, write_one, delegate_param_type_eq]

/-! ## Flag-enum operators -/

theorem write_segment_cons (code : String → String) (c : Char) (rest : List Char)
    (args : List String) :
    write_segment code (c :: rest) args =
      if c = '^' then
        match rest with
        | [] => []
        | next :: rest2 => next :: write_segment code rest2 args
      else if c = '%' then
        match args with
        | [] => c :: write_segment code rest []
        | first :: more => first.data ++ write_segment code rest more
      else if c = '@' then
        match args with
        | [] => c :: write_segment code rest []
        | first :: more => (code first).data ++ write_segment code rest more
      else c :: write_segment code rest args := by
  cases rest <;> cases args <;> simp only [write_segment]

theorem placeholders_cons (c : Char) (rest : List Char) :
    placeholders (c :: rest) =
      if c = '^' then
        match rest with
        | [] => 0
        | _ :: rest2 => placeholders rest2
      else if c = '%' ∨ c = '@' then placeholders rest + 1
      else placeholders rest := by
  cases rest <;> simp only [placeholders]

theorem closed_format_cons (c : Char) (rest : List Char) :
    closed_format (c :: rest) =
      if c = '^' then
        match rest with
        | [] => false
        | _ :: rest2 => closed_format rest2
      else closed_format rest := by
  cases rest <;> simp only [closed_format]

theorem write_segment_append (code : String → String) (k : Nat) :
    ∀ (f1 f2 : List Char) (a1 a2 : List String), f1.length ≤ k → closed_format f1 = true →
      placeholders f1 = a1.length →
      write_segment code (f1 ++ f2) (a1 ++ a2)
        = write_segment code f1 a1 ++ write_segment code f2 a2 := by
  induction k with
  | zero =>
    intro f1 f2 a1 a2 hk _ hp
    have hf : f1 = [] := List.length_eq_zero.1 (Nat.le_zero.1 hk)
    subst hf
    have ha : a1 = [] := by
      simp only [placeholders] at hp
      exact List.length_eq_zero.1 hp.symm
    subst ha
    simp [write_segment]
  | succ k ih =>
    intro f1 f2 a1 a2 hk hc hp
    cases f1 with
    | nil =>
      have ha : a1 = [] := by
        simp only [placeholders] at hp
        exact List.length_eq_zero.1 hp.symm
      subst ha
      simp [write_segment]
    | cons c rest =>
      simp only [List.length_cons] at hk
      rw [closed_format_cons] at hc
      rw [placeholders_cons] at hp
      rw [List.cons_append, write_segment_cons, write_segment_cons code c rest]
      by_cases h1 : c = '^'
      · simp only [h1, if_true] at hc hp ⊢
        cases rest with
        | nil => simp at hc
        | cons d rest2 =>
          simp only [List.length_cons] at hk
          simp only [List.cons_append] at hc hp ⊢
          rw [ih rest2 f2 a1 a2 (by omega) hc hp]
      · simp only [h1, if_false] at hc hp ⊢
        by_cases h2 : c = '%'
        · simp only [h2, true_or, if_true] at hp ⊢
          cases a1 with
          | nil => simp at hp
          | cons a a1 =>
            simp only [List.length_cons, Nat.add_right_cancel_iff] at hp
            simp only [List.cons_append]
            rw [ih rest f2 a1 a2 (by omega) hc hp]
            simp
        · by_cases h3 : c = '@'
          · simp only [h3, or_true, if_true] at hp ⊢
            cases a1 with
            | nil => simp at hp
            | cons a a1 =>
              simp only [List.length_cons, Nat.add_right_cancel_iff] at hp
              simp only [List.cons_append]
              have h4 : ¬ ('@' = '%') := by decide
              simp only [h4, if_false]
              rw [ih rest f2 a1 a2 (by omega) hc hp]
              simp
          · simp only [h2, h3, or_self, if_false] at hp ⊢
            rw [ih rest f2 a1 a2 (by omega) hc hp]
            rfl

theorem write_append {n : Nat} (tw : type_writers n) (F1 F2 : String) (A1 A2 : List String)
    (hc : closed_format F1.data = true) (hp : placeholders F1.data = A1.length) :
    write tw (F1 ++ F2) (A1 ++ A2) = write tw F1 A1 ++ write tw F2 A2 := by
  apply String.ext
  simp only [write, String.data_append]
  exact write_segment_append tw.write_code F1.data.length F1.data F2.data A1 A2 (le_refl _) hc hp

theorem write_or_format {n : Nat} (tw : type_writers n) (E : String) :
    write tw
      ("    constexpr auto operator|(% const left, % const right) noexcept\n" ++
      "    \x7b\n" ++
      "        return static_cast<%>(_impl_::to_underlying_type(left) | _impl_::to_underlying_type(right));\n" ++
      "    \x7d\n") [E, E, E]
      = binary_operator "|" E := by
  simp only [binary_operator, assignment_operator, complement_operator, String.append_assoc]
  rfl

theorem write_or_assign_format {n : Nat} (tw : type_writers n) (E : String) :
    write tw
      ("    constexpr auto operator|=(%& left, % const right) noexcept\n" ++
      "    \x7b\n" ++
      "        left = left | right;\n" ++
      "        return left;\n" ++
      "    \x7d\n") [E, E]
      = assignment_operator "|" E := by
  simp only [binary_operator, assignment_operator, complement_operator, String.append_assoc]
  rfl

theorem write_and_format {n : Nat} (tw : type_writers n) (E : String) :
    write tw
      ("    constexpr auto operator&(% const left, % const right) noexcept\n" ++
      "    \x7b\n" ++
      "        return static_cast<%>(_impl_::to_underlying_type(left) & _impl_::to_underlying_type(right));\n" ++
      "    \x7d\n") [E, E, E]
      = binary_operator "&" E := by
  simp only [binary_operator, assignment_operator, complement_operator, String.append_assoc]
  rfl

theorem write_and_assign_format {n : Nat} (tw : type_writers n) (E : String) :
    write tw
      ("    constexpr auto operator&=(%& left, % const right) noexcept\n" ++
      "    \x7b\n" ++
      "        left = left & right;\n" ++
      "        return left;\n" ++
      "    \x7d\n") [E, E]
      = assignment_operator "&" E := by
  simp only [binary_operator, assignment_operator, complement_operator, String.append_assoc]
  rfl

theorem write_complement_format {n : Nat} (tw : type_writers n) (E : String) :
    write tw
      ("    constexpr auto operator~(% const value) noexcept\n" ++
      "    \x7b\n" ++
      "        return static_cast<%>(~_impl_::to_underlying_type(value));\n" ++
      "    \x7d\n") [E, E]
      = complement_operator E := by
  simp only [binary_operator, assignment_operator, complement_operator, String.append_assoc]
  rfl

theorem write_xor_format {n : Nat} (tw : type_writers n) (E : String) :
    write tw
      ("    constexpr auto operator^^(% const left, % const right) noexcept\n" ++
      "    \x7b\n" ++
      "        return static_cast<%>(_impl_::to_underlying_type(left) ^^ _impl_::to_underlying_type(right));\n" ++
      "    \x7d\n") [E, E, E]
      = binary_operator "^" E := by
  simp only [binary_operator, assignment_operator, complement_operator, String.append_assoc]
  rfl

theorem write_xor_assign_format {n : Nat} (tw : type_writers n) (E : String) :
    write tw
      ("    constexpr auto operator^^=(%& left, % const right) noexcept\n" ++
      "    \x7b\n" ++
      "        left = left ^^ right;\n" ++
      "        return left;\n" ++
      "    \x7d\n") [E, E]
      = assignment_operator "^" E := by
  simp only [binary_operator, assignment_operator, complement_operator, String.append_assoc]
  rfl

theorem write_enum_format {n : Nat} (tw : type_writers n) (E : String) :
    write tw enum_operators_format (enum_operators_args E)
      = binary_operator "|" E ++ assignment_operator "|" E ++ binary_operator "&" E ++
        assignment_operator "&" E ++ complement_operator E ++ binary_operator "^" E ++
        assignment_operator "^" E := by
  have hf : enum_operators_format =
      ("    constexpr auto operator|(% const left, % const right) noexcept\n" ++
      "    \x7b\n" ++
      "        return static_cast<%>(_impl_::to_underlying_type(left) | _impl_::to_underlying_type(right));\n" ++
      "    \x7d\n") ++
      (("    constexpr auto operator|=(%& left, % const right) noexcept\n" ++
      "    \x7b\n" ++
      "        left = left | right;\n" ++
      "        return left;\n" ++
      "    \x7d\n") ++
      (("    constexpr auto operator&(% const left, % const right) noexcept\n" ++
      "    \x7b\n" ++
      "        return static_cast<%>(_impl_::to_underlying_type(left) & _impl_::to_underlying_type(right));\n" ++
      "    \x7d\n") ++
      (("    constexpr auto operator&=(%& left, % const right) noexcept\n" ++
      "    \x7b\n" ++
      "        left = left & right;\n" ++
      "        return left;\n" ++
      "    \x7d\n") ++
      (("    constexpr auto operator~(% const value) noexcept\n" ++
      "    \x7b\n" ++
      "        return static_cast<%>(~_impl_::to_underlying_type(value));\n" ++
      "    \x7d\n") ++
      (("    constexpr auto operator^^(% const left, % const right) noexcept\n" ++
      "    \x7b\n" ++
      "        return static_cast<%>(_impl_::to_underlying_type(left) ^^ _impl_::to_underlying_type(right));\n" ++
      "    \x7d\n") ++
      (("    constexpr auto operator^^=(%& left, % const right) noexcept\n" ++
      "    \x7b\n" ++
      "        left = left ^^ right;\n" ++
      "        return left;\n" ++
      "    \x7d\n"))))))) := by
    simp only [enum_operators_format, String.append_assoc]
  have ha : enum_operators_args E = [E, E, E] ++ ([E, E] ++ ([E, E, E] ++ ([E, E] ++ ([E, E] ++ ([E, E, E] ++ ([E, E])))))) := rfl
  rw [hf, ha, write_append tw _ _ _ _ (by rfl) (by rfl), write_append tw _ _ _ _ (by rfl) (by rfl),
    write_append tw _ _ _ _ (by rfl) (by rfl), write_append tw _ _ _ _ (by rfl) (by rfl),
    write_append tw _ _ _ _ (by rfl) (by rfl), write_append tw _ _ _ _ (by rfl) (by rfl),
    write_or_format, write_or_assign_format, write_and_format, write_and_assign_format,
    write_complement_format, write_xor_format, write_xor_assign_format]
  simp only [String.append_assoc]

/-- C9: for an enum that carries `System.FlagsAttribute`, `write_enum_operators` writes the 7
declarations of `|`, `|=`, `&`, `&=`, `~`, `^` and `^=`, in that order, with the name of the
enum at every placeholder and `^^` written as `^`; the format has 17 placeholders and the call
passes 17 arguments, each the name; for an enum without the attribute it writes nothing. -/
theorem enum_operators {n : Nat} (tw : type_writers n) (db : Database n) (type : TypeDef n) :
    write_enum_operators tw db type
      = (if has_attribute (db.row type).attributes "System" "FlagsAttribute" = true then
          binary_operator "|" (db.row type).TypeName ++
          assignment_operator "|" (db.row type).TypeName ++
          binary_operator "&" (db.row type).TypeName ++
          assignment_operator "&" (db.row type).TypeName ++
          complement_operator (db.row type).TypeName ++
          binary_operator "^" (db.row type).TypeName ++
          assignment_operator "^" (db.row type).TypeName
        else "") ∧
    placeholders enum_operators_format.data = 17 ∧
    (enum_operators_args (db.row type).TypeName).length = 17 ∧
    (∀ a ∈ enum_operators_args (db.row type).TypeName, a = (db.row type).TypeName) := by
  refine ⟨?_, by rfl, by rfl, ?_⟩
  · have h := get_attribute_isSome (db.row type).attributes "System" "FlagsAttribute"
    unfold write_enum_operators
    cases hg : get_attribute (db.row type).attributes "System" "FlagsAttribute" with
    | none =>
      rw [hg] at h
      simp [← h]
    | some a =>
      rw [hg] at h
      simp only [← h, Option.isSome_some, if_true, write_enum_format]
  · intro a ha
    simpa [enum_operators_args] using ha

/-! ## GUID decoder -/

theorem hex_digit_value_of_mem : ∀ c ∈ hex_chars, hex_digit_value c = some (hex_digit c) := by
  decide

theorem hex_digit_lt : ∀ c ∈ hex_chars, hex_digit c < 16 := by
  decide

theorem foldl_hex_eq (cs : List Char) (h : ∀ c ∈ cs, c ∈ hex_chars) (v : Nat) :
    cs.foldl (fun acc c => 16 * acc + (hex_digit_value c).getD 0) v
      = cs.foldl (fun v c => v * 16 + hex_digit c) v := by
  induction cs generalizing v with
  | nil => rfl
  | cons c cs ih =>
    have hc := hex_digit_value_of_mem c (h c (List.mem_cons_self c cs))
    simp only [List.foldl, hc, Option.getD_some]
    rw [ih (fun d hd => h d (List.mem_cons_of_mem c hd)), Nat.mul_comm]

theorem foldl_hex_lt (cs : List Char) (h : ∀ c ∈ cs, c ∈ hex_chars) (v : Nat) :
    cs.foldl (fun v c => v * 16 + hex_digit c) v < (v + 1) * 16 ^ cs.length := by
  induction cs generalizing v with
  | nil => simp
  | cons c cs ih =>
    have hc := hex_digit_lt c (h c (List.mem_cons_self c cs))
    simp only [List.foldl, List.length_cons]
    calc cs.foldl (fun v c => v * 16 + hex_digit c) (v * 16 + hex_digit c)
        < (v * 16 + hex_digit c + 1) * 16 ^ cs.length :=
          ih (fun d hd => h d (List.mem_cons_of_mem c hd)) _
      _ ≤ ((v + 1) * 16) * 16 ^ cs.length := Nat.mul_le_mul_right _ (by omega)
      _ = (v + 1) * 16 ^ (cs.length + 1) := by rw [Nat.pow_succ]; ring

theorem hex_value_lt (cs : List Char) (h : ∀ c ∈ cs, c ∈ hex_chars) :
    hex_value cs < 16 ^ cs.length := by
  simpa [hex_value] using foldl_hex_lt cs h 0

theorem from_chars_of_hex (data : List Char) (first last value bits : Nat)
    (hall : ∀ c ∈ (data.drop first).take (last - first), c ∈ hex_chars)
    (hne : (data.drop first).take (last - first) ≠ [])
    (hfit : 16 ^ ((data.drop first).take (last - first)).length ≤ 2 ^ bits) :
    from_chars data first last value bits = hex_value ((data.drop first).take (last - first)) := by
  have htw : ((data.drop first).take (last - first)).takeWhile
      (fun c => (hex_digit_value c).isSome) = (data.drop first).take (last - first) := by
    rw [List.takeWhile_eq_self_iff]
    intro c hc
    simp [hex_digit_value_of_mem c (hall c hc)]
  unfold from_chars
  simp only [htw, hne, if_false]
  rw [foldl_hex_eq _ hall]
  have hlt := hex_value_lt _ hall
  have : hex_value ((data.drop first).take (last - first)) < 2 ^ bits := lt_of_lt_of_le hlt hfit
  simp only [hex_value] at this ⊢
  simp [this]

theorem canonical_slice (str : String) (h : canonical_guid_text str) (a b : Nat) (hab : a ≤ b)
    (hb : b ≤ 36) (hno : ∀ i, a ≤ i → i < b → ¬(i = 8 ∨ i = 13 ∨ i = 18 ∨ i = 23)) :
    (∀ c ∈ chars_between str a b, c ∈ hex_chars) ∧ (chars_between str a b).length = b - a := by
  obtain ⟨hlen, hch⟩ := h
  have hlen2 : str.data.length = 36 := hlen
  constructor
  · intro c hc
    obtain ⟨j, hj⟩ := List.mem_iff_getElem?.1 hc
    simp only [chars_between, List.getElem?_take, List.getElem?_drop] at hj
    split at hj
    · rename_i hlt
      have := hch (a + j, c) (List.mem_enum_iff_getElem?.2 hj)
      simp only [canonical_char, hno (a + j) (by omega) (by omega), if_false] at this
      simpa using this
    · cases hj
  · simp only [chars_between, List.length_take, List.length_drop, hlen2]
    omega

theorem from_chars_slice (str : String) (h : canonical_guid_text str) (a b value bits : Nat)
    (hab : a < b) (hb : b ≤ 36)
    (hno : ∀ i, a ≤ i → i < b → ¬(i = 8 ∨ i = 13 ∨ i = 18 ∨ i = 23))
    (hfit : 16 ^ (b - a) ≤ 2 ^ bits) :
    from_chars str.data a b value bits = hex_value (chars_between str a b) := by
  obtain ⟨h1, h2⟩ := canonical_slice str h a b (le_of_lt hab) hb hno
  apply from_chars_of_hex
  · exact h1
  · intro hnil
    have : (chars_between str a b).length = 0 := by
      simp [chars_between, hnil]
    omega
  · have h2' : ((str.data.drop a).take (b - a)).length = b - a := h2
    rw [h2']; exact hfit

theorem hex_value_slice_lt (str : String) (h : canonical_guid_text str) (a b : Nat)
    (hab : a ≤ b) (hb : b ≤ 36)
    (hno : ∀ i, a ≤ i → i < b → ¬(i = 8 ∨ i = 13 ∨ i = 18 ∨ i = 23)) :
    hex_value (chars_between str a b) < 16 ^ (b - a) := by
  obtain ⟨h1, h2⟩ := canonical_slice str h a b hab hb hno
  have := hex_value_lt (chars_between str a b) h1
  rwa [h2] at this

theorem to_guid_decoded (str : String) (uninit : guid) (h : canonical_guid_text str) :
    to_guid str uninit = Except.ok
      { Data1 := hex_value (chars_between str 0 8)
        Data2 := hex_value (chars_between str 9 13)
        Data3 := hex_value (chars_between str 14 18)
        Data4 :=
          [ hex_value (chars_between str 19 21), hex_value (chars_between str 21 23),
            hex_value (chars_between str 24 26), hex_value (chars_between str 26 28),
            hex_value (chars_between str 28 30), hex_value (chars_between str 30 32),
            hex_value (chars_between str 32 34), hex_value (chars_between str 34 36) ] } := by
  have key := from_chars_slice str h
  have hlen : ¬ str.length < 36 := by have := h.1; omega
  unfold to_guid
  simp only [hlen, if_false]
  rw [key 0 8 _ 32 (by omega) (by omega) (by intro i h1 h2; omega) (by norm_num),
    key 9 13 _ 16 (by omega) (by omega) (by intro i h1 h2; omega) (by norm_num),
    key 14 18 _ 16 (by omega) (by omega) (by intro i h1 h2; omega) (by norm_num),
    key 19 21 _ 8 (by omega) (by omega) (by intro i h1 h2; omega) (by norm_num),
    key 21 23 _ 8 (by omega) (by omega) (by intro i h1 h2; omega) (by norm_num),
    key 24 26 _ 8 (by omega) (by omega) (by intro i h1 h2; omega) (by norm_num),
    key 26 28 _ 8 (by omega) (by omega) (by intro i h1 h2; omega) (by norm_num),
    key 28 30 _ 8 (by omega) (by omega) (by intro i h1 h2; omega) (by norm_num),
    key 30 32 _ 8 (by omega) (by omega) (by intro i h1 h2; omega) (by norm_num),
    key 32 34 _ 8 (by omega) (by omega) (by intro i h1 h2; omega) (by norm_num),
    key 34 36 _ 8 (by omega) (by omega) (by intro i h1 h2; omega) (by norm_num)]

/-- C3: for a GUID text of the canonical form `to_guid` returns a guid whose `Data1` is the
value of the characters 0 to 7, below `2 ^ 32`, whose `Data2` and `Data3` are the values of the
characters 9 to 12 and 14 to 17, below `2 ^ 16`, and whose `Data4` holds the values of the
character pairs at 19 and 21 and of the six pairs from 24 to 35, each below `2 ^ 8`, whatever
the case of the digits. -/
theorem to_guid_canonical (str : String) (uninit : guid) (h : canonical_guid_text str) :
    ∃ g, to_guid str uninit = Except.ok g ∧
      g.Data1 = hex_value (chars_between str 0 8) ∧ g.Data1 < 2 ^ 32 ∧
      g.Data2 = hex_value (chars_between str 9 13) ∧ g.Data2 < 2 ^ 16 ∧
      g.Data3 = hex_value (chars_between str 14 18) ∧ g.Data3 < 2 ^ 16 ∧
      g.Data4 =
        [ hex_value (chars_between str 19 21), hex_value (chars_between str 21 23),
          hex_value (chars_between str 24 26), hex_value (chars_between str 26 28),
          hex_value (chars_between str 28 30), hex_value (chars_between str 30 32),
          hex_value (chars_between str 32 34), hex_value (chars_between str 34 36) ] ∧
      ∀ b ∈ g.Data4, b < 2 ^ 8 := by
  have hlt := hex_value_slice_lt str h
  refine ⟨_, to_guid_decoded str uninit h, rfl, ?_, rfl, ?_, rfl, ?_, rfl, ?_⟩
  · exact hlt 0 8 (by omega) (by omega) (by intro i h1 h2; omega)
  · exact hlt 9 13 (by omega) (by omega) (by intro i h1 h2; omega)
  · exact hlt 14 18 (by omega) (by omega) (by intro i h1 h2; omega)
  · intro b hb
    simp only [List.mem_cons, List.mem_singleton, List.not_mem_nil, or_false] at hb
    rcases hb with hb | hb | hb | hb | hb | hb | hb | hb <;> subst hb
    · exact hlt 19 21 (by omega) (by omega) (by intro i h1 h2; omega)
    · exact hlt 21 23 (by omega) (by omega) (by intro i h1 h2; omega)
    · exact hlt 24 26 (by omega) (by omega) (by intro i h1 h2; omega)
    · exact hlt 26 28 (by omega) (by omega) (by intro i h1 h2; omega)
    · exact hlt 28 30 (by omega) (by omega) (by intro i h1 h2; omega)
    · exact hlt 30 32 (by omega) (by omega) (by intro i h1 h2; omega)
    · exact hlt 32 34 (by omega) (by omega) (by intro i h1 h2; omega)
    · exact hlt 34 36 (by omega) (by omega) (by intro i h1 h2; omega)

/-- The text `A1B2C3D4-E5F6-1234-5678-9ABCDEF01234` is canonical and decodes to
`Data1 = 0xA1B2C3D4`, `Data2 = 0xE5F6`, `Data3 = 0x1234` and the bytes
`56 78 9A BC DE F0 12 34`. -/
theorem to_guid_canonical_witness :
    canonical_guid_text "A1B2C3D4-E5F6-1234-5678-9ABCDEF01234" ∧
    ∃ g, to_guid "A1B2C3D4-E5F6-1234-5678-9ABCDEF01234" ⟨0, 0, 0, []⟩ = Except.ok g ∧
      g.Data1 = 0xA1B2C3D4 ∧ g.Data2 = 0xE5F6 ∧ g.Data3 = 0x1234 ∧
      g.Data4 = [0x56, 0x78, 0x9A, 0xBC, 0xDE, 0xF0, 0x12, 0x34] := by
  refine ⟨by decide, ?_⟩
  obtain ⟨g, h0, h1, _, h2, _, h3, _, h4, _⟩ :=
    to_guid_canonical "A1B2C3D4-E5F6-1234-5678-9ABCDEF01234" ⟨0, 0, 0, []⟩ (by decide)
  exact ⟨g, h0, h1.trans (by decide), h2.trans (by decide), h3.trans (by decide),
    h4.trans (by decide)⟩

theorem to_guid_short (str : String) (uninit : guid) (h : str.length < 36) :
    to_guid str uninit = Except.error (error.invalid_argument "Invalid GuidAttribute blob") := by
  simp only [to_guid, h, if_true, throw_invalid]
  rfl

/-- C5: `to_guid` raises the `Invalid GuidAttribute blob` error exactly for the strings of fewer
than 36 characters, and returns a guid exactly for the strings of 36 characters or more; the
empty string and the first 35 characters of a canonical text raise the error. -/
theorem to_guid_error (str : String) (uninit : guid) :
    (to_guid str uninit = Except.error (error.invalid_argument "Invalid GuidAttribute blob")
      ↔ str.length < 36) ∧
    ((∃ g, to_guid str uninit = Except.ok g) ↔ 36 ≤ str.length) ∧
    to_guid "" uninit = Except.error (error.invalid_argument "Invalid GuidAttribute blob") ∧
    to_guid "A1B2C3D4-E5F6-1234-5678-9ABCDEF0123" uninit
      = Except.error (error.invalid_argument "Invalid GuidAttribute blob") := by
  refine ⟨?_, ?_, to_guid_short "" uninit (by decide),
    to_guid_short "A1B2C3D4-E5F6-1234-5678-9ABCDEF0123" uninit (by decide)⟩
  · by_cases h : str.length < 36
    · simp [to_guid_short str uninit h, h]
    · simp only [to_guid, h, if_false]
      simp
  · by_cases h : str.length < 36
    · simp [to_guid_short str uninit h]
      omega
    · simp only [to_guid, h, if_false]
      simp
      omega

theorem hex_digit_upper_of_mem : ∀ c ∈ hex_chars, hex_digit_upper (hex_digit c) = c.toUpper := by
  decide

theorem eq_zero_char_of_mem : ∀ c ∈ hex_chars, hex_digit c = 0 → c = '0' := by
  decide

theorem hex_value_append (cs : List Char) (c : Char) :
    hex_value (cs ++ [c]) = hex_value cs * 16 + hex_digit c := by
  simp [hex_value, List.foldl_append]

theorem hex_value_eq_zero (cs : List Char) (h : ∀ c ∈ cs, c ∈ hex_chars)
    (h0 : hex_value cs = 0) : ∀ c ∈ cs, c = '0' := by
  induction cs using List.reverseRecOn with
  | nil => simp
  | append_singleton cs c ih =>
    rw [hex_value_append] at h0
    have h1 : hex_value cs = 0 := by omega
    have h2 : hex_digit c = 0 := by omega
    intro d hd
    rcases List.mem_append.1 hd with hd | hd
    · exact ih (fun e he => h e (List.mem_append_left _ he)) h1 d hd
    · have hdc : d = c := by simpa using hd
      subst hdc
      exact eq_zero_char_of_mem d (h d (List.mem_append_right _ hd)) h2

theorem to_hex_upper_spec (cs : List Char) (h : ∀ c ∈ cs, c ∈ hex_chars) (hne : cs ≠ []) :
    ∀ (fuel : Nat) (acc : List Char), hex_value cs < fuel →
      ∃ k, k < cs.length ∧ (∀ c ∈ cs.take k, c = '0') ∧
        to_hex_upper fuel (hex_value cs) acc = (cs.drop k).map Char.toUpper ++ acc := by
  induction cs using List.reverseRecOn with
  | nil => exact absurd rfl hne
  | append_singleton cs c ih =>
    intro fuel acc hfuel
    have hc : c ∈ hex_chars := h c (by simp)
    have hcs : ∀ d ∈ cs, d ∈ hex_chars := fun d hd => h d (List.mem_append_left _ hd)
    have hlt := hex_digit_lt c hc
    rw [hex_value_append] at hfuel ⊢
    obtain ⟨f, rfl⟩ : ∃ f, fuel = f + 1 := ⟨fuel - 1, by omega⟩
    have hdiv : (hex_value cs * 16 + hex_digit c) / 16 = hex_value cs := by omega
    have hmod : (hex_value cs * 16 + hex_digit c) % 16 = hex_digit c := by omega
    simp only [to_hex_upper, hdiv, hmod, hex_digit_upper_of_mem c hc]
    by_cases h0 : hex_value cs = 0
    · refine ⟨cs.length, by simp, ?_, ?_⟩
      · intro d hd
        have hd2 : d ∈ cs := by simpa using hd
        exact hex_value_eq_zero cs hcs h0 d hd2
      · simp [h0]
    · have hne2 : cs ≠ [] := by
        intro hnil; apply h0; subst hnil; rfl
      obtain ⟨k, hk, hz, he⟩ := ih hcs hne2 f (c.toUpper :: acc) (by omega)
      refine ⟨k, by simp; omega, ?_, ?_⟩
      · intro d hd
        rw [List.take_append_of_le_length (le_of_lt hk)] at hd
        exact hz d hd
      · simp only [h0, if_false, he]
        rw [List.drop_append_of_le_length (le_of_lt hk)]
        simp

theorem printf_X_hex (cs : List Char) (h : ∀ c ∈ cs, c ∈ hex_chars) (hne : cs ≠ []) :
    printf_X cs.length (hex_value cs) = String.mk (cs.map Char.toUpper) := by
  obtain ⟨k, hk, hz, he⟩ := to_hex_upper_spec cs h hne (hex_value cs + 1) [] (by omega)
  unfold printf_X
  simp only [he, List.append_nil, List.length_map, List.length_drop]
  have hw : cs.length - (cs.length - k) = k := by omega
  rw [hw]
  congr 1
  have hrep : List.replicate k '0' = (cs.take k).map Char.toUpper := by
    have hlen : (cs.take k).length = k := by simp; omega
    have : ∀ l : List Char, (∀ c ∈ l, c = '0') →
        List.replicate l.length '0' = l.map Char.toUpper := by
      intro l
      induction l with
      | nil => intro _; rfl
      | cons a l ihl =>
        intro hl
        have ha : a = '0' := hl a (by simp)
        subst ha
        simp only [List.length_cons, List.replicate_succ, List.map_cons]
        rw [ihl (fun c hc => hl c (List.mem_cons_of_mem _ hc))]
        rfl
    have h2 := this (cs.take k) hz
    rw [hlen] at h2
    exact h2
  rw [hrep, ← List.map_append, List.take_append_drop]

theorem printf_X_slice (str : String) (h : canonical_guid_text str) (a b w : Nat) (hab : a < b)
    (hb : b ≤ 36) (hno : ∀ i, a ≤ i → i < b → ¬(i = 8 ∨ i = 13 ∨ i = 18 ∨ i = 23))
    (hw : w = b - a) :
    printf_X w (hex_value (chars_between str a b)) = upper_hex str a b := by
  obtain ⟨h1, h2⟩ := canonical_slice str h a b (le_of_lt hab) hb hno
  have hne : chars_between str a b ≠ [] := by
    intro hnil
    rw [hnil] at h2
    simp at h2
    omega
  rw [hw, ← h2, printf_X_hex _ h1 hne]
  rfl

theorem chars_between_append (str : String) (a b c : Nat) (hab : a ≤ b) (hbc : b ≤ c) :
    chars_between str a b ++ chars_between str b c = chars_between str a c := by
  unfold chars_between
  have h1 : c - a = (b - a) + (c - b) := by omega
  have h2 : str.data.drop b = (str.data.drop a).drop (b - a) := by
    rw [List.drop_drop]; congr 1; omega
  rw [h1, List.take_add, h2]

theorem hyphen_slice (str : String) (h : canonical_guid_text str) (i : Nat)
    (hi : i = 8 ∨ i = 13 ∨ i = 18 ∨ i = 23) :
    (chars_between str i (i + 1)).filter (fun c => c ≠ '-') = [] := by
  rw [List.filter_eq_nil_iff]
  intro c hc
  obtain ⟨j, hj⟩ := List.mem_iff_getElem?.1 hc
  simp only [chars_between, List.getElem?_take, List.getElem?_drop] at hj
  split at hj
  · rename_i hlt
    have hj0 : j = 0 := by omega
    subst hj0
    have := h.2 (i + 0, c) (List.mem_enum_iff_getElem?.2 hj)
    simp only [canonical_char, Nat.add_zero, hi, if_true] at this
    simpa using this
  · cases hj

theorem hex_slice_filter (str : String) (h : canonical_guid_text str) (a b : Nat) (hab : a ≤ b)
    (hb : b ≤ 36) (hno : ∀ i, a ≤ i → i < b → ¬(i = 8 ∨ i = 13 ∨ i = 18 ∨ i = 23)) :
    (chars_between str a b).filter (fun c => c ≠ '-') = chars_between str a b := by
  rw [List.filter_eq_self]
  intro c hc
  have hm := (canonical_slice str h a b hab hb hno).1 c hc
  have : ∀ d ∈ hex_chars, d ≠ '-' := by decide
  simpa using this c hm

theorem guid_groups (str : String) (h : canonical_guid_text str) :
    chars_between str 0 8 ++ chars_between str 9 13 ++ chars_between str 14 18 ++
      chars_between str 19 21 ++ chars_between str 21 23 ++ chars_between str 24 26 ++
      chars_between str 26 28 ++ chars_between str 28 30 ++ chars_between str 30 32 ++
      chars_between str 32 34 ++ chars_between str 34 36
      = str.data.filter (fun c => c ≠ '-') := by
  have hlen : str.data.length = 36 := h.1
  have e : str.data = chars_between str 0 8 ++ (chars_between str 8 9 ++
      (chars_between str 9 13 ++ (chars_between str 13 14 ++ (chars_between str 14 18 ++
      (chars_between str 18 19 ++ (chars_between str 19 23 ++ (chars_between str 23 24 ++
      chars_between str 24 36))))))) := by
    rw [chars_between_append str 23 24 36 (by omega) (by omega),
      chars_between_append str 19 23 36 (by omega) (by omega),
      chars_between_append str 18 19 36 (by omega) (by omega),
      chars_between_append str 14 18 36 (by omega) (by omega),
      chars_between_append str 13 14 36 (by omega) (by omega),
      chars_between_append str 9 13 36 (by omega) (by omega),
      chars_between_append str 8 9 36 (by omega) (by omega),
      chars_between_append str 0 8 36 (by omega) (by omega)]
    simp [chars_between, ← hlen]
  have hx := fun a b hab hb hno => hex_slice_filter str h a b hab hb hno
  conv_rhs => rw [e]
  simp only [List.filter_append, hyphen_slice str h 8 (by omega),
    hyphen_slice str h 13 (by omega), hyphen_slice str h 18 (by omega),
    hyphen_slice str h 23 (by omega), List.nil_append,
    hx 0 8 (by omega) (by omega) (by intro i h1 h2; omega),
    hx 9 13 (by omega) (by omega) (by intro i h1 h2; omega),
    hx 14 18 (by omega) (by omega) (by intro i h1 h2; omega),
    hx 19 23 (by omega) (by omega) (by intro i h1 h2; omega),
    hx 24 36 (by omega) (by omega) (by intro i h1 h2; omega)]
  rw [← chars_between_append str 19 21 23 (by omega) (by omega),
    ← chars_between_append str 24 26 36 (by omega) (by omega),
    ← chars_between_append str 26 28 36 (by omega) (by omega),
    ← chars_between_append str 28 30 36 (by omega) (by omega),
    ← chars_between_append str 30 32 36 (by omega) (by omega),
    ← chars_between_append str 32 34 36 (by omega) (by omega)]
  simp only [List.append_assoc]

/-- C4: for a GUID text of the canonical form, `write_guid_value` of the decoded guid is `0x` and
8 digits, `,0x` and 4 digits twice, and eight bytes `0x` and 2 digits between braces, and these
32 digits, in order, are the characters of the text without its hyphens, in upper case. -/
theorem guid_round_trip (str : String) (uninit : guid) (h : canonical_guid_text str) :
    ∃ g, to_guid str uninit = Except.ok g ∧
      write_guid_value g
        = "0x" ++ upper_hex str 0 8 ++ ",0x" ++ upper_hex str 9 13 ++
          ",0x" ++ upper_hex str 14 18 ++
          ",\x7b 0x" ++ upper_hex str 19 21 ++ ",0x" ++ upper_hex str 21 23 ++
          ",0x" ++ upper_hex str 24 26 ++ ",0x" ++ upper_hex str 26 28 ++
          ",0x" ++ upper_hex str 28 30 ++ ",0x" ++ upper_hex str 30 32 ++
          ",0x" ++ upper_hex str 32 34 ++ ",0x" ++ upper_hex str 34 36 ++ " \x7d" ∧
      (upper_hex str 0 8 ++ upper_hex str 9 13 ++ upper_hex str 14 18 ++ upper_hex str 19 21 ++
        upper_hex str 21 23 ++ upper_hex str 24 26 ++ upper_hex str 26 28 ++
        upper_hex str 28 30 ++ upper_hex str 30 32 ++ upper_hex str 32 34 ++
        upper_hex str 34 36).data = (str.data.filter fun c => c ≠ '-').map Char.toUpper := by
  refine ⟨_, to_guid_decoded str uninit h, ?_, ?_⟩
  · have hp := fun a b w hab hb hno hw => printf_X_slice str h a b w hab hb hno hw
    simp only [write_guid_value, List.getD_cons_zero, List.getD_cons_succ,
      hp 0 8 8 (by omega) (by omega) (by intro i h1 h2; omega) (by omega),
      hp 9 13 4 (by omega) (by omega) (by intro i h1 h2; omega) (by omega),
      hp 14 18 4 (by omega) (by omega) (by intro i h1 h2; omega) (by omega),
      hp 19 21 2 (by omega) (by omega) (by intro i h1 h2; omega) (by omega),
      hp 21 23 2 (by omega) (by omega) (by intro i h1 h2; omega) (by omega),
      hp 24 26 2 (by omega) (by omega) (by intro i h1 h2; omega) (by omega),
      hp 26 28 2 (by omega) (by omega) (by intro i h1 h2; omega) (by omega),
      hp 28 30 2 (by omega) (by omega) (by intro i h1 h2; omega) (by omega),
      hp 30 32 2 (by omega) (by omega) (by intro i h1 h2; omega) (by omega),
      hp 32 34 2 (by omega) (by omega) (by intro i h1 h2; omega) (by omega),
      hp 34 36 2 (by omega) (by omega) (by intro i h1 h2; omega) (by omega)]
  · rw [← guid_groups str h]
    simp [upper_hex]

/-- A canonical text in lower case is rendered with its digits in upper case. -/
theorem guid_round_trip_witness :
    canonical_guid_text "a1b2c3d4-e5f6-1234-5678-9abcdef01234" ∧
    ∃ g, to_guid "a1b2c3d4-e5f6-1234-5678-9abcdef01234" ⟨0, 0, 0, []⟩ = Except.ok g ∧
      write_guid_value g
        = "0xA1B2C3D4,0xE5F6,0x1234,\x7b 0x56,0x78,0x9A,0xBC,0xDE,0xF0,0x12,0x34 \x7d" := by
  refine ⟨by decide, ?_⟩
  obtain ⟨g, h1, h2, _⟩ := guid_round_trip "a1b2c3d4-e5f6-1234-5678-9abcdef01234" ⟨0, 0, 0, []⟩
    (by decide)
  exact ⟨g, h1, h2.trans (by decide)⟩

/-! ## Struct dependency sorter -/

/-! ### The map -/

theorem field_edge_eq_some {n : Nat} (db : Database n) (f : Field n) (e : TypeDef n) :
    field_edge db f = some e ↔ f.Signature.ptr_count = 0 ∧
      f.Signature.Type_ = TypeSigType.coded_index (TypeDefOrRef.TypeDef e) ∧
      (db.row e).category ≠ category.enum_type := by
  unfold field_edge
  by_cases hp : f.Signature.ptr_count = 0
  · simp only [hp, if_true, true_and]
    cases ht : f.Signature.Type_ with
    | coded_index i =>
      cases i with
      | TypeDef row =>
        by_cases hc : (db.row row).category = category.enum_type
        · simp only [ne_eq, hc, not_true_eq_false, if_false, TypeSigType.coded_index.injEq,
            TypeDefOrRef.TypeDef.injEq]
          constructor
          · intro h; cases h
          · rintro ⟨h1, h2⟩; subst h1; exact absurd hc h2
        · simp only [ne_eq, hc, not_false_eq_true, if_true, Option.some.injEq,
            TypeSigType.coded_index.injEq, TypeDefOrRef.TypeDef.injEq]
          constructor
          · intro h; subst h; exact ⟨rfl, hc⟩
          · intro h; exact h.1
      | _ => simp
    | _ => simp
  · simp [hp]

theorem mem_deps {n : Nat} (db : Database n) (S T : TypeDef n) :
    T ∈ deps db S ↔ contains_by_value db S T := by
  simp only [deps, List.mem_filterMap, field_edge_eq_some, contains_by_value]

theorem map_find_modify {n : Nat} (m : dependency_map n) (k : TypeDef n) (f : node n → node n)
    (k' : TypeDef n) :
    map_find (map_modify m k f) k' = if k' = k then (map_find m k').map f else map_find m k' := by
  induction m with
  | nil => simp [map_modify, map_find]
  | cons e m ih =>
    obtain ⟨a, x⟩ := e
    simp only [map_modify, List.map_cons, map_find] at ih ⊢
    by_cases h : a = k'
    · subst h
      by_cases hak : a = k <;> simp [hak]
    · simp only [h, if_false, ih]

theorem map_modify_keys {n : Nat} (m : dependency_map n) (k : TypeDef n) (f : node n → node n) :
    (map_modify m k f).map Prod.fst = m.map Prod.fst := by
  simp [map_modify, List.map_map, Function.comp_def]

theorem map_find_eq_none {n : Nat} (m : dependency_map n) (k : TypeDef n) :
    map_find m k = none ↔ k ∉ m.map Prod.fst := by
  induction m with
  | nil => simp [map_find]
  | cons e m ih =>
    obtain ⟨a, x⟩ := e
    simp only [map_find, List.map_cons, List.mem_cons, not_or]
    by_cases h : a = k
    · subst h; simp
    · have h' : ¬ k = a := fun h2 => h h2.symm
      simp [h, h', ih]

theorem map_insert_snd {n : Nat} (m : dependency_map n) (k : TypeDef n) (v : node n)
    (hs : (m.map Prod.fst).Pairwise (· < ·)) :
    (map_insert m k v).2 = true ↔ map_find m k = none := by
  induction m with
  | nil => simp [map_insert, map_find]
  | cons e m ih =>
    obtain ⟨a, x⟩ := e
    simp only [List.map_cons, List.pairwise_cons] at hs
    simp only [map_insert]
    by_cases h1 : k < a
    · have hn : map_find ((a, x) :: m) k = none := by
        rw [map_find_eq_none]
        simp only [List.map_cons, List.mem_cons, not_or]
        refine ⟨fun h => by subst h; exact lt_irrefl _ h1, fun hk => ?_⟩
        exact lt_asymm h1 (hs.1 k hk)
      simp [h1, hn]
    · by_cases h2 : k = a
      · subst h2; simp [map_find]
      · have : ¬ a = k := fun h => h2 h.symm
        simp [h1, h2, this, map_find, ih hs.2]

theorem map_insert_of_key {n : Nat} (m : dependency_map n) (k : TypeDef n) (v : node n)
    (h : (map_insert m k v).2 = false) : (map_insert m k v).1 = m := by
  induction m with
  | nil => simp [map_insert] at h
  | cons e m ih =>
    obtain ⟨a, x⟩ := e
    simp only [map_insert] at h ⊢
    by_cases h1 : k < a
    · simp [h1] at h
    · by_cases h2 : k = a
      · simp [h1, h2]
      · simp only [h1, h2, if_false] at h ⊢
        rw [ih h]

theorem map_find_insert {n : Nat} (m : dependency_map n) (k : TypeDef n) (v : node n)
    (hk : map_find m k = none) (k' : TypeDef n) :
    map_find (map_insert m k v).1 k' = if k' = k then some v else map_find m k' := by
  induction m with
  | nil =>
    by_cases h : k = k'
    · subst h; simp [map_insert, map_find]
    · have h' : ¬ k' = k := fun h2 => h h2.symm
      simp [map_insert, map_find, h, h']
  | cons e m ih =>
    obtain ⟨a, x⟩ := e
    have hak : ¬ a = k := by
      intro h; subst h; simp [map_find] at hk
    have hk2 : map_find m k = none := by
      simpa [map_find, hak] using hk
    simp only [map_insert]
    by_cases h1 : k < a
    · simp only [h1, if_true, map_find]
      by_cases h : k = k'
      · subst h; simp
      · have h' : ¬ k' = k := fun h2 => h h2.symm
        simp [h, h']
    · have h2 : ¬ k = a := fun h => hak h.symm
      simp only [h1, h2, if_false, map_find]
      by_cases h : a = k'
      · subst h
        simp [hak]
      · simp only [h, if_false, ih hk2]

theorem map_insert_keys {n : Nat} (m : dependency_map n) (k : TypeDef n) (v : node n) :
    ∀ a, a ∈ (map_insert m k v).1.map Prod.fst ↔ a = k ∨ a ∈ m.map Prod.fst := by
  induction m with
  | nil => intro a; simp [map_insert]
  | cons e m ih =>
    obtain ⟨b, x⟩ := e
    intro a
    simp only [map_insert]
    by_cases h1 : k < b
    · simp [h1]
    · by_cases h2 : k = b
      · subst h2; simp
      · simp only [h1, h2, if_false, List.map_cons, List.mem_cons, ih a]
        tauto

theorem map_insert_sorted {n : Nat} (m : dependency_map n) (k : TypeDef n) (v : node n)
    (h : (m.map Prod.fst).Pairwise (· < ·)) :
    ((map_insert m k v).1.map Prod.fst).Pairwise (· < ·) := by
  induction m with
  | nil => simp [map_insert]
  | cons e m ih =>
    obtain ⟨b, x⟩ := e
    simp only [List.map_cons, List.pairwise_cons] at h
    simp only [map_insert]
    by_cases h1 : k < b
    · simp only [h1, if_true, List.map_cons, List.pairwise_cons, List.mem_cons]
      refine ⟨?_, h.1, h.2⟩
      intro a ha
      rcases ha with ha | ha
      · subst ha; exact h1
      · exact lt_trans h1 (h.1 a ha)
    · by_cases h2 : k = b
      · subst h2
        simp only [lt_self_iff_false, if_false, if_true, List.map_cons, List.pairwise_cons]
        exact h
      · simp only [h1, h2, if_false, List.map_cons, List.pairwise_cons]
        refine ⟨?_, ih h.2⟩
        intro a ha
        rcases (map_insert_keys m k v a).1 ha with ha | ha
        · subst ha
          exact lt_of_le_of_ne (not_lt.1 h1) (fun h => h2 h.symm)
        · exact h.1 a ha

theorem map_find_of_mem {n : Nat} (m : dependency_map n)
    (h : (m.map Prod.fst).Pairwise (· < ·)) (e : TypeDef n × node n) (he : e ∈ m) :
    map_find m e.1 = some e.2 := by
  induction m with
  | nil => cases he
  | cons a m ih =>
    obtain ⟨b, x⟩ := a
    simp only [List.map_cons, List.pairwise_cons] at h
    rcases List.mem_cons.1 he with he | he
    · subst he; simp [map_find]
    · have hlt : b < e.1 := h.1 e.1 (List.mem_map_of_mem _ he)
      have : ¬ b = e.1 := fun hb => by rw [hb] at hlt; exact lt_irrefl _ hlt
      simp only [map_find, this, if_false]
      exact ih h.2 he

theorem mem_of_map_find {n : Nat} (m : dependency_map n) (k : TypeDef n) (nd : node n)
    (h : map_find m k = some nd) : (k, nd) ∈ m := by
  induction m with
  | nil => simp [map_find] at h
  | cons a m ih =>
    obtain ⟨b, x⟩ := a
    simp only [map_find] at h
    by_cases hb : b = k
    · subst hb
      simp only [if_true, Option.some.injEq] at h
      subst h
      exact List.mem_cons_self _ _
    · simp only [hb, if_false] at h
      exact List.mem_cons_of_mem _ (ih h)

/-! ### The function `add` -/

theorem grows_refl {n : Nat} (m : dependency_map n) : grows m m :=
  fun _ nd h => ⟨nd, h, fun _ he => he⟩

theorem grows_trans {n : Nat} {m1 m2 m3 : dependency_map n} (h1 : grows m1 m2)
    (h2 : grows m2 m3) : grows m1 m3 := by
  intro k nd h
  obtain ⟨nd2, hf2, he2⟩ := h1 k nd h
  obtain ⟨nd3, hf3, he3⟩ := h2 k nd2 hf2
  exact ⟨nd3, hf3, fun e he => he3 e (he2 e he)⟩

theorem grows_is_key {n : Nat} {m1 m2 : dependency_map n} (h : grows m1 m2) (k : TypeDef n)
    (hk : is_key m1 k) : is_key m2 k := by
  unfold is_key at hk ⊢
  obtain ⟨nd, hnd⟩ := Option.isSome_iff_exists.1 hk
  obtain ⟨nd2, hf2, _⟩ := h k nd hnd
  simp [hf2]

theorem grows_has_edge {n : Nat} {m1 m2 : dependency_map n} (h : grows m1 m2) (k e : TypeDef n)
    (hk : has_edge m1 k e) : has_edge m2 k e := by
  obtain ⟨nd, hnd, he⟩ := hk
  obtain ⟨nd2, hf2, he2⟩ := h k nd hnd
  exact ⟨nd2, hf2, he2 e he⟩

theorem free_keys_le_of_grows {n : Nat} {m1 m2 : dependency_map n} (h : grows m1 m2) :
    free_keys m2 ≤ free_keys m1 := by
  apply Finset.card_le_card
  intro k hk
  simp only [Finset.mem_filter, Finset.mem_univ, true_and] at hk ⊢
  cases hf : map_find m1 k with
  | none => rfl
  | some nd =>
    obtain ⟨nd2, hf2, _⟩ := h k nd hf
    rw [hf2] at hk
    cases hk

theorem free_keys_le {n : Nat} (m : dependency_map n) : free_keys m ≤ n := by
  have h := Finset.card_filter_le (Finset.univ : Finset (TypeDef n))
    (fun k => map_find m k = none)
  simpa [free_keys] using h

theorem free_keys_insert {n : Nat} (m : dependency_map n) (k : TypeDef n) (v : node n)
    (hk : map_find m k = none) : free_keys (map_insert m k v).1 < free_keys m := by
  apply Finset.card_lt_card
  rw [Finset.ssubset_iff_of_subset]
  · refine ⟨k, ?_, ?_⟩
    · simp [hk]
    · simp [map_find_insert m k v hk]
  · intro a ha
    simp only [Finset.mem_filter, Finset.mem_univ, true_and, map_find_insert m k v hk] at ha ⊢
    by_cases h : a = k
    · simp [h] at ha
    · simpa [h] using ha

theorem mem_add_edge {n : Nat} (nd : node n) (e a : TypeDef n) :
    a ∈ (nd.add_edge e).edges ↔ a ∈ nd.edges ∨ a = e := by
  unfold node.add_edge
  by_cases h : e ∈ nd.edges
  · simp only [h, if_true]
    constructor
    · exact Or.inl
    · rintro (h1 | h1)
      · exact h1
      · subst h1; exact h
  · simp [h]

theorem add_edge_flags {n : Nat} (nd : node n) (e : TypeDef n) :
    (nd.add_edge e).temporary = nd.temporary ∧ (nd.add_edge e).permanent = nd.permanent := by
  unfold node.add_edge
  by_cases h : e ∈ nd.edges <;> simp [h]

theorem add_inv_add_edge {n : Nat} (db : Database n) (R P : TypeDef n → Prop)
    (m : dependency_map n) (type e : TypeDef n) (h : add_inv db R P m) (hP : P type)
    (he : e ∈ deps db type) :
    add_inv db R P (map_modify m type fun nd => nd.add_edge e) := by
  constructor
  · rw [map_modify_keys]; exact h.sorted
  · intro k nd hf
    rw [map_find_modify] at hf
    by_cases hk : k = type
    · subst hk
      simp only [if_true] at hf
      obtain ⟨nd0, h0, h1⟩ := Option.map_eq_some'.1 hf
      subst h1
      rw [(add_edge_flags nd0 e).1, (add_edge_flags nd0 e).2]
      exact h.flags k nd0 h0
    · simp only [hk, if_false] at hf
      exact h.flags k nd hf
  · intro k nd hf a ha
    rw [map_find_modify] at hf
    by_cases hk : k = type
    · subst hk
      simp only [if_true] at hf
      obtain ⟨nd0, h0, h1⟩ := Option.map_eq_some'.1 hf
      subst h1
      rcases (mem_add_edge nd0 e a).1 ha with ha | ha
      · exact h.sound k nd0 h0 a ha
      · subst ha; exact he
    · simp only [hk, if_false] at hf
      exact h.sound k nd hf a ha
  · intro k nd hf hnP a ha
    rw [map_find_modify] at hf
    by_cases hk : k = type
    · subst hk; exact absurd hP hnP
    · simp only [hk, if_false] at hf
      exact h.complete k nd hf hnP a ha
  · intro k nd hf
    rw [map_find_modify] at hf
    by_cases hk : k = type
    · subst hk
      simp only [if_true] at hf
      obtain ⟨nd0, h0, _⟩ := Option.map_eq_some'.1 hf
      exact h.reach k nd0 h0
    · simp only [hk, if_false] at hf
      exact h.reach k nd hf

theorem is_key_modify {n : Nat} (m : dependency_map n) (k : TypeDef n) (f : node n → node n)
    (a : TypeDef n) : is_key (map_modify m k f) a ↔ is_key m a := by
  unfold is_key
  rw [map_find_modify]
  by_cases h : a = k <;> simp [h]

theorem grows_add_edge {n : Nat} (m : dependency_map n) (type e : TypeDef n) :
    grows m (map_modify m type fun nd => nd.add_edge e) := by
  intro k nd hf
  rw [map_find_modify]
  by_cases hk : k = type
  · subst hk
    exact ⟨nd.add_edge e, by simp [hf], fun a ha => (mem_add_edge nd e a).2 (Or.inl ha)⟩
  · exact ⟨nd, by simp [hk, hf], fun a ha => ha⟩

theorem closed_add_edge {n : Nat} (m : dependency_map n) (type e : TypeDef n)
    (h : closed_except m fun _ => False) :
    closed_except (map_modify m type fun nd => nd.add_edge e) (fun a => a = e) := by
  intro k nd hf a ha
  rw [map_find_modify] at hf
  rw [is_key_modify]
  by_cases hk : k = type
  · subst hk
    simp only [if_true] at hf
    obtain ⟨nd0, h0, h1⟩ := Option.map_eq_some'.1 hf
    subst h1
    rcases (mem_add_edge nd0 e a).1 ha with ha | ha
    · rcases h k nd0 h0 a ha with hx | hx
      · exact absurd hx id
      · exact Or.inr hx
    · exact Or.inl ha
  · simp only [hk, if_false] at hf
    rcases h k nd hf a ha with hx | hx
    · exact absurd hx id
    · exact Or.inr hx

/-- The field loop of `add`, given what `add` does with the fuel of the calls of the loop. -/
theorem add_loop {n : Nat} (db : Database n) (R : TypeDef n → Prop)
    (hR : ∀ a b, R a → b ∈ deps db a → R b) (fuel : Nat)
    (ih : ∀ (P : TypeDef n → Prop) (m : dependency_map n) (t : TypeDef n), add_inv db R P m →
      closed_except m (fun a => a = t) → R t → free_keys m < fuel →
      ∃ m', add db fuel m t = Except.ok m' ∧ add_inv db R P m' ∧
        closed_except m' (fun _ => False) ∧ is_key m' t ∧ grows m m')
    (P : TypeDef n → Prop) (type : TypeDef n) (hP : P type) :
    ∀ (fs : List (Field n)) (m2 : dependency_map n),
      (∀ f ∈ fs, f ∈ (db.row type).FieldList) → add_inv db R P m2 →
      closed_except m2 (fun _ => False) → is_key m2 type → free_keys m2 < fuel →
      ∃ m', for_each (fun m2 field =>
          match field_edge db field with
          | some field_type_def =>
            add db fuel (map_modify m2 type fun nd => nd.add_edge field_type_def) field_type_def
          | none => Except.ok m2) fs m2 = Except.ok m' ∧
        add_inv db R P m' ∧ closed_except m' (fun _ => False) ∧ grows m2 m' ∧
        ∀ f ∈ fs, ∀ e, field_edge db f = some e → has_edge m' type e := by
  intro fs
  induction fs with
  | nil =>
    intro m2 _ hinv hcl _ _
    exact ⟨m2, rfl, hinv, hcl, grows_refl m2, fun f hf => absurd hf (List.not_mem_nil f)⟩
  | cons f fs ihfs =>
    intro m2 hfs hinv hcl hkey hfree
    have hfs2 : ∀ g ∈ fs, g ∈ (db.row type).FieldList :=
      fun g hg => hfs g (List.mem_cons_of_mem f hg)
    cases hfe : field_edge db f with
    | none =>
      obtain ⟨m', h1, h2, h3, h4, h5⟩ := ihfs m2 hfs2 hinv hcl hkey hfree
      refine ⟨m', ?_, h2, h3, h4, ?_⟩
      · simp only [for_each, hfe]
        exact h1
      · intro g hg e hge
        rcases List.mem_cons.1 hg with hg | hg
        · subst hg; rw [hfe] at hge; cases hge
        · exact h5 g hg e hge
    | some e =>
      have hdep : e ∈ deps db type :=
        List.mem_filterMap.2 ⟨f, hfs f (List.mem_cons_self f fs), hfe⟩
      obtain ⟨ndt, hndt⟩ := Option.isSome_iff_exists.1 hkey
      have hRe : R e := hR type e (hinv.reach type ndt hndt) hdep
      have hg1 := grows_add_edge m2 type e
      obtain ⟨m3, a1, a2, a3, a4, a5⟩ := ih P
        (map_modify m2 type fun nd => nd.add_edge e) e
        (add_inv_add_edge db R P m2 type e hinv hP hdep) (closed_add_edge m2 type e hcl) hRe
        (lt_of_le_of_lt (free_keys_le_of_grows hg1) hfree)
      have hg2 : grows m2 m3 := grows_trans hg1 a5
      obtain ⟨m', h1, h2, h3, h4, h5⟩ := ihfs m3 hfs2 a2 a3 (grows_is_key hg2 type hkey)
        (lt_of_le_of_lt (free_keys_le_of_grows hg2) hfree)
      refine ⟨m', ?_, h2, h3, grows_trans hg2 h4, ?_⟩
      · simp only [for_each, hfe, a1]
        exact h1
      · intro g hg e' hge
        rcases List.mem_cons.1 hg with hg | hg
        · subst hg
          rw [hfe] at hge
          cases hge
          apply grows_has_edge (grows_trans a5 h4)
          rw [has_edge, map_find_modify]
          exact ⟨ndt.add_edge e, by simp [hndt], (mem_add_edge ndt e e).2 (Or.inr rfl)⟩
        · exact h5 g hg e' hge

/-- The function `add` returns, with a map in which the added type is a key. -/
theorem add_spec {n : Nat} (db : Database n) (R : TypeDef n → Prop)
    (hR : ∀ a b, R a → b ∈ deps db a → R b) :
    ∀ (fuel : Nat) (P : TypeDef n → Prop) (m : dependency_map n) (t : TypeDef n),
      add_inv db R P m → closed_except m (fun a => a = t) → R t → free_keys m < fuel →
      ∃ m', add db fuel m t = Except.ok m' ∧ add_inv db R P m' ∧
        closed_except m' (fun _ => False) ∧ is_key m' t ∧ grows m m' := by
  intro fuel
  induction fuel with
  | zero => intro P m t _ _ _ hfree; exact absurd hfree (Nat.not_lt_zero _)
  | succ fuel ih =>
    intro P m t hinv hcl hRt hfree
    cases hins : map_insert m t {} with
    | mk m1 inserted =>
      cases inserted with
      | false =>
        have hkey : is_key m t := by
          have h1 : ¬ (map_insert m t {}).2 = true := by simp [hins]
          rw [map_insert_snd m t {} hinv.sorted] at h1
          unfold is_key
          cases hf : map_find m t with
          | none => exact absurd hf h1
          | some nd => rfl
        refine ⟨m, ?_, hinv, ?_, hkey, grows_refl m⟩
        · simp only [add, hins]
        · intro k nd hf e he
          rcases hcl k nd hf e he with hx | hx
          · subst hx; exact Or.inr hkey
          · exact Or.inr hx
      | true =>
        have hnone : map_find m t = none := by
          rw [← map_insert_snd m t {} hinv.sorted, hins]
        have hm1 : m1 = (map_insert m t {}).1 := by rw [hins]
        have hfind : ∀ k, map_find m1 k = if k = t then some {} else map_find m k := by
          intro k; rw [hm1]; exact map_find_insert m t {} hnone k
        have hg1 : grows m m1 := by
          intro k nd hf
          refine ⟨nd, ?_, fun e he => he⟩
          rw [hfind]
          by_cases hk : k = t
          · subst hk; rw [hnone] at hf; cases hf
          · simp [hk, hf]
        have hkey1 : is_key m1 t := by
          unfold is_key; rw [hfind]; simp
        have hinv1 : add_inv db R (fun k => P k ∨ k = t) m1 := by
          constructor
          · rw [hm1]; exact map_insert_sorted m t {} hinv.sorted
          · intro k nd hf
            rw [hfind] at hf
            by_cases hk : k = t
            · simp only [hk, if_true, Option.some.injEq] at hf
              subst hf; exact ⟨rfl, rfl⟩
            · simp only [hk, if_false] at hf
              exact hinv.flags k nd hf
          · intro k nd hf e he
            rw [hfind] at hf
            by_cases hk : k = t
            · simp only [hk, if_true, Option.some.injEq] at hf
              subst hf; cases he
            · simp only [hk, if_false] at hf
              exact hinv.sound k nd hf e he
          · intro k nd hf hnP e he
            rw [hfind] at hf
            by_cases hk : k = t
            · exact absurd (Or.inr hk) hnP
            · simp only [hk, if_false] at hf
              exact hinv.complete k nd hf (fun hp => hnP (Or.inl hp)) e he
          · intro k nd hf
            rw [hfind] at hf
            by_cases hk : k = t
            · subst hk; exact hRt
            · simp only [hk, if_false] at hf
              exact hinv.reach k nd hf
        have hcl1 : closed_except m1 (fun _ => False) := by
          intro k nd hf e he
          rw [hfind] at hf
          by_cases hk : k = t
          · simp only [hk, if_true, Option.some.injEq] at hf
            subst hf; cases he
          · simp only [hk, if_false] at hf
            rcases hcl k nd hf e he with hx | hx
            · subst hx; exact Or.inr hkey1
            · exact Or.inr (grows_is_key hg1 e hx)
        have hfree1 : free_keys m1 < fuel := by
          have := free_keys_insert m t {} hnone
          rw [← hm1] at this
          omega
        obtain ⟨m', h1, h2, h3, h4, h5⟩ := add_loop db R hR fuel ih (fun k => P k ∨ k = t) t
          (Or.inr rfl) (db.row t).FieldList m1 (fun f hf => hf) hinv1 hcl1 hkey1 hfree1
        refine ⟨m', ?_, ?_, h3, grows_is_key h4 t hkey1, grows_trans hg1 h4⟩
        · simp only [add, hins]
          exact h1
        · constructor
          · exact h2.sorted
          · exact h2.flags
          · exact h2.sound
          · intro k nd hf hnP e he
            by_cases hk : k = t
            · subst hk
              obtain ⟨f, hf1, hf2⟩ := List.mem_filterMap.1 he
              obtain ⟨nd2, hnd2, he2⟩ := h5 f hf1 e hf2
              rw [hf] at hnd2
              cases hnd2
              exact he2
            · exact h2.complete k nd hf (fun hp => hp.elim hnP hk) e he
          · exact h2.reach

theorem add_all_loop {n : Nat} (db : Database n) (R : TypeDef n → Prop)
    (hR : ∀ a b, R a → b ∈ deps db a → R b) :
    ∀ (structs : List (TypeDef n)) (m : dependency_map n), (∀ s ∈ structs, R s) →
      add_inv db R (fun _ => False) m → closed_except m (fun _ => False) →
      ∃ m', for_each (fun m type => add db (n + 1) m type) structs m = Except.ok m' ∧
        add_inv db R (fun _ => False) m' ∧ closed_except m' (fun _ => False) ∧ grows m m' ∧
        ∀ s ∈ structs, is_key m' s := by
  intro structs
  induction structs with
  | nil =>
    intro m _ hinv hcl
    exact ⟨m, rfl, hinv, hcl, grows_refl m, fun s hs => absurd hs (List.not_mem_nil s)⟩
  | cons s structs ih =>
    intro m hRs hinv hcl
    have hcl2 : closed_except m (fun a => a = s) := by
      intro k nd hf e he
      rcases hcl k nd hf e he with hx | hx
      · exact absurd hx id
      · exact Or.inr hx
    obtain ⟨m1, a1, a2, a3, a4, a5⟩ := add_spec db R hR (n + 1) (fun _ => False) m s hinv hcl2
      (hRs s (List.mem_cons_self s structs)) (Nat.lt_succ_of_le (free_keys_le m))
    obtain ⟨m', h1, h2, h3, h4, h5⟩ := ih m1
      (fun x hx => hRs x (List.mem_cons_of_mem s hx)) a2 a3
    refine ⟨m', ?_, h2, h3, grows_trans a5 h4, ?_⟩
    · simp only [for_each, a1]
      exact h1
    · intro x hx
      rcases List.mem_cons.1 hx with hx | hx
      · subst hx; exact grows_is_key h4 x a4
      · exact h5 x hx

theorem add_all_spec {n : Nat} (db : Database n) (structs : List (TypeDef n)) :
    ∃ m, add_all db structs = Except.ok m ∧ added db structs m := by
  have hR : ∀ a b, reaches db structs a → b ∈ deps db a → reaches db structs b := by
    intro a b ha hb
    obtain ⟨s, hs, hsa⟩ := ha
    exact ⟨s, hs, Relation.ReflTransGen.tail hsa ((mem_deps db a b).1 hb)⟩
  have h0 : add_inv db (reaches db structs) (fun _ => False) ([] : dependency_map n) := by
    constructor
    · simp
    · intro k nd hf; simp [map_find] at hf
    · intro k nd hf; simp [map_find] at hf
    · intro k nd hf; simp [map_find] at hf
    · intro k nd hf; simp [map_find] at hf
  have hc0 : closed_except ([] : dependency_map n) (fun _ => False) := by
    intro k nd hf; simp [map_find] at hf
  obtain ⟨m, h1, h2, h3, _, h5⟩ := add_all_loop db (reaches db structs) hR structs []
    (fun s hs => ⟨s, hs, Relation.ReflTransGen.refl⟩) h0 hc0
  refine ⟨m, h1, ?_⟩
  constructor
  · exact h2.sorted
  · exact h2.flags
  · intro k nd hf e
    rw [← mem_deps]
    exact ⟨h2.sound k nd hf e, h2.complete k nd hf id e⟩
  · intro k e hke
    obtain ⟨nd, hf, he⟩ := hke
    rcases h3 k nd hf e he with hx | hx
    · exact absurd hx id
    · exact hx
  · exact h5
  · intro k hk
    obtain ⟨nd, hnd⟩ := Option.isSome_iff_exists.1 hk
    exact h2.reach k nd hnd

/-! ### The function `visit` -/

theorem is_key_iff_mem {n : Nat} (m : dependency_map n) (k : TypeDef n) :
    is_key m k ↔ k ∈ m.map Prod.fst := by
  unfold is_key
  have h := map_find_eq_none m k
  cases hf : map_find m k with
  | none => rw [hf] at h; simp [h.1 rfl]
  | some nd =>
    rw [hf] at h
    simp only [Option.isSome_some, true_iff]
    by_contra hc
    exact absurd (h.2 hc) (by simp)

theorem is_key_of_same_keys {n : Nat} {m m2 : dependency_map n}
    (h : m2.map Prod.fst = m.map Prod.fst) (k : TypeDef n) : is_key m2 k ↔ is_key m k := by
  rw [is_key_iff_mem, is_key_iff_mem, h]

theorem white_keys_le_of {n : Nat} {m m2 : dependency_map n}
    (h : ∀ k, is_white m2 k = true → is_white m k = true) : white_keys m2 ≤ white_keys m := by
  apply Finset.card_le_card
  intro k hk
  simp only [Finset.mem_filter, Finset.mem_univ, true_and] at hk ⊢
  exact h k hk

theorem white_keys_lt_of {n : Nat} {m m2 : dependency_map n}
    (h : ∀ k, is_white m2 k = true → is_white m k = true) (v : TypeDef n)
    (hv : is_white m v = true) (hv2 : is_white m2 v = false) : white_keys m2 < white_keys m := by
  apply Finset.card_lt_card
  rw [Finset.ssubset_iff_of_subset]
  · exact ⟨v, by simp [hv], by simp [hv2]⟩
  · intro k hk
    simp only [Finset.mem_filter, Finset.mem_univ, true_and] at hk ⊢
    exact h k hk

theorem white_keys_le_length {n : Nat} (m : dependency_map n) : white_keys m ≤ m.length := by
  have h1 : (Finset.univ.filter fun k : TypeDef n => is_white m k = true)
      ⊆ (m.map Prod.fst).toFinset := by
    intro k hk
    simp only [Finset.mem_filter, Finset.mem_univ, true_and] at hk
    rw [List.mem_toFinset, ← is_key_iff_mem]
    unfold is_white at hk
    unfold is_key
    cases hf : map_find m k with
    | none => rw [hf] at hk; cases hk
    | some nd => rfl
  calc white_keys m ≤ (m.map Prod.fst).toFinset.card := Finset.card_le_card h1
    _ ≤ (m.map Prod.fst).length := List.toFinset_card_le _
    _ = m.length := List.length_map _ _

theorem is_white_iff {n : Nat} (m : dependency_map n) (k : TypeDef n) :
    is_white m k = true ↔
      is_key m k ∧ is_temporary m k = false ∧ is_permanent m k = false := by
  unfold is_white is_key is_temporary is_permanent
  cases hf : map_find m k with
  | none => simp
  | some nd => simp

theorem visit_post_white {n : Nat} {db : Database n} {E : TypeDef n → TypeDef n → Prop}
    {m m2 : dependency_map n} {v : TypeDef n} {s2 : List (TypeDef n)}
    (h : visit_post db E m v m2 s2) : ∀ k, is_white m2 k = true → is_white m k = true := by
  intro k hk
  rw [is_white_iff] at hk ⊢
  refine ⟨(is_key_of_same_keys h.same_keys k).1 hk.1, ?_, ?_⟩
  · rw [← h.same_temp]; exact hk.2.1
  · cases hp : is_permanent m k with
    | false => rfl
    | true => rw [h.perm_mono k hp] at hk; exact absurd hk.2.2 (by simp)

theorem perm_reach {n : Nat} {db : Database n} {E : TypeDef n → TypeDef n → Prop}
    {m : dependency_map n} {s : List (TypeDef n)} (h : sort_inv db E m s) (a b : TypeDef n)
    (ha : is_permanent m a = true) (hab : Relation.ReflTransGen E a b) :
    is_permanent m b = true := by
  induction hab with
  | refl => exact ha
  | tail _ hbc ih => exact h.perm_closed _ _ ih hbc

theorem has_edge_modify {n : Nat} (m : dependency_map n) (v : TypeDef n) (f : node n → node n)
    (hf : ∀ nd, (f nd).edges = nd.edges) (k e : TypeDef n) :
    has_edge (map_modify m v f) k e ↔ has_edge m k e := by
  unfold has_edge
  rw [map_find_modify]
  by_cases hk : k = v
  · simp only [hk, if_true]
    constructor
    · rintro ⟨nd, h1, h2⟩
      obtain ⟨nd0, h3, h4⟩ := Option.map_eq_some'.1 h1
      subst h4
      rw [hf] at h2
      exact ⟨nd0, h3, h2⟩
    · rintro ⟨nd, h1, h2⟩
      exact ⟨f nd, by simp [h1], by rw [hf]; exact h2⟩
  · simp only [hk, if_false]

theorem is_permanent_modify {n : Nat} (m : dependency_map n) (v : TypeDef n)
    (f : node n → node n) (k : TypeDef n) :
    is_permanent (map_modify m v f) k =
      if k = v then (match map_find m v with
        | some nd => (f nd).permanent
        | none => false) else is_permanent m k := by
  unfold is_permanent
  rw [map_find_modify]
  by_cases hk : k = v
  · subst hk
    simp only [if_true]
    cases map_find m k <;> rfl
  · simp only [hk, if_false]

theorem is_temporary_modify {n : Nat} (m : dependency_map n) (v : TypeDef n)
    (f : node n → node n) (k : TypeDef n) :
    is_temporary (map_modify m v f) k =
      if k = v then (match map_find m v with
        | some nd => (f nd).temporary
        | none => false) else is_temporary m k := by
  unfold is_temporary
  rw [map_find_modify]
  by_cases hk : k = v
  · subst hk
    simp only [if_true]
    cases map_find m k <;> rfl
  · simp only [hk, if_false]

theorem visit_start {n : Nat} {db : Database n} {E : TypeDef n → TypeDef n → Prop}
    {m : dependency_map n} {s : List (TypeDef n)} (h : sort_inv db E m s) (v : TypeDef n)
    (nd : node n) (hnd : map_find m v = some nd) (hp : nd.permanent = false) :
    sort_inv db E (map_modify m v fun x => { x with temporary := true }) s := by
  have hperm : ∀ k, is_permanent (map_modify m v fun x => { x with temporary := true }) k
      = is_permanent m k := by
    intro k
    rw [is_permanent_modify]
    by_cases hk : k = v
    · subst hk; simp [hnd, is_permanent]
    · simp [hk]
  constructor
  · rw [map_modify_keys]; exact h.keys
  · intro k e
    exact (has_edge_modify m v (fun x => { x with temporary := true }) (fun _ => rfl)
      k e).trans (h.graph k e)
  · intro k e hke
    rw [is_key_modify]
    exact h.closed k e hke
  · intro k e hk hke
    rw [hperm] at hk ⊢
    exact h.perm_closed k e hk hke
  · intro k hk
    rw [hperm] at hk
    rw [is_temporary_modify]
    by_cases hkv : k = v
    · subst hkv
      simp [is_permanent, hnd, hp] at hk
    · simp only [hkv, if_false]
      exact h.disjoint k hk
  · intro k hk
    rw [hperm] at hk
    exact h.no_cycle k hk
  · intro k
    rw [hperm]
    exact h.sorted_perm k
  · exact h.nodup
  · exact h.order

theorem visit_finish {n : Nat} {db : Database n} {E : TypeDef n → TypeDef n → Prop}
    {m : dependency_map n} {s : List (TypeDef n)} (h : sort_inv db E m s) (v : TypeDef n)
    (nd : node n) (hnd : map_find m v = some nd) (hp : is_permanent m v = false)
    (hedges : ∀ e, E v e → is_permanent m e = true) :
    sort_inv db E (map_modify m v fun x => { x with temporary := false, permanent := true })
      (if (db.row v).EnclosingType.isNone then s ++ [v] else s) := by
  have hperm : ∀ k, is_permanent
      (map_modify m v fun x => { x with temporary := false, permanent := true }) k
      = if k = v then true else is_permanent m k := by
    intro k
    rw [is_permanent_modify]
    by_cases hk : k = v
    · simp [hk, hnd]
    · simp [hk]
  have hvs : v ∉ s := by
    intro hv
    have := ((h.sorted_perm v).1 hv).1
    rw [hp] at this
    cases this
  have hmem : ∀ S T, S ∈ s → E S T → (db.row T).EnclosingType = none → T ∈ s := by
    intro S T hS hST hT
    exact (h.sorted_perm T).2 ⟨h.perm_closed S T ((h.sorted_perm S).1 hS).1 hST, hT⟩
  constructor
  · rw [map_modify_keys]; exact h.keys
  · intro k e
    exact (has_edge_modify m v (fun x => { x with temporary := false, permanent := true })
      (fun _ => rfl) k e).trans (h.graph k e)
  · intro k e hke
    rw [is_key_modify]
    exact h.closed k e hke
  · intro k e hk hke
    rw [hperm] at hk ⊢
    by_cases hev : e = v
    · simp [hev]
    · simp only [hev, if_false]
      by_cases hkv : k = v
      · subst hkv; exact hedges e hke
      · simp only [hkv, if_false] at hk
        exact h.perm_closed k e hk hke
  · intro k hk
    rw [hperm] at hk
    rw [is_temporary_modify]
    by_cases hkv : k = v
    · simp [hkv, hnd]
    · simp only [hkv, if_false] at hk ⊢
      exact h.disjoint k hk
  · intro k hk
    rw [hperm] at hk
    by_cases hkv : k = v
    · subst hkv
      intro hc
      obtain ⟨e, hke, hek⟩ := Relation.TransGen.head'_iff.1 hc
      have := perm_reach h e k (hedges e hke) hek
      rw [hp] at this
      cases this
    · simp only [hkv, if_false] at hk
      exact h.no_cycle k hk
  · intro k
    rw [hperm]
    cases hen : (db.row v).EnclosingType with
    | none =>
      simp only [Option.isNone_none, if_true, List.mem_append, List.mem_singleton]
      by_cases hkv : k = v
      · subst hkv; simp [hen]
      · simp only [hkv, or_false, if_false]
        exact h.sorted_perm k
    | some t =>
      simp only [Option.isNone_some, Bool.false_eq_true, if_false]
      by_cases hkv : k = v
      · subst hkv
        simp only [if_true, true_and, hen]
        constructor
        · intro hk; exact absurd hk hvs
        · intro hk; cases hk
      · simp only [hkv, if_false]
        exact h.sorted_perm k
  · cases hen : (db.row v).EnclosingType with
    | none =>
      simp only [Option.isNone_none, if_true]
      rw [List.nodup_append]
      refine ⟨h.nodup, List.nodup_singleton v, ?_⟩
      intro a ha hb
      rw [List.mem_singleton] at hb
      subst hb
      exact hvs ha
    | some t =>
      simp only [Option.isNone_some, Bool.false_eq_true, if_false]
      exact h.nodup
  · cases hen : (db.row v).EnclosingType with
    | none =>
      simp only [Option.isNone_none, if_true]
      intro S hS T hST hT
      rcases List.mem_append.1 hS with hS | hS
      · have hTs := hmem S T hS hST hT
        rw [List.indexOf_append_of_mem hTs, List.indexOf_append_of_mem hS]
        exact h.order S hS T hST hT
      · rw [List.mem_singleton] at hS
        subst hS
        have hTs : T ∈ s := (h.sorted_perm T).2 ⟨hedges T hST, hT⟩
        rw [List.indexOf_append_of_mem hTs, List.indexOf_append_of_not_mem hvs]
        have := List.indexOf_lt_length.2 hTs
        omega
    | some t =>
      simp only [Option.isNone_some, Bool.false_eq_true, if_false]
      exact h.order

theorem visit_safe_of_post {n : Nat} {E : TypeDef n → TypeDef n → Prop}
    {m m2 : dependency_map n} (hk : m2.map Prod.fst = m.map Prod.fst)
    (ht : ∀ k, is_temporary m2 k = is_temporary m k) (x : TypeDef n)
    (h : visit_safe E m x) : visit_safe E m2 x := by
  refine ⟨fun k hk2 => h.1 k ((is_key_of_same_keys hk k).1 hk2), fun t ht2 => h.2 t ?_⟩
  rw [← ht]; exact ht2

/-- The edge loop of `visit`, given what `visit` does with the fuel of the calls of the loop. -/
theorem visit_loop {n : Nat} (db : Database n) (E : TypeDef n → TypeDef n → Prop) (fuel : Nat)
    (ih : ∀ (m : dependency_map n) (sorted : List (TypeDef n)) (v : TypeDef n),
      sort_inv db E m sorted → is_key m v → white_keys m < fuel →
      (∃ m2 s2, visit db fuel (m, sorted) v = Except.ok (m2, s2) ∧ visit_post db E m v m2 s2) ∨
      (visit db fuel (m, sorted) v = Except.error cyclic_error ∧ ¬ visit_safe E m v)) :
    ∀ (es : List (TypeDef n)) (m : dependency_map n) (sorted : List (TypeDef n)),
      sort_inv db E m sorted → (∀ e ∈ es, is_key m e) → white_keys m < fuel →
      (∃ m2 s2, for_each (visit db fuel) es (m, sorted) = Except.ok (m2, s2) ∧
        sort_inv db E m2 s2 ∧ m2.map Prod.fst = m.map Prod.fst ∧
        (∀ k, is_temporary m2 k = is_temporary m k) ∧
        (∀ k, is_permanent m k = true → is_permanent m2 k = true) ∧
        ∀ e ∈ es, is_permanent m2 e = true) ∨
      (for_each (visit db fuel) es (m, sorted) = Except.error cyclic_error ∧
        ¬ ∀ e ∈ es, visit_safe E m e) := by
  intro es
  induction es with
  | nil =>
    intro m sorted hinv _ _
    exact Or.inl ⟨m, sorted, rfl, hinv, rfl, fun _ => rfl, fun _ h => h,
      fun e he => absurd he (List.not_mem_nil e)⟩
  | cons e es ihes =>
    intro m sorted hinv hkeys hwhite
    rcases ih m sorted e hinv (hkeys e (List.mem_cons_self e es)) hwhite with
      ⟨m1, s1, hv, hpost⟩ | ⟨hv, hns⟩
    · have hkeys1 : ∀ x ∈ es, is_key m1 x := fun x hx =>
        (is_key_of_same_keys hpost.same_keys x).2 (hkeys x (List.mem_cons_of_mem e hx))
      have hwhite1 : white_keys m1 < fuel :=
        lt_of_le_of_lt (white_keys_le_of (visit_post_white hpost)) hwhite
      rcases ihes m1 s1 hpost.inv hkeys1 hwhite1 with
        ⟨m2, s2, hl, inv2, k2, t2, p2, v2⟩ | ⟨hl, hns⟩
      · refine Or.inl ⟨m2, s2, ?_, inv2, k2.trans hpost.same_keys,
          fun k => (t2 k).trans (hpost.same_temp k), fun k hk => p2 k (hpost.perm_mono k hk), ?_⟩
        · simp only [for_each, hv]; exact hl
        · intro x hx
          rcases List.mem_cons.1 hx with hx | hx
          · subst hx; exact p2 x hpost.visited
          · exact v2 x hx
      · refine Or.inr ⟨?_, fun hall => hns fun x hx => ?_⟩
        · simp only [for_each, hv]; exact hl
        · exact visit_safe_of_post hpost.same_keys hpost.same_temp x
            (hall x (List.mem_cons_of_mem e hx))
    · refine Or.inr ⟨?_, fun hall => hns (hall e (List.mem_cons_self e es))⟩
      simp only [for_each, hv]

/-- A call of `visit` on a key returns with the key permanent, or raises the cycle error;
it raises no error when no key is on a cycle and the temporary nodes reach the key. -/
theorem visit_spec {n : Nat} (db : Database n) (E : TypeDef n → TypeDef n → Prop) :
    ∀ (fuel : Nat) (m : dependency_map n) (sorted : List (TypeDef n)) (v : TypeDef n),
      sort_inv db E m sorted → is_key m v → white_keys m < fuel →
      (∃ m2 s2, visit db fuel (m, sorted) v = Except.ok (m2, s2) ∧ visit_post db E m v m2 s2) ∨
      (visit db fuel (m, sorted) v = Except.error cyclic_error ∧ ¬ visit_safe E m v) := by
  intro fuel
  induction fuel with
  | zero => intro m sorted v _ _ hw; exact absurd hw (Nat.not_lt_zero _)
  | succ fuel ih =>
    intro m sorted v hinv hkey hwhite
    obtain ⟨nd, hnd⟩ := Option.isSome_iff_exists.1 hkey
    by_cases hp : nd.permanent = true
    · refine Or.inl ⟨m, sorted, ?_, hinv, rfl, fun _ => rfl, fun _ h => h, ?_⟩
      · simp only [visit, hnd, hp, if_true]
      · simp [is_permanent, hnd, hp]
    · by_cases ht : nd.temporary = true
      · refine Or.inr ⟨?_, fun hs => ?_⟩
        · simp only [visit, hnd, hp, ht, if_true, if_false]
          rfl
        · exact hs.1 v hkey (hs.2 v (by simp [is_temporary, hnd, ht]))
      · have hp2 : nd.permanent = false := by simpa using hp
        have ht2 : nd.temporary = false := by simpa using ht
        have hwv : is_white m v = true := by simp [is_white, hnd, hp2, ht2]
        have inv1 := visit_start hinv v nd hnd hp2
        have hkeys1 : (map_modify m v fun x => { x with temporary := true }).map Prod.fst
            = m.map Prod.fst := map_modify_keys m v _
        have hperm1 : ∀ k, is_permanent (map_modify m v fun x => { x with temporary := true }) k
            = is_permanent m k := by
          intro k
          rw [is_permanent_modify]
          by_cases hk : k = v
          · subst hk; simp [hnd, is_permanent]
          · simp [hk]
        have htemp1 : ∀ k, is_temporary (map_modify m v fun x => { x with temporary := true }) k
            = if k = v then true else is_temporary m k := by
          intro k
          rw [is_temporary_modify]
          by_cases hk : k = v
          · simp [hk, hnd]
          · simp [hk]
        have hedge : ∀ e, E v e ↔ e ∈ nd.edges := by
          intro e
          rw [← hinv.graph]
          constructor
          · rintro ⟨nd', h1, h2⟩
            rw [hnd] at h1; cases h1; exact h2
          · intro h; exact ⟨nd, hnd, h⟩
        have hek : ∀ e ∈ nd.edges,
            is_key (map_modify m v fun x => { x with temporary := true }) e := by
          intro e he
          rw [is_key_modify]
          exact hinv.closed v e ((hedge e).2 he)
        have hw1 : white_keys (map_modify m v fun x => { x with temporary := true }) < fuel := by
          have hlt : white_keys (map_modify m v fun x => { x with temporary := true })
              < white_keys m := by
            apply white_keys_lt_of _ v hwv
            · rw [← Bool.not_eq_true, is_white_iff, htemp1]
              simp
            · intro k hk
              rw [is_white_iff] at hk ⊢
              rw [is_key_modify, htemp1, hperm1] at hk
              by_cases hkv : k = v
              · simp [hkv] at hk
              · simp only [hkv, if_false] at hk
                exact hk
          omega
        rcases visit_loop db E fuel ih nd.edges _ sorted inv1 hek hw1 with
          ⟨m2, s2, hl, inv2, k2, t2, p2, v2⟩ | ⟨hl, hns⟩
        · have hkey2 : is_key m2 v := by
            rw [is_key_of_same_keys k2, is_key_modify]; exact hkey
          obtain ⟨nd2, hnd2⟩ := Option.isSome_iff_exists.1 hkey2
          have htv2 : is_temporary m2 v = true := by rw [t2, htemp1]; simp
          have hpv2 : is_permanent m2 v = false := by
            cases hpv : is_permanent m2 v with
            | false => rfl
            | true => rw [inv2.disjoint v hpv] at htv2; cases htv2
          have inv3 := visit_finish inv2 v nd2 hnd2 hpv2
            (fun e he => v2 e ((hedge e).1 he))
          refine Or.inl ⟨_, _, ?_, inv3, ?_, ?_, ?_, ?_⟩
          · simp only [visit, hnd, hp, ht, if_false, hl]
            rfl
          · rw [map_modify_keys, k2, hkeys1]
          · intro k
            rw [is_temporary_modify]
            by_cases hk : k = v
            · subst hk
              simp [hnd2, is_temporary, hnd, ht2]
            · simp only [hk, if_false]
              rw [t2, htemp1]
              simp [hk]
          · intro k hk
            rw [is_permanent_modify]
            by_cases hkv : k = v
            · simp [hkv, hnd2]
            · simp only [hkv, if_false]
              exact p2 k (by rw [hperm1]; exact hk)
          · rw [is_permanent_modify]
            simp [hnd2]
        · refine Or.inr ⟨?_, fun hs => hns fun e he => ?_⟩
          · simp only [visit, hnd, hp, ht, if_false, hl]
            rfl
          · refine ⟨fun k hk => hs.1 k ((is_key_modify m v _ k).1 hk), fun t htt => ?_⟩
            rw [htemp1] at htt
            by_cases htv : t = v
            · subst htv
              exact Relation.TransGen.single ((hedge e).2 he)
            · simp only [htv, if_false] at htt
              exact Relation.TransGen.tail (hs.2 t htt) ((hedge e).2 he)

/-- The loop of `sort` returns with every key permanent, or raises the cycle error; it raises
no error when no key is on a cycle. -/
theorem sort_loop_spec {n : Nat} (db : Database n) (E : TypeDef n → TypeDef n → Prop) :
    ∀ (fuel : Nat) (m : dependency_map n) (result : List (TypeDef n)),
      sort_inv db E m result → (∀ k, is_temporary m k = false) → white_keys m < fuel →
      (∃ result2 m2, sort_loop db fuel m result = Except.ok result2 ∧
        sort_inv db E m2 result2 ∧ m2.map Prod.fst = m.map Prod.fst ∧
        ∀ k, is_key m k → is_permanent m2 k = true) ∨
      (sort_loop db fuel m result = Except.error cyclic_error ∧
        ¬ ∀ k, is_key m k → ¬ Relation.TransGen E k k) := by
  intro fuel
  induction fuel with
  | zero => intro m result _ _ hw; exact absurd hw (Nat.not_lt_zero _)
  | succ fuel ih =>
    intro m result hinv htemp hwhite
    cases hfind : m.find? (fun e => !e.2.permanent) with
    | none =>
      refine Or.inl ⟨result, m, ?_, hinv, rfl, ?_⟩
      · simp only [sort_loop, hfind]
      · intro k hk
        obtain ⟨nd, hnd⟩ := Option.isSome_iff_exists.1 hk
        have hmem := mem_of_map_find m k nd hnd
        have := List.find?_eq_none.1 hfind (k, nd) hmem
        simp only [Bool.not_eq_true', Bool.not_eq_false] at this
        simp [is_permanent, hnd, this]
    | some e =>
      have hmem : e ∈ m := List.mem_of_find?_eq_some hfind
      have hnp : e.2.permanent = false := by
        have := List.find?_some hfind
        simpa using this
      have hnd : map_find m e.1 = some e.2 := map_find_of_mem m hinv.keys e hmem
      have hkey : is_key m e.1 := by simp [is_key, hnd]
      have hwe : is_white m e.1 = true := by
        rw [is_white_iff]
        exact ⟨hkey, htemp e.1, by simp [is_permanent, hnd, hnp]⟩
      rcases visit_spec db E (m.length + 1) m result e.1 hinv hkey
          (Nat.lt_succ_of_le (white_keys_le_length m)) with
        ⟨m1, r1, hv, hpost⟩ | ⟨hv, hns⟩
      · have hw1 : white_keys m1 < fuel := by
          have hlt : white_keys m1 < white_keys m := by
            apply white_keys_lt_of (visit_post_white hpost) e.1 hwe
            rw [← Bool.not_eq_true, is_white_iff, hpost.visited]
            simp
          omega
        have htemp1 : ∀ k, is_temporary m1 k = false := fun k => by
          rw [hpost.same_temp]; exact htemp k
        rcases ih m1 r1 hpost.inv htemp1 hw1 with ⟨r2, m2, hs, inv2, hk2, hall⟩ | ⟨hs, hcyc⟩
        · refine Or.inl ⟨r2, m2, ?_, inv2, hk2.trans hpost.same_keys, fun k hk =>
            hall k ((is_key_of_same_keys hpost.same_keys k).2 hk)⟩
          simp only [sort_loop, hfind, hv]
          exact hs
        · refine Or.inr ⟨?_, fun hacyc => hcyc fun k hk =>
            hacyc k ((is_key_of_same_keys hpost.same_keys k).1 hk)⟩
          simp only [sort_loop, hfind, hv]
          exact hs
      · refine Or.inr ⟨?_, fun hacyc => hns ⟨hacyc, fun t ht => ?_⟩⟩
        · simp only [sort_loop, hfind, hv]
        · rw [htemp t] at ht; cases ht

/-! ### The order of `write_structs` -/

theorem has_edge_iff_contains {n : Nat} {db : Database n} {structs : List (TypeDef n)}
    {m : dependency_map n} (h : added db structs m) (a b : TypeDef n) (ha : is_key m a) :
    has_edge m a b ↔ contains_by_value db a b := by
  obtain ⟨nd, hnd⟩ := Option.isSome_iff_exists.1 ha
  rw [← h.edges a nd hnd b]
  constructor
  · rintro ⟨nd', h1, h2⟩
    rw [hnd] at h1; cases h1; exact h2
  · intro hb; exact ⟨nd, hnd, hb⟩

theorem contains_of_has_edge {n : Nat} {db : Database n} {structs : List (TypeDef n)}
    {m : dependency_map n} (h : added db structs m) (a b : TypeDef n) (hab : has_edge m a b) :
    contains_by_value db a b := by
  obtain ⟨nd, hnd, hb⟩ := hab
  exact (h.edges a nd hnd b).1 hb

theorem trans_has_edge {n : Nat} {db : Database n} {structs : List (TypeDef n)}
    {m : dependency_map n} (h : added db structs m) (a b : TypeDef n) (ha : is_key m a)
    (hab : Relation.TransGen (contains_by_value db) a b) :
    Relation.TransGen (has_edge m) a b ∧ is_key m b := by
  induction hab with
  | single hab =>
    have he := (has_edge_iff_contains h a _ ha).2 hab
    exact ⟨Relation.TransGen.single he, h.closed a _ he⟩
  | tail _ hbc ih =>
    have he := (has_edge_iff_contains h _ _ ih.2).2 hbc
    exact ⟨Relation.TransGen.tail ih.1 he, h.closed _ _ he⟩

theorem sort_inv_init {n : Nat} {db : Database n} {structs : List (TypeDef n)}
    {m : dependency_map n} (h : added db structs m) :
    sort_inv db (has_edge m) m [] ∧ (∀ k, is_temporary m k = false) ∧
      ∀ k, is_permanent m k = false := by
  have hp : ∀ k, is_permanent m k = false := by
    intro k
    unfold is_permanent
    cases hf : map_find m k with
    | none => rfl
    | some nd => exact (h.flags k nd hf).2
  have ht : ∀ k, is_temporary m k = false := by
    intro k
    unfold is_temporary
    cases hf : map_find m k with
    | none => rfl
    | some nd => exact (h.flags k nd hf).1
  refine ⟨?_, ht, hp⟩
  constructor
  · exact h.sorted
  · intro k e; rfl
  · exact h.closed
  · intro k e hk; rw [hp] at hk; cases hk
  · intro k hk; rw [hp] at hk; cases hk
  · intro k hk; rw [hp] at hk; cases hk
  · intro k; simp [hp]
  · exact List.nodup_nil
  · intro S hS; cases hS

/-- The function `sort` after `add_all` returns an order that holds, once each, the keys
without enclosing type, every one after the keys without enclosing type it has an edge to, or
raises the cycle error, and this only when the graph of the list has a cycle. -/
theorem sorted_structs_spec {n : Nat} (db : Database n) (structs : List (TypeDef n)) :
    ∃ m, add_all db structs = Except.ok m ∧ added db structs m ∧
      ((∃ result m2, sorted_structs db structs = Except.ok result ∧
          sort_inv db (has_edge m) m2 result ∧ m2.map Prod.fst = m.map Prod.fst ∧
          ∀ k, is_key m k → is_permanent m2 k = true) ∨
        (sorted_structs db structs = Except.error cyclic_error ∧ ¬ acyclic db structs)) := by
  obtain ⟨m, hadd, hm⟩ := add_all_spec db structs
  refine ⟨m, hadd, hm, ?_⟩
  obtain ⟨hinv, htemp, _⟩ := sort_inv_init hm
  rcases sort_loop_spec db (has_edge m) (m.length + 1) m [] hinv htemp
      (Nat.lt_succ_of_le (white_keys_le_length m)) with
    ⟨r, m2, hs, inv2, hk2, hall⟩ | ⟨hs, hcyc⟩
  · refine Or.inl ⟨r, m2, ?_, inv2, hk2, hall⟩
    simp only [sorted_structs, hadd, sort]
    exact hs
  · refine Or.inr ⟨?_, fun hacyc => hcyc fun k hk hkk => ?_⟩
    · simp only [sorted_structs, hadd, sort]
      exact hs
    · exact hacyc k (hm.reach k hk) (Relation.TransGen.mono (contains_of_has_edge hm) hkk)

theorem is_key_of_reaches {n : Nat} {db : Database n} {structs : List (TypeDef n)}
    {m : dependency_map n} (h : added db structs m) (t : TypeDef n)
    (ht : reaches db structs t) : is_key m t := by
  obtain ⟨s, hs, hst⟩ := ht
  induction hst with
  | refl => exact h.roots s hs
  | tail _ hbc ih => exact h.closed _ _ ((has_edge_iff_contains h _ _ ih).2 hbc)

theorem is_key_of_permanent {n : Nat} (m : dependency_map n) (k : TypeDef n)
    (h : is_permanent m k = true) : is_key m k := by
  unfold is_permanent at h
  unfold is_key
  cases hf : map_find m k with
  | none => rw [hf] at h; cases h
  | some nd => rfl

theorem acyclic_of_lt {n : Nat} (db : Database n) (structs : List (TypeDef n))
    (h : ∀ a b, contains_by_value db a b → a < b) : acyclic db structs := by
  intro t _ htt
  have : ∀ a b, Relation.TransGen (contains_by_value db) a b → a < b := by
    intro a b hab
    induction hab with
    | single hab => exact h _ _ hab
    | tail _ hbc ih => exact lt_trans ih (h _ _ hbc)
  exact lt_irrefl t (this t t htt)

/-- C2: when the by-value field graph of the list has a cycle, `sort` after the `add` of every
struct raises the error `Cyclic dependency graph encountered` and returns no order. -/
theorem cyclic_dependency_error {n : Nat} (db : Database n) (structs : List (TypeDef n))
    (h : ¬ acyclic db structs) :
    sorted_structs db structs
      = Except.error (error.invalid_argument "Cyclic dependency graph encountered") := by
  obtain ⟨m, _, hm, hres⟩ := sorted_structs_spec db structs
  rcases hres with ⟨result, m2, _, inv2, _, hall⟩ | ⟨hs, _⟩
  · exfalso
    apply h
    intro t ht htt
    have hk := is_key_of_reaches hm t ht
    exact inv2.no_cycle t (hall t hk) (trans_has_edge hm t t hk htt).1
  · exact hs

/-- The structs `A` and `B` contain each other by value: the sort raises the error. -/
theorem cyclic_dependency_error_witness :
    ¬ acyclic cycle_db [0, 1] ∧
    sorted_structs cycle_db [0, 1]
      = Except.error (error.invalid_argument "Cyclic dependency graph encountered") := by
  have h : ¬ acyclic cycle_db [0, 1] := by
    intro hacyc
    refine hacyc 0 ⟨0, by simp, Relation.ReflTransGen.refl⟩ ?_
    exact Relation.TransGen.tail (Relation.TransGen.single (b := 1) (by decide)) (by decide)
  exact ⟨h, cyclic_dependency_error cycle_db [0, 1] h⟩

/-! ## Consumer declarations -/

theorem write_consume_params_eq {n : Nat} (tw : type_writers n) (w : writer) (m : MethodDef n) :
    write_consume_params tw w m
      = ", ".intercalate (m.params.map fun p => tw.write_TypeSig w p.2 ++ " " ++ p.1.Name) := by
  simp only [write_consume_params, write_separated_eq, write_two]

/-- C11, the code at the failing input: `write_consume_params` writes the structural
rendering of the signature of every parameter, with or without a field-marshal override; for
the own method `Foo` of `IFoo`, whose parameter `s` is an in parameter with an Lpstr override,
the consumer declaration has the parameter `int s` (the structural rendering of the sample
writers) where the dispatch table slot of the same method has `const char* s`. -/
theorem consume_declaration_not_marshaled :
    (∀ (n : Nat) (tw : type_writers n) (w : writer) (m : MethodDef n),
      write_consume_params tw w m
        = ", ".intercalate (m.params.map fun p => tw.write_TypeSig w p.2 ++ " " ++ p.1.Name)) ∧
    should_write_interface marshal_db 0 = true ∧
    write_consume (sample_writers 1) {} marshal_db 0
      = Except.ok (consume_struct "N_IFoo"
          "        WIN32_IMPL_AUTO(int) Foo(int s) const;\n") ∧
    write_abi_params (sample_writers 1) {} lpstr_method = "const char* s" ∧
    marshaled_type (sample_writers 1) {} lpstr_param = "const char*" := by
  refine ⟨fun n tw w m => write_consume_params_eq tw w m, by decide, by rfl, by rfl, by rfl⟩

/-! ## Structs -/

theorem complex_struct_field_nested {n : Nat} (tw : type_writers n) (w : writer)
    (db : Database n) (fields : List struct_field) (field : Field n) (t : TypeDef n)
    (h : get_nested_type db field.Signature = some t) :
    complex_struct_field tw w db fields field =
      match get_attribute field.attributes "System.Runtime.CompilerServices"
          "FixedBufferAttribute" with
      | some buffer_attribute =>
        if buffer_attribute.FixedArgs.length ≠ 2 then
          Except.error (error.invalid_argument "FixedBufferAttribute should have 2 args")
        else
          match buffer_attribute.FixedArgs.get? 1 with
          | some (ElemSig.int32 _) => Except.ok fields
          | _ => Except.error error.bad_variant_access
      | none => Except.ok fields := by
  unfold complex_struct_field
  simp only [h]
  cases get_attribute field.attributes "System.Runtime.CompilerServices"
      "FixedBufferAttribute" with
  | none => simp only [ite_self]
  | some a => rfl

theorem complex_struct_field_plain {n : Nat} (tw : type_writers n) (w : writer)
    (db : Database n) (fields : List struct_field) (field : Field n)
    (h : get_nested_type db field.Signature = none) :
    complex_struct_field tw w db fields field =
      Except.ok (fields ++
        [{ name := field.Name, type := tw.write_TypeSig w field.Signature,
           array_count := none }]) := by
  unfold complex_struct_field
  simp only [h, write_one]

theorem complex_struct_field_count {n : Nat} (tw : type_writers n) (w : writer)
    (db : Database n) (fields fields2 : List struct_field) (field : Field n)
    (h : complex_struct_field tw w db fields field = Except.ok fields2)
    (hf : ∀ f ∈ fields, f.array_count = none) : ∀ f ∈ fields2, f.array_count = none := by
  cases hn : get_nested_type db field.Signature with
  | some t =>
    rw [complex_struct_field_nested tw w db fields field t hn] at h
    have h2 : fields2 = fields := by
      split at h
      · split at h
        · cases h
        · split at h
          · cases h; rfl
          · cases h
      · cases h; rfl
    rw [h2]; exact hf
  | none =>
    rw [complex_struct_field_plain tw w db fields field hn] at h
    cases h
    intro f hfm
    rcases List.mem_append.1 hfm with hfm | hfm
    · exact hf f hfm
    · rw [List.mem_singleton] at hfm
      subst hfm; rfl

theorem for_each_invariant {α σ : Type} (f : σ → α → Except error σ) (P : σ → Prop)
    (hstep : ∀ s x s2, P s → f s x = Except.ok s2 → P s2) :
    ∀ (xs : List α) (s s2 : σ), P s → for_each f xs s = Except.ok s2 → P s2 := by
  intro xs
  induction xs with
  | nil => intro s s2 hs h; simp only [for_each] at h; cases h; exact hs
  | cons x xs ih =>
    intro s s2 hs h
    simp only [for_each] at h
    cases hx : f s x with
    | error e => rw [hx] at h; cases h
    | ok s1 =>
      rw [hx] at h
      exact ih s1 s2 (hstep s x s1 hs hx) h

/-- C12, the code at the failing input: no field that `complex_struct` keeps has an array
count, so `write_struct` writes no line `type name[count];`; the field `Buffer` of `S`, whose
type is a nested type and that carries a `FixedBufferAttribute` with the count 16, gets no
line, and neither does it when the nested type is named `__FixedBuffer` with no attribute. -/
theorem fixed_buffer_not_written :
    (∀ (n : Nat) (tw : type_writers n) (w : writer) (db : Database n) (type : TypeDef n)
      (fields : List struct_field), complex_struct tw w db type = Except.ok fields →
      ∀ f ∈ fields, f.array_count = none) ∧
    write_struct (sample_writers 2) {}
      (buffer_db "<Buffer>e__FixedBuffer"
        [fixed_buffer_of [ElemSig.other, ElemSig.int32 16]]) 0
      = Except.ok "    struct S\n    \x7b\n        int Length;\n    \x7d;\n" ∧
    write_struct (sample_writers 2) {} (buffer_db "__FixedBuffer_Buffer" []) 0
      = Except.ok "    struct S\n    \x7b\n        int Length;\n    \x7d;\n" := by
  refine ⟨?_, by rfl, by rfl⟩
  intro n tw w db type fields h
  exact for_each_invariant (complex_struct_field tw w db) (fun fs => ∀ f ∈ fs, f.array_count = none)
    (fun s x s2 hs hx => complex_struct_field_count tw w db s s2 x hx hs) _ [] fields
    (fun f hf => absurd hf (List.not_mem_nil f)) h

theorem get_nested_type_eq_some {n : Nat} (db : Database n) (sig : TypeSig n) (t : TypeDef n) :
    get_nested_type db sig = some t ↔
      sig.Type_ = TypeSigType.coded_index (TypeDefOrRef.TypeDef t) ∧
        (db.row t).EnclosingType ≠ none := by
  unfold get_nested_type
  cases hs : sig.Type_ with
  | coded_index i =>
    cases i with
    | TypeDef row =>
      simp only [TypeSigType.coded_index.injEq, TypeDefOrRef.TypeDef.injEq, ne_eq]
      by_cases he : (db.row row).EnclosingType.isSome = true
      · rw [if_pos he]
        constructor
        · intro h
          injection h with h
          subst h
          refine ⟨rfl, fun hc => ?_⟩
          rw [hc] at he
          cases he
        · intro h
          rw [h.1]
      · rw [if_neg he]
        constructor
        · intro h; cases h
        · rintro ⟨h1, h2⟩
          subst h1
          exfalso
          apply he
          cases hx : (db.row row).EnclosingType with
          | none => exact absurd hx h2
          | some x => rfl
    | _ => simp
  | _ => simp

theorem get_nested_type_eq_none {n : Nat} (db : Database n) (f : Field n) :
    get_nested_type db f.Signature = none ↔ ¬ is_nested_field db f := by
  unfold is_nested_field
  constructor
  · rintro h ⟨t, ht⟩
    rw [(get_nested_type_eq_some db f.Signature t).2 ht] at h
    cases h
  · intro h
    cases hg : get_nested_type db f.Signature with
    | none => rfl
    | some t => exact absurd ⟨t, (get_nested_type_eq_some db f.Signature t).1 hg⟩ h

theorem write_struct_format {n : Nat} (tw : type_writers n) (name body : String) :
    write tw
      ("    struct %\n" ++
       "    \x7b\n" ++
       "%    \x7d;\n") [name, body] = struct_text name body := by
  simp only [struct_text, String.append_assoc]
  rfl

theorem write_field_line {n : Nat} (tw : type_writers n) (type name : String) :
    write tw "        @ %;\n" [type, name]
      = "        " ++ tw.write_code type ++ " " ++ name ++ ";\n" := by
  simp only [String.append_assoc]
  rfl

theorem complex_struct_loop {n : Nat} (tw : type_writers n) (w : writer) (db : Database n) :
    ∀ (fs : List (Field n)) (acc : List struct_field),
      (∀ f ∈ fs, get_attribute f.attributes "System.Runtime.CompilerServices"
        "FixedBufferAttribute" = none) →
      for_each (complex_struct_field tw w db) fs acc
        = Except.ok (acc ++ (fs.filter fun f => ¬ is_nested_field db f).map fun f =>
            { name := f.Name, type := tw.write_TypeSig w f.Signature, array_count := none }) := by
  intro fs
  induction fs with
  | nil => intro acc _; simp [for_each]
  | cons f fs ih =>
    intro acc h
    have hf := h f (List.mem_cons_self f fs)
    have hfs : ∀ g ∈ fs, get_attribute g.attributes "System.Runtime.CompilerServices"
        "FixedBufferAttribute" = none := fun g hg => h g (List.mem_cons_of_mem f hg)
    cases hn : get_nested_type db f.Signature with
    | some t =>
      have hnest : is_nested_field db f := by
        by_contra hc
        rw [(get_nested_type_eq_none db f).2 hc] at hn
        cases hn
      simp only [for_each, complex_struct_field_nested tw w db acc f t hn, hf, ih acc hfs]
      simp [List.filter_cons, hnest]
    | none =>
      have hnest : ¬ is_nested_field db f := (get_nested_type_eq_none db f).1 hn
      simp only [for_each, complex_struct_field_plain tw w db acc f hn, ih _ hfs]
      simp [List.filter_cons, hnest]

theorem get_attribute_eq_none (attributes : List CustomAttribute) (ns name : String) :
    get_attribute attributes ns name = none ↔ has_attribute attributes ns name = false := by
  rw [← get_attribute_isSome]
  cases get_attribute attributes ns name <;> simp

/-- C20: for a struct whose fields carry no `FixedBufferAttribute`, `write_struct` writes
`struct Name { ... };` with one line `type name;` for every field whose type is not a nested
TypeDef, in the order of the field list, and no line for a field of a nested type, such as the
backing type of an anonymous union or struct; when every field is of a nested type the body is
empty. -/
theorem struct_fields_written {n : Nat} (tw : type_writers n) (w : writer) (db : Database n)
    (type : TypeDef n)
    (h : ∀ f ∈ (db.row type).FieldList, has_attribute f.attributes
      "System.Runtime.CompilerServices" "FixedBufferAttribute" = false) :
    write_struct tw w db type
      = Except.ok (struct_text (db.row type).TypeName
          (String.join (((db.row type).FieldList.filter fun f => ¬ is_nested_field db f).map
            (field_line tw w)))) ∧
    ((∀ f ∈ (db.row type).FieldList, is_nested_field db f) →
      write_struct tw w db type = Except.ok (struct_text (db.row type).TypeName "")) := by
  have h2 : ∀ f ∈ (db.row type).FieldList, get_attribute f.attributes
      "System.Runtime.CompilerServices" "FixedBufferAttribute" = none :=
    fun f hf => (get_attribute_eq_none _ _ _).2 (h f hf)
  have h3 : write_struct tw w db type
      = Except.ok (struct_text (db.row type).TypeName
          (String.join (((db.row type).FieldList.filter fun f => ¬ is_nested_field db f).map
            (field_line tw w)))) := by
    simp only [write_struct, complex_struct, complex_struct_loop tw w db _ [] h2,
      List.nil_append, write_struct_format, foldl_append_join, List.map_map]
    congr 3
    simp only [String.empty_append]
    congr 1
    apply List.map_congr_left
    intro f _
    simp only [Function.comp, write_struct_field, write_field_line, field_line]
  refine ⟨h3, fun hall => ?_⟩
  rw [h3]
  have : ((db.row type).FieldList.filter fun f => ¬ is_nested_field db f) = [] := by
    rw [List.filter_eq_nil_iff]
    intro f hf
    simpa using hall f hf
  rw [this]
  rfl

theorem struct_fields_written_witness :
    (∀ f ∈ ((buffer_db "_e__Union" []).row 0).FieldList, has_attribute f.attributes
      "System.Runtime.CompilerServices" "FixedBufferAttribute" = false) ∧
    (write_struct (sample_writers 2) {} (buffer_db "_e__Union" []) 0
      = Except.ok (struct_text ((buffer_db "_e__Union" []).row 0).TypeName
          (String.join ((((buffer_db "_e__Union" []).row 0).FieldList.filter
            fun f => ¬ is_nested_field (buffer_db "_e__Union" []) f).map
            (field_line (sample_writers 2) {})))) ∧
    ((∀ f ∈ ((buffer_db "_e__Union" []).row 0).FieldList,
        is_nested_field (buffer_db "_e__Union" []) f) →
      write_struct (sample_writers 2) {} (buffer_db "_e__Union" []) 0
        = Except.ok (struct_text ((buffer_db "_e__Union" []).row 0).TypeName ""))) :=
  ⟨by decide, struct_fields_written (sample_writers 2) {} (buffer_db "_e__Union" []) 0
    (by decide)⟩

theorem complex_struct_field_bad {n : Nat} (tw : type_writers n) (w : writer)
    (db : Database n) (fields : List struct_field) (field : Field n)
    (h : bad_fixed_buffer db field) :
    complex_struct_field tw w db fields field
      = Except.error (error.invalid_argument "FixedBufferAttribute should have 2 args") := by
  obtain ⟨⟨t, ht⟩, a, ha, hlen⟩ := h
  rw [complex_struct_field_nested tw w db fields field t
    ((get_nested_type_eq_some db field.Signature t).2 ht), ha]
  simp only [ne_eq, hlen, not_false_eq_true, if_true]

theorem complex_struct_field_error {n : Nat} (tw : type_writers n) (w : writer)
    (db : Database n) (fields : List struct_field) (field : Field n) (e : error)
    (h : complex_struct_field tw w db fields field = Except.error e)
    (hc : int32_count db field) :
    e = error.invalid_argument "FixedBufferAttribute should have 2 args" := by
  cases hn : get_nested_type db field.Signature with
  | none =>
    rw [complex_struct_field_plain tw w db fields field hn] at h
    cases h
  | some t =>
    have hnest : is_nested_field db field :=
      ⟨t, (get_nested_type_eq_some db field.Signature t).1 hn⟩
    rw [complex_struct_field_nested tw w db fields field t hn] at h
    cases ha : get_attribute field.attributes "System.Runtime.CompilerServices"
        "FixedBufferAttribute" with
    | none =>
      rw [ha] at h
      cases h
    | some a =>
      rw [ha] at h
      by_cases hlen : a.FixedArgs.length = 2
      · obtain ⟨count, hcount⟩ := hc hnest a ha hlen
        simp only [ne_eq, hlen, not_true_eq_false, if_false, hcount] at h
        cases h
      · simp only [ne_eq, hlen, not_false_eq_true, if_true] at h
        cases h
        rfl

theorem complex_struct_loop_error {n : Nat} (tw : type_writers n) (w : writer)
    (db : Database n) :
    ∀ (fs : List (Field n)) (acc : List struct_field), (∃ f ∈ fs, bad_fixed_buffer db f) →
      ∃ e, for_each (complex_struct_field tw w db) fs acc = Except.error e ∧
        ((∀ f ∈ fs, int32_count db f) →
          e = error.invalid_argument "FixedBufferAttribute should have 2 args") := by
  intro fs
  induction fs with
  | nil => rintro acc ⟨f, hf, _⟩; cases hf
  | cons g fs ih =>
    rintro acc ⟨f, hf, hbad⟩
    cases hg : complex_struct_field tw w db acc g with
    | error e =>
      refine ⟨e, ?_, fun hall => ?_⟩
      · simp only [for_each, hg]
      · exact complex_struct_field_error tw w db acc g e hg (hall g (List.mem_cons_self g fs))
    | ok acc2 =>
      have hmem : f ∈ fs := by
        rcases List.mem_cons.1 hf with hfg | hfg
        · subst hfg
          rw [complex_struct_field_bad tw w db acc f hbad] at hg
          cases hg
        · exact hfg
      obtain ⟨e, he, hall⟩ := ih acc2 ⟨f, hmem, hbad⟩
      refine ⟨e, ?_, fun h => hall fun x hx => h x (List.mem_cons_of_mem g hx)⟩
      simp only [for_each, hg, he]

theorem write_struct_of_error {n : Nat} (tw : type_writers n) (w : writer) (db : Database n)
    (type : TypeDef n) (e : error) (h : complex_struct tw w db type = Except.error e) :
    write_struct tw w db type = Except.error e := by
  simp only [write_struct, h]

/-- C15, counterexample: the struct `S` has a field of type I4 that carries a
`FixedBufferAttribute` with one fixed argument, and `write_struct` raises no error and writes
the declaration of `S`: the attribute is looked at only on a field of a nested type. -/
theorem fixed_buffer_plain_field_accepted :
    (∃ f ∈ (plain_buffer_db.row 0).FieldList, ∃ a,
      get_attribute f.attributes "System.Runtime.CompilerServices" "FixedBufferAttribute"
        = some a ∧ a.FixedArgs.length ≠ 2) ∧
    write_struct (sample_writers 1) {} plain_buffer_db 0
      = Except.ok "    struct S\n    \x7b\n        int x;\n    \x7d;\n" :=
  ⟨⟨_, List.mem_cons_self _ _, fixed_buffer_of [ElemSig.int32 4], by decide, by decide⟩,
    rfl⟩

/-- C15, amended: for a struct that has a field of a nested type carrying a
`FixedBufferAttribute` whose number of fixed arguments is not 2, `write_struct` raises an
error and writes no struct declaration; the error is `FixedBufferAttribute should have 2 args`
when the second argument of every two-argument `FixedBufferAttribute` on a field of a nested
type is an int32. -/
theorem fixed_buffer_arg_count {n : Nat} (tw : type_writers n) (w : writer) (db : Database n)
    (type : TypeDef n) (h : ∃ f ∈ (db.row type).FieldList, bad_fixed_buffer db f) :
    (∃ e, write_struct tw w db type = Except.error e) ∧
    ((∀ f ∈ (db.row type).FieldList, int32_count db f) →
      write_struct tw w db type
        = Except.error (error.invalid_argument "FixedBufferAttribute should have 2 args")) := by
  obtain ⟨e, he, hall⟩ := complex_struct_loop_error tw w db (db.row type).FieldList [] h
  refine ⟨⟨e, write_struct_of_error tw w db type e he⟩, fun hc => ?_⟩
  rw [← hall hc]
  exact write_struct_of_error tw w db type e he

theorem fixed_buffer_arg_count_witness :
    (∃ f ∈ ((buffer_db "Buffer" [fixed_buffer_of [ElemSig.int32 16]]).row 0).FieldList,
      bad_fixed_buffer (buffer_db "Buffer" [fixed_buffer_of [ElemSig.int32 16]]) f) ∧
    ((∃ e, write_struct (sample_writers 2) {}
        (buffer_db "Buffer" [fixed_buffer_of [ElemSig.int32 16]]) 0 = Except.error e) ∧
    ((∀ f ∈ ((buffer_db "Buffer" [fixed_buffer_of [ElemSig.int32 16]]).row 0).FieldList,
        int32_count (buffer_db "Buffer" [fixed_buffer_of [ElemSig.int32 16]]) f) →
      write_struct (sample_writers 2) {}
          (buffer_db "Buffer" [fixed_buffer_of [ElemSig.int32 16]]) 0
        = Except.error (error.invalid_argument "FixedBufferAttribute should have 2 args"))) :=
  have hbad : ∃ f ∈ ((buffer_db "Buffer"
      [fixed_buffer_of [ElemSig.int32 16]]).row 0).FieldList,
      bad_fixed_buffer (buffer_db "Buffer" [fixed_buffer_of [ElemSig.int32 16]]) f :=
    ⟨{ Name := "Buffer",
       Signature := { Type_ := TypeSigType.coded_index (TypeDefOrRef.TypeDef 1) },
       attributes := [fixed_buffer_of [ElemSig.int32 16]] },
     by decide, ⟨1, rfl, by decide⟩, fixed_buffer_of [ElemSig.int32 16], by decide,
     by decide⟩
  ⟨hbad, fixed_buffer_arg_count (sample_writers 2) {}
    (buffer_db "Buffer" [fixed_buffer_of [ElemSig.int32 16]]) 0 hbad⟩

/-! ## GUID of a type -/

theorem write_guid_format {n : Nat} (tw : type_writers n) (T literal text : String) :
    write tw "    template <> inline constexpr guid guid_v<%>\x7b % \x7d; // %\n"
      [T, literal, text] = guid_line T literal text := by
  simp only [guid_line, String.append_assoc]
  rfl

theorem throw_invalid_not_found (ns name : String) :
    (throw_invalid ["'System.Runtime.InteropServices.GuidAttribute' attribute for type '",
        ns, ".", name, "' not found"] : Except error String)
      = Except.error (error.invalid_argument (guid_not_found ns name)) := by
  simp only [throw_invalid, guid_not_found, String.join, List.foldl, String.append_assoc,
    String.empty_append]

/-- C14: `write_guid` writes nothing and raises no error for the type named `IUnknown`, with
or without attributes; for a type of another name without `GuidAttribute` it raises the error
whose message holds the namespace and the name of the type joined by a dot; for a type of
another name whose `GuidAttribute` has a text of 36 characters or more as first argument it
writes one line, the `guid_v` specialization with the literal of the decoded guid, that ends
in the comment with the text. -/
theorem write_guid_spec {n : Nat} (tw : type_writers n) (w : writer) (db : Database n)
    (type : TypeDef n) (uninit : guid) :
    ((db.row type).TypeName = "IUnknown" → write_guid tw w db type uninit = Except.ok "") ∧
    ((db.row type).TypeName ≠ "IUnknown" →
      has_attribute (db.row type).attributes "System.Runtime.InteropServices" "GuidAttribute"
        = false →
      write_guid tw w db type uninit = Except.error (error.invalid_argument
        ("'System.Runtime.InteropServices.GuidAttribute' attribute for type '" ++
          (db.row type).TypeNamespace ++ "." ++ (db.row type).TypeName ++ "' not found"))) ∧
    (∀ a text, (db.row type).TypeName ≠ "IUnknown" →
      get_attribute (db.row type).attributes "System.Runtime.InteropServices" "GuidAttribute"
        = some a →
      a.FixedArgs.head? = some (ElemSig.string text) → 36 ≤ text.length →
      ∃ g, to_guid text uninit = Except.ok g ∧
        write_guid tw w db type uninit = Except.ok
          ("    template <> inline constexpr guid guid_v<" ++ tw.write_TypeDef w type ++
            ">\x7b " ++ write_guid_value g ++ " \x7d; // " ++ text ++ "\n")) := by
  refine ⟨fun h => ?_, fun h hno => ?_, fun a text h ha htext hlen => ?_⟩
  · simp only [write_guid, h, if_true]
  · rw [← get_attribute_eq_none] at hno
    simp only [write_guid, h, if_false, hno, throw_invalid_not_found]
    rfl
  · have hlt : ¬ text.length < 36 := by omega
    cases hg : to_guid text uninit with
    | error e =>
      simp only [to_guid, hlt, if_false] at hg
      cases hg
    | ok g =>
      refine ⟨g, rfl, ?_⟩
      simp only [write_guid, h, if_false, ha, htext, hg, write_guid_format]
      rfl

theorem write_guid_spec_witness :
    write_guid (sample_writers 1) {}
      (guid_db "IUnknown" [guid_attribute_of "00000000-0000-0000-C000-000000000046"]) 0
      ⟨0, 0, 0, []⟩ = Except.ok "" ∧
    write_guid (sample_writers 1) {} (guid_db "IFoo" []) 0 ⟨0, 0, 0, []⟩
      = Except.error (error.invalid_argument
          "'System.Runtime.InteropServices.GuidAttribute' attribute for type 'N.IFoo' not found") ∧
    ∃ g, to_guid "A1B2C3D4-E5F6-1234-5678-9ABCDEF01234" ⟨0, 0, 0, []⟩ = Except.ok g ∧
      write_guid (sample_writers 1) {}
        (guid_db "IFoo" [guid_attribute_of "A1B2C3D4-E5F6-1234-5678-9ABCDEF01234"]) 0
        ⟨0, 0, 0, []⟩ = Except.ok
          ("    template <> inline constexpr guid guid_v<" ++ "T0" ++
            ">\x7b " ++ write_guid_value g ++ " \x7d; // " ++
            "A1B2C3D4-E5F6-1234-5678-9ABCDEF01234" ++ "\n") :=
  ⟨(write_guid_spec (sample_writers 1) {}
      (guid_db "IUnknown" [guid_attribute_of "00000000-0000-0000-C000-000000000046"]) 0
      ⟨0, 0, 0, []⟩).1 rfl,
   (write_guid_spec (sample_writers 1) {} (guid_db "IFoo" []) 0 ⟨0, 0, 0, []⟩).2.1
      (by decide) rfl,
   (write_guid_spec (sample_writers 1) {}
      (guid_db "IFoo" [guid_attribute_of "A1B2C3D4-E5F6-1234-5678-9ABCDEF01234"]) 0
      ⟨0, 0, 0, []⟩).2.2 (guid_attribute_of "A1B2C3D4-E5F6-1234-5678-9ABCDEF01234")
      "A1B2C3D4-E5F6-1234-5678-9ABCDEF01234" (by decide) (by decide) rfl (by decide)⟩

/-! ## GUID text that is not canonical -/

theorem take_drop_take {α : Type} (l : List α) (k a b : Nat) (h : a + b ≤ k) :
    ((l.take k).drop a).take b = (l.drop a).take b := by
  rw [List.drop_take, List.take_take]
  congr 1
  omega

theorem from_chars_take (data : List Char) (first last value bits : Nat) (h : last ≤ 36) :
    from_chars (data.take 36) first last value bits = from_chars data first last value bits := by
  unfold from_chars
  by_cases hfl : first ≤ last
  · rw [take_drop_take data 36 first (last - first) (by omega)]
  · have : last - first = 0 := by omega
    simp only [this, List.take_zero]

/-- C19, counterexample: the text of 36 characters `Z`, which has no hexadecimal digit and no
hyphen, and a canonical text followed by `XYZ` are both taken by `to_guid` without error:
the first returns the content that the guid had before the call, the second the guid of the
canonical text. -/
theorem malformed_guid_accepted :
    ¬ canonical_guid_text "ZZZZZZZZZZZZZZZZZZZZZZZZZZZZZZZZZZZZ" ∧
    to_guid "ZZZZZZZZZZZZZZZZZZZZZZZZZZZZZZZZZZZZ" ⟨1, 2, 3, [4, 5, 6, 7, 8, 9, 10, 11]⟩
      = Except.ok ⟨1, 2, 3, [4, 5, 6, 7, 8, 9, 10, 11]⟩ ∧
    ¬ canonical_guid_text "00000000-0000-0000-C000-000000000046XYZ" ∧
    to_guid "00000000-0000-0000-C000-000000000046XYZ" ⟨1, 2, 3, [4, 5, 6, 7, 8, 9, 10, 11]⟩
      = Except.ok ⟨0, 0, 0, [0xC0, 0, 0, 0, 0, 0, 0, 0x46]⟩ :=
  ⟨by decide, rfl, by decide, rfl⟩

/-- C19, amended: for every string of 36 or more characters, of the canonical form or not,
`to_guid` raises no error and returns a guid; when the first 36 characters of the string are of
the canonical form, the guid is that of these 36 characters, whatever follows them. -/
theorem to_guid_malformed (str : String) (uninit : guid) (h : 36 ≤ str.length) :
    (∃ g, to_guid str uninit = Except.ok g) ∧
    (canonical_guid_text (String.mk (str.data.take 36)) →
      ∀ uninit2, to_guid str uninit = to_guid (String.mk (str.data.take 36)) uninit2) := by
  have hlt : ¬ str.length < 36 := by omega
  have hlen : str.data.length = str.length := rfl
  have hlt2 : ¬ (String.mk (str.data.take 36)).length < 36 := by
    show ¬ (str.data.take 36).length < 36
    rw [List.length_take]
    omega
  refine ⟨⟨_, by simp only [to_guid, hlt, if_false]; rfl⟩, fun hc uninit2 => ?_⟩
  have htake : to_guid str uninit = to_guid (String.mk (str.data.take 36)) uninit := by
    simp only [to_guid, hlt, hlt2, if_false]
    rw [from_chars_take _ 0 8 _ _ (by omega), from_chars_take _ 9 13 _ _ (by omega),
      from_chars_take _ 14 18 _ _ (by omega), from_chars_take _ 19 21 _ _ (by omega),
      from_chars_take _ 21 23 _ _ (by omega), from_chars_take _ 24 26 _ _ (by omega),
      from_chars_take _ 26 28 _ _ (by omega), from_chars_take _ 28 30 _ _ (by omega),
      from_chars_take _ 30 32 _ _ (by omega), from_chars_take _ 32 34 _ _ (by omega),
      from_chars_take _ 34 36 _ _ (by omega)]
  rw [htake, to_guid_decoded _ uninit hc, to_guid_decoded _ uninit2 hc]

/-- The canonical text `00000000-0000-0000-C000-000000000046` followed by `trailing` gives the
guid of the canonical text. -/
theorem to_guid_malformed_witness :
    36 ≤ "00000000-0000-0000-C000-000000000046trailing".length ∧
    (∃ g, to_guid "00000000-0000-0000-C000-000000000046trailing" ⟨1, 2, 3, []⟩ = Except.ok g) ∧
    to_guid "00000000-0000-0000-C000-000000000046trailing" ⟨1, 2, 3, []⟩
      = to_guid "00000000-0000-0000-C000-000000000046" ⟨0, 0, 0, []⟩ :=
  ⟨by decide,
    (to_guid_malformed "00000000-0000-0000-C000-000000000046trailing" ⟨1, 2, 3, []⟩
      (by decide)).1,
    (to_guid_malformed "00000000-0000-0000-C000-000000000046trailing" ⟨1, 2, 3, []⟩
      (by decide)).2 (by decide) ⟨0, 0, 0, []⟩⟩

/-! ## Classes -/

theorem foldl_filter_join {α : Type} (p : α → Prop) [DecidablePred p] (f : α → String)
    (xs : List α) (acc : String) :
    xs.foldl (fun out x => if p x then out ++ f x else out) acc
      = acc ++ String.join ((xs.filter fun x => p x).map f) := by
  rw [← foldl_append_join]
  induction xs generalizing acc with
  | nil => rfl
  | cons x xs ih =>
    by_cases hp : p x
    · simp only [List.foldl, hp, if_true, List.filter_cons, decide_True, ih]
    · simp only [List.foldl, hp, if_false, List.filter_cons, decide_False, ih,
        Bool.false_eq_true]

theorem write_class_head {n : Nat} (tw : type_writers n) (name : String) :
    write tw
      ("    struct %\n" ++
       "    \x7b\n") [name] = "    struct " ++ name ++ "\n    \x7b\n" := by
  simp only [String.append_assoc]
  rfl

theorem write_class_method_eq {n : Nat} (tw : type_writers n) (w : writer) (m : MethodDef n) :
    write_class_method tw w m = forwarding_method tw w m := by
  have h1 : write_method_params tw w m = declared_params tw w m := by
    simp only [write_method_params, declared_params, write_separated_eq, write_two,
      method_param_type_eq]
  have h2 : write_method_args m = param_names m := by
    simp only [write_method_args, param_names, write_separated_eq]
  have h3 : write_method_return tw w m = return_text tw w m.return_signature := rfl
  have h4 : ∀ a b c d e : String,
      write tw
        ("        %% %(%)\n" ++
         "        \x7b\n" ++
         "            return WIN32_IMPL_%(%);\n" ++
         "        \x7d\n") [a, b, c, d, c, e]
        = "        " ++ a ++ b ++ " " ++ c ++ "(" ++ d ++ ")\n" ++
          "        \x7b\n" ++
          "            return WIN32_IMPL_" ++ c ++ "(" ++ e ++ ");\n" ++
          "        \x7d\n" := by
    intro a b c d e
    simp only [String.append_assoc]
    rfl
  simp only [write_class_method, h1, h2, h3, h4, forwarding_method]

theorem write_impl_declaration {n : Nat} (tw : type_writers n) (w : writer) (m : MethodDef n) :
    write tw "    % __stdcall WIN32_IMPL_%(%) noexcept;\n"
      [write_abi_return tw w m.return_signature, m.Name, write_abi_params tw w m]
      = impl_declaration tw w m := by
  have h1 : write_abi_params tw w m = declared_params tw w m := by
    simp only [write_abi_params, declared_params, write_separated_eq, write_two,
      abi_param_type_eq]
  have h3 : write_abi_return tw w m.return_signature = return_text tw w m.return_signature :=
    rfl
  have h4 : ∀ a b c : String,
      write tw "    % __stdcall WIN32_IMPL_%(%) noexcept;\n" [a, b, c]
        = "    " ++ a ++ " __stdcall WIN32_IMPL_" ++ b ++ "(" ++ c ++ ") noexcept;\n" := by
    intro a b c
    simp only [String.append_assoc]
    rfl
  simp only [h1, h3, h4, impl_declaration]

theorem write_impl_link {n : Nat} (tw : type_writers n) (m : MethodDef n) :
    write tw "WIN32_IMPL_LINK(%)\n" [write_abi_link tw m] = impl_link m := by
  have h4 : ∀ a : String, write tw "WIN32_IMPL_LINK(%)\n" [a] = "WIN32_IMPL_LINK(" ++ a ++ ")\n" := by
    intro a
    simp only [String.append_assoc]
    rfl
  have h5 : (fun p : Param × TypeSig n => get_param_size p.2) = fun p => slot_size p.2 :=
    funext fun p => get_param_size_eq p.2
  simp only [h4, write_abi_link, write_link, foldl_count, Nat.zero_add, impl_link, h5,
    String.append_assoc]

/-- C16: `write_class` writes the opening of the struct, one forwarding method for every
public method and none for another method, in the order of the method list, and the closing;
the forwarding method of a method `M` declares the parameters of `M` in order and its body
calls `WIN32_IMPL_M` with the names of these parameters in the same order. `write_class_abi`
writes for the same public methods in the same order one extern declaration of `WIN32_IMPL_M`
each inside `extern "C"` and then one line `WIN32_IMPL_LINK(M, size)` each. The class `C`
with the public methods `Create` and `Close` and the private method `Hidden` gets two
forwarding methods, two declarations and two linkage lines. -/
theorem class_forwarding :
    (∀ (n : Nat) (tw : type_writers n) (w : writer) (db : Database n) (type : TypeDef n),
      write_class tw w db type
        = "    struct " ++ (db.row type).TypeName ++ "\n    \x7b\n" ++
          String.join ((public_methods db type).map (forwarding_method tw w)) ++
          "\n    \x7d;\n" ∧
      write_class_abi tw w db type
        = "extern \"C\"\n\x7b\n" ++
          String.join ((public_methods db type).map
            (impl_declaration tw (w.push_full_namespace true))) ++
          "\x7d\n" ++
          String.join ((public_methods db type).map impl_link) ++ "\n") ∧
    write_class (sample_writers 1) {} class_db 0
      = "    struct C\n    \x7b\n" ++
        "        static int Create(int size)\n" ++
        "        \x7b\n" ++
        "            return WIN32_IMPL_Create(size);\n" ++
        "        \x7d\n" ++
        "        void Close()\n" ++
        "        \x7b\n" ++
        "            return WIN32_IMPL_Close();\n" ++
        "        \x7d\n" ++
        "\n    \x7d;\n" ∧
    write_class_abi (sample_writers 1) {} class_db 0
      = "extern \"C\"\n\x7b\n" ++
        "    int __stdcall WIN32_IMPL_Create(int size) noexcept;\n" ++
        "    void __stdcall WIN32_IMPL_Close() noexcept;\n" ++
        "\x7d\n" ++
        "WIN32_IMPL_LINK(Create, 8)\n" ++
        "WIN32_IMPL_LINK(Close, 0)\n" ++ "\n" := by
  refine ⟨fun n tw w db type => ⟨?_, ?_⟩, by decide, by decide⟩
  · simp only [write_class, write_class_head, write_class_method_eq, public_methods,
      foldl_filter_join (fun m : MethodDef n => m.Flags.Access = MemberAccess.Public),
      String.empty_append]
    rfl
  · simp only [write_class_abi, write_impl_declaration, write_impl_link, public_methods,
      foldl_filter_join (fun m : MethodDef n => m.Flags.Access = MemberAccess.Public),
      String.empty_append]

/-! ## Struct dependency sorter: the types of the order -/

theorem mem_sorted_iff_reaches {n : Nat} {db : Database n} {structs : List (TypeDef n)}
    {m m2 : dependency_map n} {result : List (TypeDef n)} (hm : added db structs m)
    (inv2 : sort_inv db (has_edge m) m2 result) (hk2 : m2.map Prod.fst = m.map Prod.fst)
    (hall : ∀ k, is_key m k → is_permanent m2 k = true) (k : TypeDef n) :
    k ∈ result ↔ (reaches db structs k ∧ (db.row k).EnclosingType = none) := by
  rw [inv2.sorted_perm k]
  constructor
  · rintro ⟨hp, he⟩
    exact ⟨hm.reach k ((is_key_of_same_keys hk2 k).1 (is_key_of_permanent m2 k hp)), he⟩
  · rintro ⟨hr, he⟩
    exact ⟨hall k (is_key_of_reaches hm k hr), he⟩

/-- C17: when the by-value field graph of the list has no cycle, `sort` after the `add` of
every struct returns a sequence without repetition whose elements are the types that are in
the list or reached from it through a chain of by-value fields and that have no enclosing
type: every such type is in it, once, and it holds no type with an enclosing type and no
other type. -/
theorem transitive_closure_emitted {n : Nat} (db : Database n) (structs : List (TypeDef n))
    (h : acyclic db structs) :
    ∃ result, sorted_structs db structs = Except.ok result ∧ result.Nodup ∧
      (∀ k, k ∈ result ↔ (reaches db structs k ∧ (db.row k).EnclosingType = none)) ∧
      (∀ k ∈ result, ∀ t, contains_by_value db k t → (db.row t).EnclosingType = none →
        t ∈ result) ∧
      ∀ k ∈ result, (db.row k).EnclosingType = none := by
  obtain ⟨m, _, hm, hres⟩ := sorted_structs_spec db structs
  rcases hres with ⟨result, m2, hs, inv2, hk2, hall⟩ | ⟨_, hcyc⟩
  · have hmem := mem_sorted_iff_reaches hm inv2 hk2 hall
    refine ⟨result, hs, inv2.nodup, hmem, fun k hk t hkt ht => ?_, fun k hk => ((hmem k).1 hk).2⟩
    obtain ⟨s, hs, hsk⟩ := ((hmem k).1 hk).1
    exact (hmem t).2 ⟨⟨s, hs, Relation.ReflTransGen.tail hsk hkt⟩, ht⟩
  · exact absurd h hcyc

theorem transitive_closure_emitted_witness :
    acyclic chain_db [0] ∧
    ∃ result, sorted_structs chain_db [0] = Except.ok result ∧ result.Nodup ∧
      (∀ k, k ∈ result ↔ (reaches chain_db [0] k ∧ (chain_db.row k).EnclosingType = none)) ∧
      (∀ k ∈ result, ∀ t, contains_by_value chain_db k t →
        (chain_db.row t).EnclosingType = none → t ∈ result) ∧
      ∀ k ∈ result, (chain_db.row k).EnclosingType = none :=
  ⟨acyclic_of_lt chain_db [0] (by decide),
    transitive_closure_emitted chain_db [0] (acyclic_of_lt chain_db [0] (by decide))⟩

theorem category_of_reaches {n : Nat} (db : Database n) (structs : List (TypeDef n))
    (h : ∀ s ∈ structs, (db.row s).category = category.struct_type) (k : TypeDef n)
    (hk : reaches db structs k) : (db.row k).category ≠ category.enum_type := by
  obtain ⟨s, hs, hsk⟩ := hk
  cases hsk with
  | refl => rw [h k hs]; decide
  | tail _ hbk =>
    obtain ⟨_, _, _, _, hc⟩ := hbk
    exact hc

/-- C18, counterexample: the struct `S` has a field of pointer depth 0 whose type is the
interface `I`; `add` gives `S` the edge to `I` and makes `I` a node, and the output of the
resolver holds `I`, which is not of the struct category. -/
theorem interface_field_in_order :
    (interface_field_db.row 0).category = category.struct_type ∧
    (interface_field_db.row 1).category = category.interface_type ∧
    add_all interface_field_db [0] = Except.ok [(0, { edges := [1] }), (1, {})] ∧
    sorted_structs interface_field_db [0] = Except.ok [1, 0] :=
  ⟨rfl, rfl, rfl, rfl⟩

/-- C18, amended: for a list of struct TypeDefs the `add` of every struct returns a map in
which the edges of a node are the types of its fields of pointer depth 0 that are a TypeDef of
any category but enum, every edge is a node, and no node is of the enum category; `sort`
returns an order whose elements are reached from the list through such fields and are not of
the enum category, or raises the error of a cycle when the graph has one. -/
theorem dependency_graph_edges {n : Nat} (db : Database n) (structs : List (TypeDef n))
    (h : ∀ s ∈ structs, (db.row s).category = category.struct_type) :
    ∃ m, add_all db structs = Except.ok m ∧
      (∀ k nd, map_find m k = some nd → ∀ e, e ∈ nd.edges ↔
        ∃ field ∈ (db.row k).FieldList, field.Signature.ptr_count = 0 ∧
          field.Signature.Type_ = TypeSigType.coded_index (TypeDefOrRef.TypeDef e) ∧
          (db.row e).category ≠ category.enum_type) ∧
      (∀ k nd, map_find m k = some nd → ∀ e ∈ nd.edges, (map_find m e).isSome = true) ∧
      (∀ k nd, map_find m k = some nd → (db.row k).category ≠ category.enum_type) ∧
      ((∃ result, sorted_structs db structs = Except.ok result ∧
          ∀ k ∈ result, reaches db structs k ∧ (db.row k).category ≠ category.enum_type) ∨
        (sorted_structs db structs
            = Except.error (error.invalid_argument "Cyclic dependency graph encountered") ∧
          ¬ acyclic db structs)) := by
  obtain ⟨m, hadd, hm, hres⟩ := sorted_structs_spec db structs
  refine ⟨m, hadd, fun k nd hk e => hm.edges k nd hk e,
    fun k nd hk e he => hm.closed k e ⟨nd, hk, he⟩,
    fun k nd hk => category_of_reaches db structs h k
      (hm.reach k (Option.isSome_iff_exists.2 ⟨nd, hk⟩)), ?_⟩
  rcases hres with ⟨result, m2, hs, inv2, hk2, hall⟩ | ⟨hs, hcyc⟩
  · refine Or.inl ⟨result, hs, fun k hk => ?_⟩
    have hr := ((mem_sorted_iff_reaches hm inv2 hk2 hall k).1 hk).1
    exact ⟨hr, category_of_reaches db structs h k hr⟩
  · exact Or.inr ⟨hs, hcyc⟩

theorem dependency_graph_edges_witness :
    (∀ s ∈ ([0] : List (TypeDef 2)),
      (interface_field_db.row s).category = category.struct_type) ∧
    ∃ m, add_all interface_field_db [0] = Except.ok m ∧
      (∀ k nd, map_find m k = some nd → ∀ e, e ∈ nd.edges ↔
        ∃ field ∈ (interface_field_db.row k).FieldList, field.Signature.ptr_count = 0 ∧
          field.Signature.Type_ = TypeSigType.coded_index (TypeDefOrRef.TypeDef e) ∧
          (interface_field_db.row e).category ≠ category.enum_type) ∧
      (∀ k nd, map_find m k = some nd → ∀ e ∈ nd.edges, (map_find m e).isSome = true) ∧
      (∀ k nd, map_find m k = some nd →
        (interface_field_db.row k).category ≠ category.enum_type) ∧
      ((∃ result, sorted_structs interface_field_db [0] = Except.ok result ∧
          ∀ k ∈ result, reaches interface_field_db [0] k ∧
            (interface_field_db.row k).category ≠ category.enum_type) ∨
        (sorted_structs interface_field_db [0]
            = Except.error (error.invalid_argument "Cyclic dependency graph encountered") ∧
          ¬ acyclic interface_field_db [0])) :=
  ⟨by decide, dependency_graph_edges interface_field_db [0] (by decide)⟩

/-! ## Struct dependency sorter: structs without dependency -/

theorem add_exact_loop {n : Nat} (db : Database n) (fuel : Nat)
    (ih : ∀ (m : dependency_map n) (t : TypeDef n) (m' : dependency_map n),
      (m.map Prod.fst).Pairwise (· < ·) → add db fuel m t = Except.ok m' →
      (m'.map Prod.fst).Pairwise (· < ·) ∧ (∀ k, is_key m k → map_find m' k = map_find m k) ∧
        ∀ k nd, ¬ is_key m k → map_find m' k = some nd → nd = field_node db k)
    (type : TypeDef n) :
    ∀ (fs : List (Field n)) (m2 : dependency_map n) (nd0 : node n) (m' : dependency_map n),
      (m2.map Prod.fst).Pairwise (· < ·) → map_find m2 type = some nd0 →
      for_each (fun m2 field =>
          match field_edge db field with
          | some field_type_def =>
            add db fuel (map_modify m2 type fun nd => nd.add_edge field_type_def) field_type_def
          | none => Except.ok m2) fs m2 = Except.ok m' →
      (m'.map Prod.fst).Pairwise (· < ·) ∧
        (∀ k, k ≠ type → is_key m2 k → map_find m' k = map_find m2 k) ∧
        map_find m' type = some (fs.foldl (edge_step db) nd0) ∧
        ∀ k nd, ¬ is_key m2 k → map_find m' k = some nd → nd = field_node db k := by
  intro fs
  induction fs with
  | nil =>
    intro m2 nd0 m' hs hf h
    simp only [for_each, Except.ok.injEq] at h
    subst h
    refine ⟨hs, fun k _ _ => rfl, hf, fun k nd hk hnd => ?_⟩
    exact absurd (Option.isSome_iff_exists.2 ⟨nd, hnd⟩) hk
  | cons f fs ihfs =>
    intro m2 nd0 m' hs hf h
    cases hfe : field_edge db f with
    | none =>
      simp only [for_each, hfe] at h
      have := ihfs m2 nd0 m' hs hf h
      simpa only [List.foldl_cons, edge_step, hfe] using this
    | some e =>
      simp only [for_each, hfe] at h
      cases hadd : add db fuel (map_modify m2 type fun nd => nd.add_edge e) e with
      | error err => rw [hadd] at h; cases h
      | ok m4 =>
        rw [hadd] at h
        have hs3 : ((map_modify m2 type fun nd => nd.add_edge e).map Prod.fst).Pairwise
            (· < ·) := by rw [map_modify_keys]; exact hs
        obtain ⟨hs4, hold, hnew⟩ := ih _ e m4 hs3 hadd
        have hkey3 : ∀ k, is_key (map_modify m2 type fun nd => nd.add_edge e) k ↔ is_key m2 k :=
          fun k => is_key_modify m2 type _ k
        have hkt : is_key m2 type := Option.isSome_iff_exists.2 ⟨nd0, hf⟩
        have hf4 : map_find m4 type = some (nd0.add_edge e) := by
          rw [hold type ((hkey3 type).2 hkt), map_find_modify]
          simp [hf]
        obtain ⟨hs', hold', htype', hnew'⟩ := ihfs m4 (nd0.add_edge e) m' hs4 hf4 h
        have h42 : ∀ k, k ≠ type → is_key m2 k → map_find m4 k = map_find m2 k := by
          intro k hk hk2
          rw [hold k ((hkey3 k).2 hk2), map_find_modify]
          simp [hk]
        refine ⟨hs', fun k hk hk2 => ?_, ?_, fun k nd hk hnd => ?_⟩
        · have hk4 : is_key m4 k := by
            unfold is_key
            rw [h42 k hk hk2]
            exact hk2
          rw [hold' k hk hk4, h42 k hk hk2]
        · simpa only [List.foldl_cons, edge_step, hfe] using htype'
        · by_cases hk4 : is_key m4 k
          · have hkt2 : k ≠ type := fun hc => hk (hc ▸ hkt)
            rw [hold' k hkt2 hk4] at hnd
            exact hnew k nd (fun hc => hk ((hkey3 k).1 hc)) hnd
          · exact hnew' k nd hk4 hnd

theorem add_exact {n : Nat} (db : Database n) :
    ∀ (fuel : Nat) (m : dependency_map n) (t : TypeDef n) (m' : dependency_map n),
      (m.map Prod.fst).Pairwise (· < ·) → add db fuel m t = Except.ok m' →
      (m'.map Prod.fst).Pairwise (· < ·) ∧ (∀ k, is_key m k → map_find m' k = map_find m k) ∧
        ∀ k nd, ¬ is_key m k → map_find m' k = some nd → nd = field_node db k := by
  intro fuel
  induction fuel with
  | zero => intro m t m' _ h; simp [add] at h
  | succ fuel ih =>
    intro m t m' hs h
    cases hins : map_insert m t {} with
    | mk m1 inserted =>
      cases inserted with
      | false =>
        simp only [add, hins, Except.ok.injEq] at h
        subst h
        exact ⟨hs, fun k _ => rfl, fun k nd hk hnd =>
          absurd (Option.isSome_iff_exists.2 ⟨nd, hnd⟩) hk⟩
      | true =>
        simp only [add, hins] at h
        have hnone : map_find m t = none := by
          rw [← map_insert_snd m t {} hs, hins]
        have hm1 : m1 = (map_insert m t {}).1 := by rw [hins]
        have hfind1 : ∀ k, map_find m1 k = if k = t then some {} else map_find m k := by
          intro k; rw [hm1]; exact map_find_insert m t {} hnone k
        have hs1 : (m1.map Prod.fst).Pairwise (· < ·) := by
          rw [hm1]; exact map_insert_sorted m t {} hs
        obtain ⟨hs', hold', htype', hnew'⟩ := add_exact_loop db fuel ih t (db.row t).FieldList
          m1 {} m' hs1 (by rw [hfind1]; simp) h
        have hnt : ¬ is_key m t := by unfold is_key; rw [hnone]; simp
        refine ⟨hs', fun k hk => ?_, fun k nd hk hnd => ?_⟩
        · have hkt : k ≠ t := fun hc => hnt (hc ▸ hk)
          have hk1 : is_key m1 k := by
            unfold is_key; rw [hfind1]; simpa only [hkt, if_false] using hk
          rw [hold' k hkt hk1, hfind1]
          simp only [hkt, if_false]
        · by_cases hkt : k = t
          · subst hkt
            rw [htype'] at hnd
            simp only [Option.some.injEq] at hnd
            rw [← hnd]; rfl
          · have hk1 : ¬ is_key m1 k := by
              unfold is_key; rw [hfind1]; simpa only [hkt, if_false] using hk
            exact hnew' k nd hk1 hnd

theorem add_all_exact {n : Nat} (db : Database n) :
    ∀ (structs : List (TypeDef n)) (m m' : dependency_map n),
      (m.map Prod.fst).Pairwise (· < ·) →
      (∀ k nd, map_find m k = some nd → nd = field_node db k) →
      for_each (fun m type => add db (n + 1) m type) structs m = Except.ok m' →
      (m'.map Prod.fst).Pairwise (· < ·) ∧
        ∀ k nd, map_find m' k = some nd → nd = field_node db k := by
  intro structs
  induction structs with
  | nil =>
    intro m m' hs hc h
    simp only [for_each, Except.ok.injEq] at h
    subst h
    exact ⟨hs, hc⟩
  | cons s structs ih =>
    intro m m' hs hc h
    simp only [for_each] at h
    cases hadd : add db (n + 1) m s with
    | error err => rw [hadd] at h; cases h
    | ok m1 =>
      rw [hadd] at h
      obtain ⟨hs1, hold, hnew⟩ := add_exact db (n + 1) m s m1 hs hadd
      refine ih m1 m' hs1 (fun k nd hnd => ?_) h
      by_cases hk : is_key m k
      · rw [hold k hk] at hnd
        exact hc k nd hnd
      · exact hnew k nd hk hnd

theorem map_eq_of_keys {n : Nat} (c : TypeDef n → node n) (m : dependency_map n)
    (hs : (m.map Prod.fst).Pairwise (· < ·))
    (hc : ∀ k nd, map_find m k = some nd → nd = c k) :
    m = (m.map Prod.fst).map fun k => (k, c k) := by
  rw [List.map_map]
  conv_lhs => rw [← List.map_id m]
  apply List.map_congr_left
  intro e he
  have := hc e.1 e.2 (map_find_of_mem m hs e he)
  simp only [id, Function.comp]
  rw [← this]

theorem map_ext_of_keys {n : Nat} (c : TypeDef n → node n) (m m' : dependency_map n)
    (hs : (m.map Prod.fst).Pairwise (· < ·)) (hs' : (m'.map Prod.fst).Pairwise (· < ·))
    (hc : ∀ k nd, map_find m k = some nd → nd = c k)
    (hc' : ∀ k nd, map_find m' k = some nd → nd = c k)
    (hk : ∀ k, is_key m k ↔ is_key m' k) : m = m' := by
  have hkeys : m.map Prod.fst = m'.map Prod.fst := by
    apply List.eq_of_perm_of_sorted _ hs hs'
    rw [List.perm_ext_iff_of_nodup (hs.imp fun hlt => ne_of_lt hlt)
      (hs'.imp fun hlt => ne_of_lt hlt)]
    intro k
    rw [← is_key_iff_mem, ← is_key_iff_mem]
    exact hk k
  rw [map_eq_of_keys c m hs hc, map_eq_of_keys c m' hs' hc', hkeys]

theorem edge_step_nodup {n : Nat} (db : Database n) :
    ∀ (fs : List (Field n)) (nd : node n), nd.edges.Nodup →
      (fs.foldl (edge_step db) nd).edges.Nodup := by
  intro fs
  induction fs with
  | nil => intro nd h; exact h
  | cons f fs ih =>
    intro nd h
    simp only [List.foldl_cons]
    apply ih
    unfold edge_step
    cases field_edge db f with
    | none => exact h
    | some t =>
      simp only [node.add_edge]
      by_cases ht : t ∈ nd.edges
      · simp only [ht, if_true]; exact h
      · simp only [ht, if_false]
        rw [List.nodup_append]
        refine ⟨h, List.nodup_singleton t, ?_⟩
        intro a ha hb
        rw [List.mem_singleton] at hb
        subst hb
        exact ht ha

theorem add_all_field_node {n : Nat} (db : Database n) (structs : List (TypeDef n))
    (m : dependency_map n) (h : add_all db structs = Except.ok m) :
    ∀ k nd, map_find m k = some nd → nd = field_node db k :=
  (add_all_exact db structs [] m List.Pairwise.nil
    (fun k nd hk => by simp [map_find] at hk) h).2

theorem is_key_iff_reaches {n : Nat} {db : Database n} {structs : List (TypeDef n)}
    {m : dependency_map n} (h : added db structs m) (k : TypeDef n) :
    is_key m k ↔ reaches db structs k :=
  ⟨h.reach k, is_key_of_reaches h k⟩

/-- C22: the order of `write_structs` depends only on the set of the structs of the list: for
two lists with the same elements, in any order and with or without repetition, the `add` of
every struct and `sort` give the same result, the same sequence or the same error. -/
theorem order_of_set {n : Nat} (db : Database n) (L L' : List (TypeDef n))
    (h : ∀ k, k ∈ L ↔ k ∈ L') :
    add_all db L = add_all db L' ∧ sorted_structs db L = sorted_structs db L' := by
  obtain ⟨m, hadd, hm⟩ := add_all_spec db L
  obtain ⟨m', hadd', hm'⟩ := add_all_spec db L'
  have hreach : ∀ k, reaches db L k ↔ reaches db L' k := by
    intro k
    constructor
    · rintro ⟨s, hs, hsk⟩; exact ⟨s, (h s).1 hs, hsk⟩
    · rintro ⟨s, hs, hsk⟩; exact ⟨s, (h s).2 hs, hsk⟩
  have heq : m = m' :=
    map_ext_of_keys (field_node db) m m' hm.sorted hm'.sorted
      (add_all_field_node db L m hadd) (add_all_field_node db L' m' hadd')
      (fun k => by rw [is_key_iff_reaches hm, is_key_iff_reaches hm', hreach k])
  have hmaps : add_all db L = add_all db L' := by rw [hadd, hadd', heq]
  exact ⟨hmaps, by simp only [sorted_structs, hmaps]⟩

theorem order_of_set_witness :
    (∀ k, k ∈ ([0, 1] : List (TypeDef 3)) ↔ k ∈ ([1, 0, 1] : List (TypeDef 3))) ∧
    (add_all chain_db [0, 1] = add_all chain_db [1, 0, 1] ∧
      sorted_structs chain_db [0, 1] = sorted_structs chain_db [1, 0, 1]) :=
  ⟨by decide, order_of_set chain_db [0, 1] [1, 0, 1] (by decide)⟩

/-! ## Closure of the dependency map -/

/-- C23: from an empty sorter, the `add` of every type of any list, on any database, returns
a map in which no node holds an edge twice and every edge of every node is a key; `sort` then
returns an order or raises the error of a cycle, and never the failure of the assertion
`it != dependency_map.end()` of `visit`. For the struct with two fields of its own type the
map is the one node with the one edge to itself, and for two structs that contain each other
it is the two nodes with the edge to the other. -/
theorem closure_invariant :
    (∀ (n : Nat) (db : Database n) (structs : List (TypeDef n)),
      ∃ m, add_all db structs = Except.ok m ∧
        (∀ k nd, map_find m k = some nd →
          nd.edges.Nodup ∧ ∀ e ∈ nd.edges, (map_find m e).isSome = true) ∧
        ((∃ result, sorted_structs db structs = Except.ok result) ∨
          sorted_structs db structs
            = Except.error (error.invalid_argument "Cyclic dependency graph encountered")) ∧
        ∀ what, sorted_structs db structs ≠ Except.error (error.assertion_failed what)) ∧
    add_all self_db [0] = Except.ok [(0, { edges := [0] })] ∧
    add_all cycle_db [0] = Except.ok [(0, { edges := [1] }), (1, { edges := [0] })] := by
  refine ⟨fun n db structs => ?_, rfl, rfl⟩
  obtain ⟨m, hadd, hm, hres⟩ := sorted_structs_spec db structs
  refine ⟨m, hadd, fun k nd hk => ⟨?_, fun e he => hm.closed k e ⟨nd, hk, he⟩⟩, ?_, ?_⟩
  · rw [add_all_field_node db structs m hadd k nd hk]
    exact edge_step_nodup db _ _ List.nodup_nil
  · rcases hres with ⟨result, _, hs, _⟩ | ⟨hs, _⟩
    · exact Or.inl ⟨result, hs⟩
    · exact Or.inr hs
  · intro what hc
    rcases hres with ⟨result, _, hs, _⟩ | ⟨hs, _⟩
    · rw [hs] at hc; cases hc
    · rw [hs] at hc; cases hc

theorem closure_invariant_witness :
    ∃ m, add_all cycle_db [0, 1] = Except.ok m ∧
      (∀ k nd, map_find m k = some nd →
        nd.edges.Nodup ∧ ∀ e ∈ nd.edges, (map_find m e).isSome = true) ∧
      ((∃ result, sorted_structs cycle_db [0, 1] = Except.ok result) ∨
        sorted_structs cycle_db [0, 1]
          = Except.error (error.invalid_argument "Cyclic dependency graph encountered")) ∧
      ∀ what, sorted_structs cycle_db [0, 1] ≠ Except.error (error.assertion_failed what) :=
  closure_invariant.1 2 cycle_db [0, 1]

/-! ## The assertion of `non_inherited_methods` -/

/-- C24: for every type, `write_interface_abi` and `write_consume` return without error: a
type that passes `should_write_interface` has 3 methods at least, so the assertion of
`non_inherited_methods` holds and the slice is the method list from its fourth element on; a
type that fails the test, with fewer than 3 methods or named `IUnknown`, gets the empty
output. -/
theorem slicing_assertion_holds {n : Nat} (tw : type_writers n) (w : writer) (db : Database n)
    (type : TypeDef n) :
    (should_write_interface db type = true →
      3 ≤ (db.row type).MethodList.length ∧
      non_inherited_methods db type = Except.ok ((db.row type).MethodList.drop 3)) ∧
    (∃ text, write_interface_abi tw w db type = Except.ok text) ∧
    (∃ text, write_consume tw w db type = Except.ok text) ∧
    (should_write_interface db type = false →
      write_interface_abi tw w db type = Except.ok "" ∧
      write_consume tw w db type = Except.ok "") ∧
    ((db.row type).MethodList.length < 3 ∨ (db.row type).TypeName = "IUnknown" →
      should_write_interface db type = false) := by
  refine ⟨fun h => ?_, ?_, ?_, fun h => ?_, fun h => ?_⟩
  · have h3 := ((should_write_interface_iff db type).1 h).2
    refine ⟨h3, ?_⟩
    simp only [non_inherited_methods, ge_iff_le, h3, if_true]
  · cases h : should_write_interface db type with
    | true => exact ⟨_, write_interface_abi_eq tw w db type h⟩
    | false => exact ⟨"", by simp only [write_interface_abi, h, Bool.not_false, if_true]⟩
  · cases h : should_write_interface db type with
    | true => exact ⟨_, write_consume_eq tw w db type h⟩
    | false => exact ⟨"", by simp only [write_consume, h, Bool.not_false, if_true]⟩
  · exact ⟨by simp only [write_interface_abi, h, Bool.not_false, if_true],
      by simp only [write_consume, h, Bool.not_false, if_true]⟩
  · cases hs : should_write_interface db type with
    | false => rfl
    | true =>
      obtain ⟨h1, h2⟩ := (should_write_interface_iff db type).1 hs
      rcases h with h | h
      · omega
      · exact absurd h h1

theorem slicing_assertion_holds_witness :
    should_write_interface (interface_db "IFoo" ["QueryInterface", "AddRef"]) 0 = false ∧
    should_write_interface (interface_db "IUnknown" ["QueryInterface", "AddRef", "Release"]) 0
      = false ∧
    write_interface_abi (sample_writers 1) {} (interface_db "IFoo" ["QueryInterface", "AddRef"]) 0
      = Except.ok "" ∧
    write_consume (sample_writers 1) {}
      (interface_db "IUnknown" ["QueryInterface", "AddRef", "Release"]) 0 = Except.ok "" ∧
    non_inherited_methods (interface_db "IFoo" ["QueryInterface", "AddRef", "Release", "Foo"]) 0
      = Except.ok [{ Name := "Foo" }] :=
  ⟨(slicing_assertion_holds (sample_writers 1) {}
      (interface_db "IFoo" ["QueryInterface", "AddRef"]) 0).2.2.2.2 (Or.inl (by decide)),
   (slicing_assertion_holds (sample_writers 1) {}
      (interface_db "IUnknown" ["QueryInterface", "AddRef", "Release"]) 0).2.2.2.2
      (Or.inr rfl),
   ((slicing_assertion_holds (sample_writers 1) {}
      (interface_db "IFoo" ["QueryInterface", "AddRef"]) 0).2.2.2.1 (by decide)).1,
   ((slicing_assertion_holds (sample_writers 1) {}
      (interface_db "IUnknown" ["QueryInterface", "AddRef", "Release"]) 0).2.2.2.1
      (by decide)).2,
   ((slicing_assertion_holds (sample_writers 1) {}
      (interface_db "IFoo" ["QueryInterface", "AddRef", "Release", "Foo"]) 0).1 (by decide)).2⟩

/-! ## The messages of the errors -/

theorem complex_struct_field_errors {n : Nat} (tw : type_writers n) (w : writer)
    (db : Database n) (fields : List struct_field) (field : Field n) (e : error)
    (h : complex_struct_field tw w db fields field = Except.error e) :
    e = error.invalid_argument "FixedBufferAttribute should have 2 args" ∨
      e = error.bad_variant_access := by
  cases hn : get_nested_type db field.Signature with
  | none =>
    rw [complex_struct_field_plain tw w db fields field hn] at h
    cases h
  | some t =>
    rw [complex_struct_field_nested tw w db fields field t hn] at h
    split at h
    · split at h
      · cases h; exact Or.inl rfl
      · split at h
        · cases h
        · cases h; exact Or.inr rfl
    · cases h

theorem complex_struct_errors {n : Nat} (tw : type_writers n) (w : writer) (db : Database n) :
    ∀ (fs : List (Field n)) (acc : List struct_field) (e : error),
      for_each (complex_struct_field tw w db) fs acc = Except.error e →
      e = error.invalid_argument "FixedBufferAttribute should have 2 args" ∨
        e = error.bad_variant_access := by
  intro fs
  induction fs with
  | nil => intro acc e h; cases h
  | cons f fs ih =>
    intro acc e h
    simp only [for_each] at h
    cases hf : complex_struct_field tw w db acc f with
    | error e2 =>
      rw [hf] at h
      cases h
      exact complex_struct_field_errors tw w db acc f e hf
    | ok acc2 =>
      rw [hf] at h
      exact ih acc2 e h

theorem write_struct_errors {n : Nat} (tw : type_writers n) (w : writer) (db : Database n)
    (type : TypeDef n) (e : error) (h : write_struct tw w db type = Except.error e) :
    e = error.invalid_argument "FixedBufferAttribute should have 2 args" ∨
      e = error.bad_variant_access := by
  cases hc : complex_struct tw w db type with
  | error e2 =>
    rw [write_struct_of_error tw w db type e2 hc] at h
    cases h
    exact complex_struct_errors tw w db _ [] e hc
  | ok fields =>
    simp only [write_struct, hc] at h
    cases h

/-- C21, counterexample: the cycle of the structs `N.A` and `N.B`, the struct `N.S` with a
one-argument `FixedBufferAttribute` on a field of a nested type and the interface `N.IFoo`
with a GUID text of 5 characters raise errors whose messages hold neither the namespace nor
the name of the type. -/
theorem error_without_type_name :
    sorted_structs cycle_db [0]
      = Except.error (error.invalid_argument "Cyclic dependency graph encountered") ∧
    (cycle_db.row 0).TypeNamespace = "N" ∧ (cycle_db.row 0).TypeName = "A" ∧
    find_substring "Cyclic dependency graph encountered".data "N.A".data = false ∧
    write_struct (sample_writers 2) {} (buffer_db "Buffer" [fixed_buffer_of [ElemSig.int32 16]]) 0
      = Except.error (error.invalid_argument "FixedBufferAttribute should have 2 args") ∧
    find_substring "FixedBufferAttribute should have 2 args".data "N.S".data = false ∧
    write_guid (sample_writers 1) {} (guid_db "IFoo" [guid_attribute_of "12345"]) 0
        ⟨0, 0, 0, []⟩
      = Except.error (error.invalid_argument "Invalid GuidAttribute blob") ∧
    find_substring "Invalid GuidAttribute blob".data "N.IFoo".data = false :=
  ⟨rfl, rfl, rfl, by decide, rfl, by decide, rfl, by decide⟩

/-- C21, amended: of the four errors only that of a missing `GuidAttribute` reports the type:
its message holds the namespace and the name of the type joined by a dot. An error of `sort`
is the error of the fixed message `Cyclic dependency graph encountered`, an invalid-argument
error of `write_struct` has the fixed message `FixedBufferAttribute should have 2 args`, and
`write_guid` on a GUID text of fewer than 36 characters raises the error of the fixed message
`Invalid GuidAttribute blob`, whatever the type. -/
theorem error_messages :
    (∀ (n : Nat) (db : Database n) (structs : List (TypeDef n)) (e : error),
      sorted_structs db structs = Except.error e →
      e = error.invalid_argument "Cyclic dependency graph encountered") ∧
    (∀ (n : Nat) (tw : type_writers n) (w : writer) (db : Database n) (type : TypeDef n)
      (what : String), write_struct tw w db type = Except.error (error.invalid_argument what) →
      what = "FixedBufferAttribute should have 2 args") ∧
    (∀ (n : Nat) (tw : type_writers n) (w : writer) (db : Database n) (type : TypeDef n)
      (uninit : guid) (a : CustomAttribute) (text : String),
      (db.row type).TypeName ≠ "IUnknown" →
      get_attribute (db.row type).attributes "System.Runtime.InteropServices" "GuidAttribute"
        = some a →
      a.FixedArgs.head? = some (ElemSig.string text) → text.length < 36 →
      write_guid tw w db type uninit
        = Except.error (error.invalid_argument "Invalid GuidAttribute blob")) ∧
    (∀ (n : Nat) (tw : type_writers n) (w : writer) (db : Database n) (type : TypeDef n)
      (uninit : guid), (db.row type).TypeName ≠ "IUnknown" →
      get_attribute (db.row type).attributes "System.Runtime.InteropServices" "GuidAttribute"
        = none →
      write_guid tw w db type uninit = Except.error (error.invalid_argument
        ("'System.Runtime.InteropServices.GuidAttribute' attribute for type '" ++
          (db.row type).TypeNamespace ++ "." ++ (db.row type).TypeName ++ "' not found"))) := by
  refine ⟨fun n db structs e h => ?_, fun n tw w db type what h => ?_,
    fun n tw w db type uninit a text hn ha htext hlen => ?_,
    fun n tw w db type uninit hn hno => ?_⟩
  · obtain ⟨m, _, _, hres⟩ := sorted_structs_spec db structs
    rcases hres with ⟨result, _, hs, _⟩ | ⟨hs, _⟩
    · rw [hs] at h; cases h
    · rw [hs] at h; cases h; rfl
  · rcases write_struct_errors tw w db type _ h with h1 | h1
    · cases h1; rfl
    · cases h1
  · simp only [write_guid, hn, if_false, ha, htext, to_guid_short text uninit hlen]
  · simp only [write_guid, hn, if_false, hno, throw_invalid_not_found]
    rfl

theorem error_messages_witness :
    (∃ e, sorted_structs cycle_db [1] = Except.error e ∧
      e = error.invalid_argument "Cyclic dependency graph encountered") ∧
    (∃ what, write_struct (sample_writers 2) {}
        (buffer_db "Buffer" [fixed_buffer_of [ElemSig.int32 16]]) 0
        = Except.error (error.invalid_argument what) ∧
      what = "FixedBufferAttribute should have 2 args") ∧
    write_guid (sample_writers 1) {} (guid_db "IBar" [guid_attribute_of "0000-0000"]) 0
        ⟨0, 0, 0, []⟩
      = Except.error (error.invalid_argument "Invalid GuidAttribute blob") ∧
    write_guid (sample_writers 1) {} (guid_db "IBar" []) 0 ⟨0, 0, 0, []⟩
      = Except.error (error.invalid_argument
          "'System.Runtime.InteropServices.GuidAttribute' attribute for type 'N.IBar' not found") :=
  ⟨⟨cyclic_error, rfl, error_messages.1 2 cycle_db [1] cyclic_error rfl⟩,
   ⟨"FixedBufferAttribute should have 2 args", rfl,
     error_messages.2.1 2 (sample_writers 2) {}
       (buffer_db "Buffer" [fixed_buffer_of [ElemSig.int32 16]]) 0
       "FixedBufferAttribute should have 2 args" rfl⟩,
   error_messages.2.2.1 1 (sample_writers 1) {} (guid_db "IBar" [guid_attribute_of "0000-0000"])
     0 ⟨0, 0, 0, []⟩ (guid_attribute_of "0000-0000") "0000-0000" (by decide) rfl rfl (by decide),
   error_messages.2.2.2 1 (sample_writers 1) {} (guid_db "IBar" []) 0 ⟨0, 0, 0, []⟩
     (by decide) rfl⟩

/-! ## Own methods of an interface -/

theorem write_interface_abi_slot_eq {n : Nat} (tw : type_writers n) (w : writer)
    (m : MethodDef n) : write_interface_abi_slot tw w m = pure_virtual_slot tw w m := by
  have h1 : write_abi_params tw w m = declared_params tw w m := by
    simp only [write_abi_params, declared_params, write_separated_eq, write_two,
      abi_param_type_eq]
  have h3 : write_abi_return tw w m.return_signature = return_text tw w m.return_signature :=
    rfl
  have h4 : ∀ a b c : String,
      write tw "            virtual % __stdcall %(%) noexcept = 0;\n" [a, b, c]
        = "            virtual " ++ a ++ " __stdcall " ++ b ++ "(" ++ c ++
          ") noexcept = 0;\n" := by
    intro a b c
    simp only [String.append_assoc]
    rfl
  simp only [write_interface_abi_slot, h1, h3, h4, pure_virtual_slot]

theorem write_consume_declaration_eq {n : Nat} (tw : type_writers n) (w : writer)
    (m : MethodDef n) : write_consume_declaration tw w m = consumer_declaration tw w m := by
  have h1 : write_consume_params tw w m
      = ", ".intercalate (m.params.map fun p => tw.write_TypeSig w p.2 ++ " " ++ p.1.Name) := by
    simp only [write_consume_params, write_separated_eq, write_two]
  have h4 : ∀ a b c : String,
      write tw "        WIN32_IMPL_AUTO(%) %(%) const;\n" [a, b, c]
        = "        WIN32_IMPL_AUTO(" ++ a ++ ") " ++ b ++ "(" ++ c ++ ") const;\n" := by
    intro a b c
    simp only [String.append_assoc]
    rfl
  simp only [write_consume_declaration, h1, h4, consumer_declaration]

/-- C7: for a type that passes `should_write_interface`, which has `n` methods with `n` at
least 3, `write_interface_abi` writes between the opening and the closing of the dispatch table
exactly `n - 3` pure-virtual slots, each the line
`virtual <return> __stdcall <name>(<parameters>) noexcept = 0;`, and `write_consume` writes
inside the consumer struct exactly `n - 3` declarations, each the line
`WIN32_IMPL_AUTO(<return>) <name>(<parameters>) const;`; in both the entry `k` is that of the
method at index `3 + k` of the method list, so the first three methods are left out by their
position, whatever their names. -/
theorem own_method_slots {n : Nat} (tw : type_writers n) (w : writer) (db : Database n)
    (type : TypeDef n) (h : should_write_interface db type = true) :
    3 ≤ (db.row type).MethodList.length ∧
    ∃ slots declarations : List String,
      slots.length = (db.row type).MethodList.length - 3 ∧
      declarations.length = (db.row type).MethodList.length - 3 ∧
      (∀ k, k < (db.row type).MethodList.length - 3 →
        ∃ method, (db.row type).MethodList[3 + k]? = some method ∧
          slots[k]? = some
            ("            virtual " ++
              return_text tw (w.push_abi_types true) method.return_signature ++
              " __stdcall " ++ method.Name ++ "(" ++
              declared_params tw (w.push_abi_types true) method ++ ") noexcept = 0;\n") ∧
          declarations[k]? = some
            ("        WIN32_IMPL_AUTO(" ++ tw.write_RetTypeSig w method.return_signature ++
              ") " ++ method.Name ++ "(" ++
              ", ".intercalate
                (method.params.map fun p => tw.write_TypeSig w p.2 ++ " " ++ p.1.Name) ++
              ") const;\n")) ∧
      write_interface_abi tw w db type
        = Except.ok
            ("    template <> struct abi<" ++ tw.write_TypeDef w type ++ ">\n" ++
             "    \x7b\n" ++
             "        struct __declspec(novtable) type : unknown_abi\n" ++
             "        \x7b\n" ++
             String.join slots ++
             ("        \x7d;\n" ++
              "    \x7d;\n")) ∧
      write_consume tw w db type
        = Except.ok
            ("    struct consume_" ++
              tw.get_impl_name (db.row type).TypeNamespace (db.row type).TypeName ++ "\n" ++
             "    \x7b\n" ++
             String.join declarations ++ "    \x7d;\n") := by
  have h3 := ((should_write_interface_iff db type).1 h).2
  refine ⟨h3, ((db.row type).MethodList.drop 3).map
      (pure_virtual_slot tw (w.push_abi_types true)),
    ((db.row type).MethodList.drop 3).map (consumer_declaration tw w),
    by simp, by simp, ?_, ?_, ?_⟩
  · intro k hk
    have hlt : 3 + k < (db.row type).MethodList.length := by omega
    refine ⟨(db.row type).MethodList[3 + k], List.getElem?_eq_getElem hlt, ?_, ?_⟩
    · simp [List.getElem?_map, List.getElem?_drop, List.getElem?_eq_getElem hlt,
        pure_virtual_slot]
    · simp [List.getElem?_map, List.getElem?_drop, List.getElem?_eq_getElem hlt,
        consumer_declaration]
  · rw [write_interface_abi_eq tw w db type h]
    have hf : write_interface_abi_slot tw (w.push_abi_types true)
        = pure_virtual_slot tw (w.push_abi_types true) :=
      funext fun m => write_interface_abi_slot_eq tw (w.push_abi_types true) m
    rw [hf]
    simp only [abi_head, abi_tail, String.append_assoc]
  · rw [write_consume_eq tw w db type h]
    have hf : write_consume_declaration tw w = consumer_declaration tw w :=
      funext fun m => write_consume_declaration_eq tw w m
    rw [hf]
    simp only [consume_struct, String.append_assoc]

/-- An interface of 5 methods passes the test and gets the 2 slots and the 2 declarations of
its fourth and fifth method. -/
theorem own_method_slots_witness :
    should_write_interface
      (interface_db "IFoo" ["QueryInterface", "AddRef", "Release", "Foo", "Bar"]) 0 = true ∧
    (∃ slots declarations : List String, slots.length = 2 ∧ declarations.length = 2 ∧
      slots[0]? = some "            virtual void __stdcall Foo() noexcept = 0;\n" ∧
      slots[1]? = some "            virtual void __stdcall Bar() noexcept = 0;\n" ∧
      declarations[0]? = some "        WIN32_IMPL_AUTO(int) Foo() const;\n" ∧
      declarations[1]? = some "        WIN32_IMPL_AUTO(int) Bar() const;\n" ∧
      write_interface_abi (sample_writers 1) {}
        (interface_db "IFoo" ["QueryInterface", "AddRef", "Release", "Foo", "Bar"]) 0
        = Except.ok
            ("    template <> struct abi<" ++ "T0" ++ ">\n" ++
             "    \x7b\n" ++
             "        struct __declspec(novtable) type : unknown_abi\n" ++
             "        \x7b\n" ++
             String.join slots ++
             ("        \x7d;\n" ++
              "    \x7d;\n")) ∧
      write_consume (sample_writers 1) {}
        (interface_db "IFoo" ["QueryInterface", "AddRef", "Release", "Foo", "Bar"]) 0
        = Except.ok
            ("    struct consume_" ++ "N_IFoo" ++ "\n" ++
             "    \x7b\n" ++
             String.join declarations ++ "    \x7d;\n")) ∧
    write_interface_abi (sample_writers 1) {}
      (interface_db "IFoo" ["QueryInterface", "AddRef", "Release", "Foo", "Bar"]) 0
      = Except.ok
          ("    template <> struct abi<T0>\n" ++
           "    \x7b\n" ++
           "        struct __declspec(novtable) type : unknown_abi\n" ++
           "        \x7b\n" ++
           "            virtual void __stdcall Foo() noexcept = 0;\n" ++
           "            virtual void __stdcall Bar() noexcept = 0;\n" ++
           "        \x7d;\n" ++
           "    \x7d;\n") := by
  refine ⟨by decide, ?_, rfl⟩
  obtain ⟨_, slots, declarations, h1, h2, h3, h4, h5⟩ := own_method_slots (sample_writers 1) {}
    (interface_db "IFoo" ["QueryInterface", "AddRef", "Release", "Foo", "Bar"]) 0 (by decide)
  obtain ⟨m0, hm0, hs0, hd0⟩ := h3 0 (by decide)
  obtain ⟨m1, hm1, hs1, hd1⟩ := h3 1 (by decide)
  have e0 : m0 = { Name := "Foo" } := by
    have : some m0 = some ({ Name := "Foo" } : MethodDef 1) := hm0.symm.trans (by decide)
    exact Option.some.inj this
  have e1 : m1 = { Name := "Bar" } := by
    have : some m1 = some ({ Name := "Bar" } : MethodDef 1) := hm1.symm.trans (by decide)
    exact Option.some.inj this
  subst e0 e1
  exact ⟨slots, declarations, h1, h2, hs0.trans (by decide), hs1.trans (by decide),
    hd0.trans (by decide), hd1.trans (by decide), h4, h5⟩

end cppwin32
